import Mathlib

/-!
# The `acados::ocp_qp` C++ interface: bounds/index manager

Shallow embedding of `interfaces/acados_cpp/ocp_qp/ocp_qp.cpp`.

* A C++ object is a record `ocp_qp`; a member function that mutates it is a
  function returning the pair (what the call returned or threw, the object
  afterwards), so the state left behind by a throwing call is visible.
* `std::vector` is `List`; `v.at(i)` is `vec_at`, which throws `out_of_range`.
* `uint`/`int` values are natural numbers. Dimensions and vector lengths are
  taken to fit the machine types (the loop counters do not wrap); the one
  subtraction that can wrap, `N - 1`, is modelled modulo `2^32`.
* A `double` is modelled only as far as the interface looks at it: the two
  infinities, NaN, and finite values.
* Raw C arrays owned by the QP (`qp->idxb[stage]`) are total maps from
  positions to cells, so a write never fails; allocation sizes are not modelled.
-/

namespace acados

/-! ## Values and errors -/

/-- A `double`: `-INFINITY`, `+INFINITY`, NaN, or a finite value. -/
inductive Double where
  | ninf
  | pinf
  | nan
  | fin (q : ℚ)
  deriving DecidableEq

/-- The C++ `std::isfinite`. -/
def Double.isfinite : Double → Bool
  | .fin _ => true
  | _ => false

/-- The value of a zero-initialised `double`. -/
def Double.zero : Double := .fin 0

/-- The standard exceptions thrown by the interface. -/
inductive Err where
  | out_of_range (msg : String)
  | invalid_argument (msg : String)
  | runtime_error (msg : String)
  deriving DecidableEq

deriving instance DecidableEq for Except

/-- The C++ `std::vector::at`: bounds-checked access. -/
def vec_at {α : Type} (v : List α) (i : Nat) : Except Err α :=
  match v[i]? with
  | some a => .ok a
  | none => .error (.out_of_range "vector::at")

/-- Wrap-around of `uint` arithmetic. -/
def UINT_MOD : Nat := 4294967296

/-! ## `ocp_qp::idxb` -/

/-- The method `ocp_qp::idxb`: positions carrying a one-sided or two-sided bound.
Inside the loop `idx < lower_bound.size() == upper_bound.size()`, so neither
`at` can throw there and the element is read directly. -/
def idxb (lower_bound upper_bound : List Double) : Except Err (List Nat) :=
  if lower_bound.length ≠ upper_bound.length then
    .error (.invalid_argument "Lower bound must have same shape as upper bound.")
  else
    .ok ((List.range lower_bound.length).foldl
      (fun bound_indices idx =>
        if lower_bound.getD idx .nan ≠ .ninf ∨ upper_bound.getD idx .nan ≠ .pinf then
          bound_indices ++ [idx]
        else bound_indices)
      [])

/-- The active positions of a pair of dense bound vectors, as a filter. -/
def active_positions (lower upper : List Double) : List Nat :=
  (List.range lower.length).filter
    (fun i => decide (lower.getD i .nan ≠ .ninf ∨ upper.getD i .nan ≠ .pinf))

/-! ## The QP owned by the object -/

/-- The dimension record `qp->dim`: one entry per stage `0..N` in every array. -/
structure ocp_qp_dims where
  nx : List Nat
  nu : List Nat
  nbx : List Nat
  nbu : List Nat
  nb : List Nat
  ng : List Nat
  ns : List Nat

/-- The structure `ocp_qp_in` as the interface touches it: the dimensions, the
raw index arrays `idxb[stage][i]`, and the per-stage numerical data addressed by
field name. -/
structure ocp_qp_in where
  dim : ocp_qp_dims
  idxb : Nat → Nat → Nat
  data : String → Nat → List Double

/-- Read of a C `int` array of the dimension record at a stage. -/
def dim_at (a : List Nat) (stage : Nat) : Nat := a.getD stage 0

/-- Modelled from the spec: `create_ocp_qp_dimensions_ptr` (declared in
`ocp_qp_dimensions.hpp`, not part of the sources) stores the per-stage count
sequences of the horizon shape; the total bound count of a stage is
`nb = nbu + nbx`. -/
def create_ocp_qp_dimensions_ptr (nx nu nbx nbu ng ns : List Nat) : ocp_qp_dims :=
  { nx := nx, nu := nu, nbx := nbx, nbu := nbu,
    nb := List.zipWith (fun a b => a + b) nbu nbx, ng := ng, ns := ns }

/-- Modelled from the spec: `ocp_qp_in_create` (acados C interface, not part of
the sources) allocates the QP for a horizon shape; the storage starts zeroed. -/
def ocp_qp_in_create (dim : ocp_qp_dims) : ocp_qp_in :=
  { dim := dim, idxb := fun _ _ => 0, data := fun _ _ => [] }

/-- Modelled from the spec: `d_change_bounds_dimensions_ocp_qp` (declared in
`hpipm_helper.hpp`, not part of the sources) resizes the backend-facing
bound-count fields `nbu`, `nbx` (and their sum `nb`) of stages `0..N` to the
given counts and leaves everything else of the QP alone. -/
def d_change_bounds_dimensions_ocp_qp (N : Nat) (nbu nbx : List Nat) (qp : ocp_qp_in) :
    ocp_qp_in :=
  { qp with dim :=
      { qp.dim with
        nbu := (List.range (N + 1)).map (fun i => dim_at nbu i)
        nbx := (List.range (N + 1)).map (fun i => dim_at nbx i)
        nb := (List.range (N + 1)).map (fun i => dim_at nbu i + dim_at nbx i) } }

/-- Modelled from the spec: the conversion routines `d_cvt_colmaj_to_ocp_qp_<field>`
(declared in `hpipm_helper.hpp`, not part of the sources) write a dense
column-major block into the per-stage store of the named field. -/
def d_cvt_colmaj_to_ocp_qp (field : String) (stage : Nat) (v : List Double)
    (qp : ocp_qp_in) : ocp_qp_in :=
  { qp with data := fun f i => if f = field ∧ i = stage then v else qp.data f i }

/-- Modelled from the spec: the extraction routines `d_cvt_ocp_qp_to_colmaj_<field>`
(declared in `hpipm_helper.hpp`, not part of the sources) are the inverse of the
conversion routines: they copy the stored block of the named field into the
caller's buffer of `len` zero-initialised doubles. -/
def d_cvt_ocp_qp_to_colmaj (field : String) (stage : Nat) (qp : ocp_qp_in) (len : Nat) :
    List Double :=
  (List.range len).map (fun k => (qp.data field stage).getD k Double.zero)

/-- Modelled from the spec: the shape helpers `num_rows_*`, `num_cols_*`,
`num_elems_*` (declared in `utils.hpp`, not part of the sources) give the shape
of a field at a stage as a function of the horizon shape: `Q` is `nx×nx`, `S` is
`nu×nx`, `R` is `nu×nu`, `q` has `nx` and `r` has `nu` elements, `A` is
`nx[i+1]×nx[i]`, `B` is `nx[i+1]×nu[i]`, `b` has `nx[i+1]` elements, `C` is
`ng×nx`, `D` is `ng×nu`, `lg` and `ug` have `ng` elements. -/
def num_shape (field : String) (stage : Nat) (dim : ocp_qp_dims) : Nat × Nat :=
  if field = "Q" then (dim_at dim.nx stage, dim_at dim.nx stage)
  else if field = "S" then (dim_at dim.nu stage, dim_at dim.nx stage)
  else if field = "R" then (dim_at dim.nu stage, dim_at dim.nu stage)
  else if field = "q" then (dim_at dim.nx stage, 1)
  else if field = "r" then (dim_at dim.nu stage, 1)
  else if field = "A" then (dim_at dim.nx (stage + 1), dim_at dim.nx stage)
  else if field = "B" then (dim_at dim.nx (stage + 1), dim_at dim.nu stage)
  else if field = "b" then (dim_at dim.nx (stage + 1), 1)
  else if field = "C" then (dim_at dim.ng stage, dim_at dim.nx stage)
  else if field = "D" then (dim_at dim.ng stage, dim_at dim.nu stage)
  else (dim_at dim.ng stage, 1)

/-- Modelled from the spec: `match` (declared in `utils.hpp`, not part of the
sources) checks that the number of values equals the field's expected element
count `rows * cols`. -/
def match_shape (dims : Nat × Nat) (nb_elems : Nat) : Bool :=
  decide (dims.1 * dims.2 = nb_elems)

/-- Modelled from the spec: `std::to_string` of a shape pair (declared in
`utils.hpp`, not part of the sources), used only in the text of an error. -/
def shape_to_string (dims : Nat × Nat) : String :=
  "(" ++ toString dims.1 ++ ", " ++ toString dims.2 ++ ")"

/-! ## The object -/

/-- The backends a build of acados can contain. -/
inductive ocp_qp_solver_t where
  | FULL_CONDENSING_HPIPM
  | PARTIAL_CONDENSING_HPIPM
  | PARTIAL_CONDENSING_HPMPC
  | PARTIAL_CONDENSING_OOQP
  | PARTIAL_CONDENSING_QPDUNES
  | FULL_CONDENSING_QPOASES
  | FULL_CONDENSING_QORE
  deriving DecidableEq

/-- The plan of a backend. -/
structure ocp_qp_solver_plan where
  qp_solver : ocp_qp_solver_t
  deriving DecidableEq

/-- The compile-time switches `ACADOS_WITH_*`. -/
structure build_flags where
  with_hpmpc : Bool
  with_ooqp : Bool
  with_qpdunes : Bool
  with_qpoases : Bool
  with_qore : Bool

/-- The option mapping handed to `initialize_solver`: keys with their values. -/
abbrev options_t := List (String × String)

/-- The backend arguments `args`: the shape they were created for and the
options applied to them. -/
structure ocp_qp_opts where
  dim : ocp_qp_dims
  applied : options_t

/-- The solver handle `solver`: plan, the shape its memory was sized for, and
its arguments. -/
structure ocp_qp_solver where
  plan : ocp_qp_solver_plan
  dim : ocp_qp_dims
  opts : ocp_qp_opts

/-- The member `cached_bounds`: a map with the four keys `lbx`, `ubx`, `lbu`,
`ubu`, each holding one dense vector per stage. -/
structure bounds_cache where
  lbx : List (List Double)
  ubx : List (List Double)
  lbu : List (List Double)
  ubu : List (List Double)

/-- The call `cached_bounds.at(field)`. -/
def bounds_cache.at (c : bounds_cache) (field : String) : Except Err (List (List Double)) :=
  if field = "lbx" then .ok c.lbx
  else if field = "ubx" then .ok c.ubx
  else if field = "lbu" then .ok c.lbu
  else if field = "ubu" then .ok c.ubu
  else .error (.out_of_range "map::at")

/-- Replace the whole per-stage sequence stored under a key of `cached_bounds`. -/
def bounds_cache.put (c : bounds_cache) (field : String) (w : List (List Double)) :
    bounds_cache :=
  if field = "lbx" then { c with lbx := w }
  else if field = "ubx" then { c with ubx := w }
  else if field = "lbu" then { c with lbu := w }
  else if field = "ubu" then { c with ubu := w }
  else c

/-- The class `ocp_qp`. The field `backend_calls` is a ghost counter of the
calls of `ocp_qp_solve` made so far. -/
structure ocp_qp where
  N : Nat
  qp : ocp_qp_in
  cached_bounds : bounds_cache
  needs_initializing : Bool
  available_solvers : List (String × ocp_qp_solver_plan)
  config : Option ocp_qp_solver_plan
  args : Option ocp_qp_opts
  solver : Option ocp_qp_solver
  cached_solver : String
  backend_calls : Nat

/-- What a mutating member function leaves behind: what it returned or threw,
and the object afterwards. -/
abbrev Outcome (α : Type) := Except Err α × ocp_qp

/-- Run a loop body over the values of the loop variable, stopping at the first
throw. -/
def for_each {α : Type} (l : List α) (body : α → ocp_qp → Outcome Unit) (s : ocp_qp) :
    Outcome Unit :=
  match l with
  | [] => (.ok (), s)
  | a :: rest =>
    match body a s with
    | (.ok _, s1) => for_each rest body s1
    | (.error e, s1) => (.error e, s1)

/-- Map a throwing function over the values of a loop variable, collecting the
results with `push_back`. -/
def map_each {α β : Type} (l : List α) (f : α → Except Err β) : Except Err (List β) :=
  match l with
  | [] => .ok []
  | a :: rest =>
    match f a with
    | .error e => .error e
    | .ok b =>
      match map_each rest f with
      | .error e => .error e
      | .ok bs => .ok (b :: bs)

/-- The method `ocp_qp::in_range`. -/
def in_range (s : ocp_qp) (field : String) (stage : Nat) : Bool :=
  if field = "A" ∨ field = "B" ∨ field = "b" then decide (stage < s.N)
  else decide (stage ≤ s.N)

/-- The method `ocp_qp::shape_of_field`. -/
def shape_of_field (s : ocp_qp) (field : String) (stage : Nat) : Except Err (Nat × Nat) :=
  if ¬ in_range s field stage then
    .error (.out_of_range "Stage index should be in [0, N].")
  else if field = "Q" ∨ field = "S" ∨ field = "R" ∨ field = "q" ∨ field = "r" ∨
      field = "A" ∨ field = "B" ∨ field = "b" then
    .ok (num_shape field stage s.qp.dim)
  else if field = "lbx" then .ok (dim_at s.qp.dim.nx stage, 1)
  else if field = "ubx" then .ok (dim_at s.qp.dim.nx stage, 1)
  else if field = "lbu" then .ok (dim_at s.qp.dim.nu stage, 1)
  else if field = "ubu" then .ok (dim_at s.qp.dim.nu stage, 1)
  else if field = "C" ∨ field = "D" ∨ field = "lg" ∨ field = "ug" then
    .ok (num_shape field stage s.qp.dim)
  else .error (.invalid_argument ("OCP QP does not contain field " ++ field))

/-- The cells `qp->idxb[stage][0 .. nb[stage]-1]` at a stage. -/
def idxb_cells (s : ocp_qp) (stage : Nat) : List Nat :=
  (List.range (dim_at s.qp.dim.nb stage)).map (fun i => s.qp.idxb stage i)

/-- The method `ocp_qp::bounds_indices`. -/
def bounds_indices (s : ocp_qp) (name : String) : Except Err (List (List Nat)) :=
  if name = "x" then
    .ok ((List.range (s.N + 1)).map (fun stage =>
      ((idxb_cells s stage).filter (fun c => decide (c ≥ dim_at s.qp.dim.nu stage))).map
        (fun c => c - dim_at s.qp.dim.nu stage)))
  else if name = "u" then
    .ok ((List.range (s.N + 1)).map (fun stage =>
      (idxb_cells s stage).filter (fun c => decide (c < dim_at s.qp.dim.nu stage))))
  else .error (.invalid_argument ("Can only get bounds from x and u, you gave: '" ++ name ++ "'."))

/-- The writes of the loop in `set_bounds_indices`: cell `off + i` of the stage
receives `base + v[i]` for `i = 0 .. nb_bounds-1` (here `nb_bounds = v.size()`,
so `v.at(i)` cannot throw). -/
def write_cells (off base : Nat) (v : List Nat) (cells : Nat → Nat) : Nat → Nat :=
  (List.range v.length).foldl
    (fun c i => Function.update c (off + i) (base + v.getD i 0)) cells

/-- The method `ocp_qp::set_bounds_indices`. -/
def set_bounds_indices (s : ocp_qp) (name : String) (stage : Nat) (v : List Nat) :
    Outcome Unit :=
  if name = "x" then
    let nb_bounds := dim_at s.qp.dim.nbx stage
    if nb_bounds ≠ v.length then
      (.error (.invalid_argument ("I need " ++ toString nb_bounds ++ " indices, you gave " ++
        toString v.length ++ ".")), s)
    else
      let cells := write_cells (dim_at s.qp.dim.nbu stage) (dim_at s.qp.dim.nu stage) v
        (s.qp.idxb stage)
      (.ok (), { s with qp := { s.qp with idxb := Function.update s.qp.idxb stage cells } })
  else if name = "u" then
    let nb_bounds := dim_at s.qp.dim.nbu stage
    if nb_bounds ≠ v.length then
      (.error (.invalid_argument ("I need " ++ toString nb_bounds ++ " indices, you gave " ++
        toString v.length ++ ".")), s)
    else
      let cells := write_cells 0 0 v (s.qp.idxb stage)
      (.ok (), { s with qp := { s.qp with idxb := Function.update s.qp.idxb stage cells } })
  else
    (.error (.invalid_argument ("Can only set bounds on x and u, you gave: '" ++ name ++ "'.")), s)

/-! ## Dimension getters -/

/-- The getter `ocp_qp::nx`: a copy of the first `N+1` entries of `qp->dim->nx`. -/
def nx (s : ocp_qp) : List Nat := (List.range (s.N + 1)).map (fun i => dim_at s.qp.dim.nx i)

/-- The getter `ocp_qp::nu`. -/
def nu (s : ocp_qp) : List Nat := (List.range (s.N + 1)).map (fun i => dim_at s.qp.dim.nu i)

/-- The getter `ocp_qp::nbx`. -/
def nbx (s : ocp_qp) : List Nat := (List.range (s.N + 1)).map (fun i => dim_at s.qp.dim.nbx i)

/-- The getter `ocp_qp::nbu`. -/
def nbu (s : ocp_qp) : List Nat := (List.range (s.N + 1)).map (fun i => dim_at s.qp.dim.nbu i)

/-- The getter `ocp_qp::ng`. -/
def ng (s : ocp_qp) : List Nat := (List.range (s.N + 1)).map (fun i => dim_at s.qp.dim.ng i)

/-- The lookup `dimensions()[key]` in the map built by `ocp_qp::dimensions`; a key
that is not in the map yields an empty vector. -/
def dimensions (s : ocp_qp) (key : String) : List Nat :=
  if key = "nx" then nx s
  else if key = "nu" then nu s
  else if key = "nbx" then nbx s
  else if key = "nbu" then nbu s
  else if key = "ng" then ng s
  else []

/-! ## Field access -/

/-- The value `N - 1` computed in `uint`. -/
def N_minus_one (s : ocp_qp) : Nat := (s.N + UINT_MOD - 1) % UINT_MOD

/-- The method `ocp_qp::get_field`. -/
def get_field (s : ocp_qp) (field : String) : Except Err (List (List Double)) :=
  let last_index := if field = "A" ∨ field = "B" ∨ field = "b" then N_minus_one s else s.N
  map_each (List.range' 0 (last_index + 1)) (fun i =>
    match shape_of_field s field i with
    | .error e => .error e
    | .ok dims => .ok (d_cvt_ocp_qp_to_colmaj field i s.qp (dims.1 * dims.2)))

/-! ## Expanding and squeezing the bound dimensions -/

/-- One pass of the inner loop of `expand_dimensions`; the loop state is
`(bound_index, lb_new, ub_new)`. -/
def expand_scan_step (nb : Nat) (idxb_stage : List Nat) (lb_old ub_old : List Double)
    (st : Nat × List Double × List Double) (idx : Nat) :
    Except Err (Nat × List Double × List Double) :=
  if st.1 < nb then
    match vec_at idxb_stage st.1 with
    | .error e => .error e
    | .ok j =>
      if idx = j then
        match vec_at lb_old st.1 with
        | .error e => .error e
        | .ok l =>
          match vec_at ub_old st.1 with
          | .error e => .error e
          | .ok u => .ok (st.1 + 1, st.2.1 ++ [l], st.2.2 ++ [u])
      else .ok (st.1, st.2.1 ++ [Double.ninf], st.2.2 ++ [Double.pinf])
  else .ok (st.1, st.2.1 ++ [Double.ninf], st.2.2 ++ [Double.pinf])

/-- Thread a throwing loop body through the values of the loop variable. -/
def fold_each {α σ : Type} (l : List α) (body : σ → α → Except Err σ) (init : σ) :
    Except Err σ :=
  match l with
  | [] => .ok init
  | a :: rest =>
    match body init a with
    | .error e => .error e
    | .ok st => fold_each rest body st

/-- The inner loop of `expand_dimensions` over `idx = 0 .. n-1`. -/
def expand_scan (n nb : Nat) (idxb_stage : List Nat) (lb_old ub_old : List Double) :
    Except Err (List Double × List Double) :=
  match fold_each (List.range n) (expand_scan_step nb idxb_stage lb_old ub_old) (0, [], []) with
  | .error e => .error e
  | .ok st => .ok st.2

/-- The body of the first loop nest of `expand_dimensions` for one variable
class and one stage: the dense vectors `(lb_new, ub_new)` rebuilt from the
backend's compact ones. -/
def expand_stage (s : ocp_qp) (bound : String) (stage : Nat) :
    Except Err (List Double × List Double) :=
  match get_field s ("lb" ++ bound) with
  | .error e => .error e
  | .ok lbs =>
    match vec_at lbs stage with
    | .error e => .error e
    | .ok lb_old =>
      match get_field s ("ub" ++ bound) with
      | .error e => .error e
      | .ok ubs =>
        match vec_at ubs stage with
        | .error e => .error e
        | .ok ub_old =>
          match bounds_indices s bound with
          | .error e => .error e
          | .ok bi =>
            match vec_at bi stage with
            | .error e => .error e
            | .ok idxb_stage =>
              match vec_at (dimensions s ("n" ++ bound)) stage with
              | .error e => .error e
              | .ok n =>
                expand_scan n (dim_at (dimensions s ("nb" ++ bound)) stage)
                  idxb_stage lb_old ub_old

/-- The first loop nest of `expand_dimensions` for one variable class. -/
def expand_collect (s : ocp_qp) (bound : String) :
    Except Err (List (List Double × List Double)) :=
  map_each (List.range (s.N + 1)) (expand_stage s bound)

/-- The body of the loops that install the full index sets `0 .. n-1` at a stage
(in `expand_dimensions`), resp. the first `nbx`/`nbu` positions (in the
constructor): `counts_x`, `counts_u` are the vectors whose `at(i)` gives the
number of indices. -/
def set_iota_indices (counts_x counts_u : ocp_qp → List Nat) (i : Nat) (s : ocp_qp) :
    Outcome Unit :=
  match vec_at (counts_x s) i with
  | .error e => (.error e, s)
  | .ok n =>
    match set_bounds_indices s "x" i (List.range n) with
    | (.error e, s1) => (.error e, s1)
    | (.ok _, s1) =>
      match vec_at (counts_u s1) i with
      | .error e => (.error e, s1)
      | .ok m => set_bounds_indices s1 "u" i (List.range m)

/-- The method `ocp_qp::expand_dimensions`. The vectors `lb`, `ub` it builds first
are local and not used afterwards; only a throw of that part is observable. -/
def expand_dimensions (s : ocp_qp) : Outcome Unit :=
  match expand_collect s "x" with
  | .error e => (.error e, s)
  | .ok _ =>
    match expand_collect s "u" with
    | .error e => (.error e, s)
    | .ok _ =>
      let s1 : ocp_qp :=
        { s with qp := d_change_bounds_dimensions_ocp_qp s.N s.qp.dim.nu s.qp.dim.nx s.qp }
      let s2 : ocp_qp := { s1 with needs_initializing := true }
      for_each (List.range (s.N + 1))
        (set_iota_indices (fun st => dimensions st "nx") (fun st => dimensions st "nu")) s2

/-- The first loop nest of `squeeze_dimensions` for one variable class: the new
index set of every stage, from the cached dense bounds. -/
def squeeze_collect (s : ocp_qp) (bound : String) : Except Err (List (List Nat)) :=
  map_each (List.range (s.N + 1)) (fun stage =>
    match s.cached_bounds.at ("lb" ++ bound) with
    | .error e => .error e
    | .ok lbs =>
      match vec_at lbs stage with
      | .error e => .error e
      | .ok lb =>
        match s.cached_bounds.at ("ub" ++ bound) with
        | .error e => .error e
        | .ok ubs =>
          match vec_at ubs stage with
          | .error e => .error e
          | .ok ub => idxb lb ub)

/-- The second loop nest of `squeeze_dimensions` for one variable class. -/
def squeeze_install (bound : String) (idxb_new : List (List Nat)) (s : ocp_qp) : Outcome Unit :=
  for_each (List.range (s.N + 1))
    (fun stage st =>
      match vec_at idxb_new stage with
      | .error e => (.error e, st)
      | .ok v => set_bounds_indices st bound stage v) s

/-- The method `ocp_qp::squeeze_dimensions`. -/
def squeeze_dimensions (s : ocp_qp) : Outcome Unit :=
  match squeeze_collect s "x" with
  | .error e => (.error e, s)
  | .ok idxb_x =>
    match squeeze_collect s "u" with
    | .error e => (.error e, s)
    | .ok idxb_u =>
      let nb_x := idxb_x.map List.length
      let nb_u := idxb_u.map List.length
      let s1 : ocp_qp := { s with qp := d_change_bounds_dimensions_ocp_qp s.N nb_u nb_x s.qp }
      let s2 : ocp_qp := { s1 with needs_initializing := true }
      match squeeze_install "x" idxb_x s2 with
      | (.error e, s3) => (.error e, s3)
      | (.ok _, s3) => squeeze_install "u" idxb_u s3

/-! ## Setting fields -/

/-- The bound branch of `set_field(field, stage, v)`, for `field` one of `lbx`,
`ubx`, `lbu`, `ubu`. -/
def set_bound (s : ocp_qp) (field : String) (stage : Nat) (v : List Double) : Outcome Unit :=
  match s.cached_bounds.at field with
  | .error e => (.error e, s)
  | .ok w =>
    if stage < w.length then
      let s1 : ocp_qp := { s with cached_bounds := s.cached_bounds.put field (w.set stage v) }
      match bounds_indices s1 (String.singleton field.back) with
      | .error e => (.error e, s1)
      | .ok bi =>
        match vec_at bi stage with
        | .error e => (.error e, s1)
        | .ok idxb_stage =>
          let sq : Except Err (List Nat) :=
            if field.front = 'l' then
              match s1.cached_bounds.at (field.set 0 'u') with
              | .error e => .error e
              | .ok o =>
                match vec_at o stage with
                | .error e => .error e
                | .ok other => idxb v other
            else if field.front = 'u' then
              match s1.cached_bounds.at (field.set 0 'l') with
              | .error e => .error e
              | .ok o =>
                match vec_at o stage with
                | .error e => .error e
                | .ok other => idxb other v
            else .ok []
          match sq with
          | .error e => (.error e, s1)
          | .ok sq_ids =>
            if idxb_stage ≠ sq_ids then
              match expand_dimensions s1 with
              | (.error e, s2) => (.error e, s2)
              | (.ok _, s2) => (.ok (), { s2 with needs_initializing := true })
            else (.ok (), s1)
    else (.error (.out_of_range "vector::at"), s)

/-- The method `ocp_qp::set_field(field, stage, v)`. -/
def set_field (s : ocp_qp) (field : String) (stage : Nat) (v : List Double) : Outcome Unit :=
  if ¬ in_range s field stage then
    (.error (.out_of_range "Stage index should be in [0, N]."), s)
  else
    match shape_of_field s field stage with
    | .error e => (.error e, s)
    | .ok shape =>
      if ¬ match_shape shape v.length then
        (.error (.invalid_argument ("I need " ++ shape_to_string shape ++
          " elements but got " ++ toString v.length ++ ".")), s)
      else if field = "lbx" ∨ field = "ubx" ∨ field = "lbu" ∨ field = "ubu" then
        set_bound s field stage v
      else if field = "Q" ∨ field = "S" ∨ field = "R" ∨ field = "q" ∨ field = "r" ∨
          field = "A" ∨ field = "B" ∨ field = "b" ∨ field = "C" ∨ field = "D" ∨
          field = "lg" ∨ field = "ug" then
        (.ok (), { s with qp := d_cvt_colmaj_to_ocp_qp field stage v s.qp })
      else (.error (.invalid_argument ("OCP QP does not contain field " ++ field)), s)

/-- The method `ocp_qp::set_field(field, v)`: the same values at all stages. -/
def set_field_all (s : ocp_qp) (field : String) (v : List Double) : Outcome Unit :=
  let last_stage := if field = "A" ∨ field = "B" ∨ field = "b" then N_minus_one s else s.N
  for_each (List.range' 0 (last_stage + 1)) (fun stage st => set_field st field stage v) s

/-! ## Construction -/

/-- The map `available_solvers` built by the constructor, depending on how acados
was compiled. -/
def available_solvers_of (b : build_flags) : List (String × ocp_qp_solver_plan) :=
  [("condensing_hpipm", ⟨.FULL_CONDENSING_HPIPM⟩), ("sparse_hpipm", ⟨.PARTIAL_CONDENSING_HPIPM⟩)]
    ++ (if b.with_hpmpc then [("hpmpc", ⟨.PARTIAL_CONDENSING_HPMPC⟩)] else [])
    ++ (if b.with_ooqp then [("ooqp", ⟨.PARTIAL_CONDENSING_OOQP⟩)] else [])
    ++ (if b.with_qpdunes then [("qpdunes", ⟨.PARTIAL_CONDENSING_QPDUNES⟩)] else [])
    ++ (if b.with_qpoases then [("qpoases", ⟨.FULL_CONDENSING_QPOASES⟩)] else [])
    ++ (if b.with_qore then [("qore", ⟨.FULL_CONDENSING_QORE⟩)] else [])

/-- The statement `if (!v.empty()) v.back() = 0;`. -/
def zero_back (v : List Nat) : List Nat :=
  if v.isEmpty then v else v.set (v.length - 1) 0

/-- The constructor `ocp_qp::ocp_qp(nx, nu, nbx, nbu, ng, ns)`; a throw leaves no
object. -/
def ocp_qp.create (b : build_flags) (nx nu nbx nbu ng ns : List Nat) : Except Err ocp_qp :=
  let N := (nx.length + UINT_MOD - 1) % UINT_MOD
  let nu := zero_back nu
  let nbu := zero_back nbu
  let dim := create_ocp_qp_dimensions_ptr nx nu nbx nbu ng ns
  let s0 : ocp_qp :=
    { N := N, qp := ocp_qp_in_create dim, cached_bounds := ⟨[], [], [], []⟩,
      needs_initializing := true, available_solvers := [], config := none, args := none,
      solver := none, cached_solver := "", backend_calls := 0 }
  match for_each (List.range' 0 (N + 1)) (set_iota_indices (fun _ => nbx) (fun _ => nbu)) s0 with
  | (.error e, _) => .error e
  | (.ok _, s1) =>
    let cache : bounds_cache :=
      { lbx := (List.range (N + 1)).map (fun stage =>
          List.replicate (dim_at s1.qp.dim.nx stage) Double.ninf)
        ubx := (List.range (N + 1)).map (fun stage =>
          List.replicate (dim_at s1.qp.dim.nx stage) Double.pinf)
        lbu := (List.range (N + 1)).map (fun stage =>
          List.replicate (dim_at s1.qp.dim.nu stage) Double.ninf)
        ubu := (List.range (N + 1)).map (fun stage =>
          List.replicate (dim_at s1.qp.dim.nu stage) Double.pinf) }
    .ok { s1 with cached_bounds := cache, available_solvers := available_solvers_of b }

/-- The constructor `ocp_qp::ocp_qp(N, nx, nu, nbx, nbu, ng, ns)` with the same
counts at every stage. -/
def ocp_qp.create_uniform (b : build_flags) (N nx nu nbx nbu ng ns : Nat) : Except Err ocp_qp :=
  let len := (N + 1) % UINT_MOD
  ocp_qp.create b (List.replicate len nx) (List.replicate len nu) (List.replicate len nbx)
    (List.replicate len nbu) (List.replicate len ng) (List.replicate len ns)

/-! ## Solving -/

/-- Modelled from the spec: the constant `ACADOS_NEG_INFTY` (acados `types.h`, not
part of the sources), the large-magnitude finite sentinel sent to the backend in
place of a non-finite lower bound. -/
def ACADOS_NEG_INFTY : Double := .fin (-10000000000)

/-- Modelled from the spec: the constant `ACADOS_POS_INFTY` (acados `types.h`, not
part of the sources), the large-magnitude finite sentinel sent to the backend in
place of a non-finite upper bound. -/
def ACADOS_POS_INFTY : Double := .fin 10000000000

/-- Modelled from the spec: the return code `ACADOS_SUCCESS` of a backend (acados
`types.h`, not part of the sources). -/
def ACADOS_SUCCESS : Int := 0

/-- Modelled from the spec: the return code `ACADOS_MAXITER` of a backend (acados
`types.h`, not part of the sources). -/
def ACADOS_MAXITER : Int := 2

/-- Modelled from the spec: the return code `ACADOS_MINSTEP` of a backend (acados
`types.h`, not part of the sources). -/
def ACADOS_MINSTEP : Int := 3

/-- The compact vector built by the inner loop of `fill_in_bounds` for one cached
bound `name` at one stage. -/
def fill_in_vector (name : String) (idxb_stage : List Nat) (stage_bound : List Double) :
    Except Err (List Double) :=
  fold_each (List.range idxb_stage.length)
    (fun new_bound idx =>
      match vec_at idxb_stage idx with
      | .error e => .error e
      | .ok j =>
        if name.front = 'l' then
          match vec_at stage_bound j with
          | .error e => .error e
          | .ok x => .ok (new_bound ++ [if x.isfinite then x else ACADOS_NEG_INFTY])
        else if name.front = 'u' then
          match vec_at stage_bound j with
          | .error e => .error e
          | .ok x => .ok (new_bound ++ [if x.isfinite then x else ACADOS_POS_INFTY])
        else .ok new_bound)
    []

/-- The body of the stage loop of `fill_in_bounds` for the map entry
`(name, second)`. -/
def fill_in_stage (name : String) (second : List (List Double)) (stage : Nat) (s : ocp_qp) :
    Outcome Unit :=
  match bounds_indices s (String.singleton name.back) with
  | .error e => (.error e, s)
  | .ok bi =>
    match vec_at bi stage with
    | .error e => (.error e, s)
    | .ok idxb_stage =>
      match vec_at second stage with
      | .error e => (.error e, s)
      | .ok stage_bound =>
        match fill_in_vector name idxb_stage stage_bound with
        | .error e => (.error e, s)
        | .ok new_bound =>
          if name = "lbx" ∨ name = "ubx" ∨ name = "lbu" ∨ name = "ubu" then
            (.ok (), { s with qp := d_cvt_colmaj_to_ocp_qp name stage new_bound s.qp })
          else (.ok (), s)

/-- The method `ocp_qp::fill_in_bounds`; the map `cached_bounds` is traversed in
the order of its keys: `lbu`, `lbx`, `ubu`, `ubx`. -/
def fill_in_bounds (s : ocp_qp) : Outcome Unit :=
  for_each
    [("lbu", s.cached_bounds.lbu), ("lbx", s.cached_bounds.lbx),
      ("ubu", s.cached_bounds.ubu), ("ubx", s.cached_bounds.ubx)]
    (fun it st => for_each (List.range (st.N + 1)) (fill_in_stage it.1 it.2) st) s

/-- The output `ocp_qp_out` of a backend. -/
structure ocp_qp_out where
  values : List (List Double)

/-- The class `ocp_qp_solution`, which takes ownership of the backend's output. -/
structure ocp_qp_solution where
  result : ocp_qp_out

/-- The method `ocp_qp::solve`. The external call `ocp_qp_solve(solver, qp, result)`
is the parameter `backend`, which yields the return code and the output. -/
def solve (backend : ocp_qp → Int × ocp_qp_out) (s : ocp_qp) :
    Except Err ocp_qp_solution × ocp_qp :=
  if s.needs_initializing then (.error (.runtime_error "Reinitialize solver"), s)
  else
    match fill_in_bounds s with
    | (.error e, s1) => (.error e, s1)
    | (.ok _, s1) =>
      let return_code := (backend s1).1
      let result := (backend s1).2
      let s2 : ocp_qp := { s1 with backend_calls := s1.backend_calls + 1 }
      if return_code ≠ ACADOS_SUCCESS then
        if return_code = ACADOS_MAXITER then
          (.error (.runtime_error ("QP solver " ++ s2.cached_solver ++
            " reached maximum number of iterations.")), s2)
        else if return_code = ACADOS_MINSTEP then
          (.error (.runtime_error ("QP solver " ++ s2.cached_solver ++
            " reached minimum step size.")), s2)
        else
          (.error (.runtime_error ("QP solver " ++ s2.cached_solver ++
            " failed with solver-specific error code " ++ toString return_code)), s2)
      else (.ok ⟨result⟩, s2)

/-! ## Initialising the solver -/

/-- Modelled from the spec: `process_options` (declared in `options.hpp`, not part
of the sources) applies the option mapping to the backend arguments; each backend
recognises its own option keys (the parameter `recognised`), and an unrecognised
key is a usage error. -/
def process_options (recognised : String → String → Bool) (solver_name : String)
    (options : options_t) (args : ocp_qp_opts) : Except Err ocp_qp_opts :=
  match options.find? (fun kv => ! recognised solver_name kv.1) with
  | some kv => .error (.invalid_argument ("Option '" ++ kv.1 ++ "' is not recognised."))
  | none => .ok { args with applied := options }

/-- The method `ocp_qp::initialize_solver`. -/
def initialize_solver (recognised : String → String → Bool) (s : ocp_qp)
    (solver_name : String) (options : options_t) : Outcome Unit :=
  match s.available_solvers.lookup solver_name with
  | none =>
    (.error (.invalid_argument ("QP solver '" ++ solver_name ++ "' is not available.")), s)
  | some plan =>
    match squeeze_dimensions s with
    | (.error e, s1) => (.error e, s1)
    | (.ok _, s1) =>
      let s2 : ocp_qp := { s1 with config := some plan }
      let args : ocp_qp_opts := { dim := s2.qp.dim, applied := [] }
      let s3 : ocp_qp := { s2 with args := some args }
      match process_options recognised solver_name options args with
      | .error e => (.error e, s3)
      | .ok args1 =>
        let s4 : ocp_qp := { s3 with args := some args1 }
        let s5 : ocp_qp := { s4 with solver := some { plan := plan, dim := s4.qp.dim, opts := args1 } }
        let s6 : ocp_qp := { s5 with needs_initializing := false }
        (.ok (), { s6 with cached_solver := solver_name })

/-! ## Observations and invariants -/

/-- The state index set of a stage as `bounds_indices("x").at(stage)` returns it
(empty when the call throws). -/
def x_indices (s : ocp_qp) (stage : Nat) : List Nat :=
  match bounds_indices s "x" with
  | .ok bi => bi.getD stage []
  | .error _ => []

/-- The control index set of a stage as `bounds_indices("u").at(stage)` returns it
(empty when the call throws). -/
def u_indices (s : ocp_qp) (stage : Nat) : List Nat :=
  match bounds_indices s "u" with
  | .ok bi => bi.getD stage []
  | .error _ => []

/-- The shape invariant of the class: the stage counter `0..N` fits a `uint`,
every per-stage array has one entry per stage `0..N`, and the cached dense bounds
of a stage have `nx[stage]`, resp. `nu[stage]`, entries. -/
def shape_ok (s : ocp_qp) : Prop :=
  s.N + 1 < UINT_MOD ∧
  s.qp.dim.nx.length = s.N + 1 ∧ s.qp.dim.nu.length = s.N + 1 ∧
  s.qp.dim.nbx.length = s.N + 1 ∧ s.qp.dim.nbu.length = s.N + 1 ∧
  s.qp.dim.nb.length = s.N + 1 ∧ s.qp.dim.ng.length = s.N + 1 ∧
  s.cached_bounds.lbx.length = s.N + 1 ∧ s.cached_bounds.ubx.length = s.N + 1 ∧
  s.cached_bounds.lbu.length = s.N + 1 ∧ s.cached_bounds.ubu.length = s.N + 1 ∧
  ∀ i, i < s.N + 1 →
    (s.cached_bounds.lbx.getD i []).length = dim_at s.qp.dim.nx i ∧
    (s.cached_bounds.ubx.getD i []).length = dim_at s.qp.dim.nx i ∧
    (s.cached_bounds.lbu.getD i []).length = dim_at s.qp.dim.nu i ∧
    (s.cached_bounds.ubu.getD i []).length = dim_at s.qp.dim.nu i

instance (s : ocp_qp) : Decidable (shape_ok s) := by
  unfold shape_ok; infer_instance

/-- The index-set invariant of the data model: at every stage the state and
control index sets have `nbx[stage]`, resp. `nbu[stage]`, entries. -/
def idx_ok (s : ocp_qp) : Prop :=
  ∀ i, i < s.N + 1 →
    (x_indices s i).length = dim_at s.qp.dim.nbx i ∧
    (u_indices s i).length = dim_at s.qp.dim.nbu i

instance (s : ocp_qp) : Decidable (idx_ok s) := by
  unfold idx_ok; infer_instance

/-- The object with the raw index arrays replaced. -/
def with_idxb (s : ocp_qp) (F : Nat → Nat → Nat) : ocp_qp :=
  { s with qp := { s.qp with idxb := F } }

/-- The cells a stage holds after its control indices `U` and its state indices
`X` were installed. -/
def installed (nbu nu : Nat) (X U : List Nat) (cells : Nat → Nat) : Nat → Nat :=
  write_cells 0 0 U (write_cells nbu nu X cells)

/-- A stage is in canonical form for the index sets `X` (states) and `U`
(controls). -/
def stage_canon (s : ocp_qp) (i : Nat) (X U : List Nat) : Prop :=
  dim_at s.qp.dim.nbx i = X.length ∧ dim_at s.qp.dim.nbu i = U.length ∧
  dim_at s.qp.dim.nb i = U.length + X.length ∧
  idxb_cells s i = U ++ X.map (fun x => dim_at s.qp.dim.nu i + x)

/-- The state index set a squeeze derives for a stage from the cached dense
bounds. -/
def sq_x (s : ocp_qp) (i : Nat) : List Nat :=
  active_positions (s.cached_bounds.lbx.getD i []) (s.cached_bounds.ubx.getD i [])

/-- The control index set a squeeze derives for a stage from the cached dense
bounds. -/
def sq_u (s : ocp_qp) (i : Nat) : List Nat :=
  active_positions (s.cached_bounds.lbu.getD i []) (s.cached_bounds.ubu.getD i [])

/-- The object after its bound counts were resized to `nbu`, `nbx`, its raw index
arrays replaced by `F`, and the solver marked stale. -/
def rebound (s : ocp_qp) (nbu nbx : List Nat) (F : Nat → Nat → Nat) : ocp_qp :=
  { s with
    qp := { d_change_bounds_dimensions_ocp_qp s.N nbu nbx s.qp with idxb := F }
    needs_initializing := true }

/-- The raw index arrays after installing, stage by stage over `l`, the cells
computed by `W`. -/
def install_all (W : Nat → (Nat → Nat) → (Nat → Nat)) (l : List Nat) (F : Nat → Nat → Nat) :
    Nat → Nat → Nat :=
  l.foldl (fun G stage => Function.update G stage (W stage (G stage))) F

/-- The raw index arrays after a squeeze: at every stage `0..N` the control
indices followed by the shifted state indices derived from the cached bounds. -/
def squeezed_F (s : ocp_qp) : Nat → Nat → Nat :=
  fun i =>
    if i < s.N + 1 then
      installed (sq_u s i).length (dim_at s.qp.dim.nu i) (sq_x s i) (sq_u s i) (s.qp.idxb i)
    else s.qp.idxb i

/-- The object a successful squeeze leaves behind. -/
def squeezed (s : ocp_qp) : ocp_qp :=
  rebound s (((List.range (s.N + 1)).map (sq_u s)).map List.length)
    (((List.range (s.N + 1)).map (sq_x s)).map List.length) (squeezed_F s)

/-- The squeezed form of an object: at every stage `0..N` the state index set is
`idxb(lbx, ubx)` and the control index set is `idxb(lbu, ubu)` of the cached dense
bounds of that stage, and `nbx`, `nbu` are the lengths of these index sets. -/
def squeezed_form (s : ocp_qp) : Prop :=
  ∀ i, i < s.N + 1 →
    idxb (s.cached_bounds.lbx.getD i []) (s.cached_bounds.ubx.getD i []) = .ok (x_indices s i) ∧
    idxb (s.cached_bounds.lbu.getD i []) (s.cached_bounds.ubu.getD i []) = .ok (u_indices s i) ∧
    (nbx s).getD i 0 = (x_indices s i).length ∧
    (nbu s).getD i 0 = (u_indices s i).length

instance (s : ocp_qp) : Decidable (squeezed_form s) := by
  unfold squeezed_form; infer_instance

/-- An example object with `N = 2`, `nx = [2,2,2]`, `nu = [1,1,0]` and all bounds
counted (`nbx = nx`, `nbu = nu`), whose cached state bounds of stage 0 are
`lbx = [-1, -INF]`, `ubx = [1, +INF]` and whose other cached bounds are infinite. -/
def demo : ocp_qp :=
  { N := 2
    qp :=
      { dim := { nx := [2, 2, 2], nu := [1, 1, 0], nbx := [2, 2, 2], nbu := [1, 1, 0],
                 nb := [3, 3, 2], ng := [0, 0, 0], ns := [0, 0, 0] }
        idxb := fun _ k => k
        data := fun _ _ => [] }
    cached_bounds :=
      { lbx := [[.fin (-1), .ninf], [.ninf, .ninf], [.ninf, .ninf]]
        ubx := [[.fin 1, .pinf], [.pinf, .pinf], [.pinf, .pinf]]
        lbu := [[.ninf], [.ninf], []]
        ubu := [[.pinf], [.pinf], []] }
    needs_initializing := true
    available_solvers := available_solvers_of ⟨false, false, false, false, false⟩
    config := none
    args := none
    solver := none
    cached_solver := ""
    backend_calls := 0 }

/-- The raw index arrays after an expand: at every stage `0..N` the control
indices `0..nu-1` followed by the shifted state indices `0..nx-1`. -/
def expanded_F (s : ocp_qp) : Nat → Nat → Nat :=
  fun i =>
    if i < s.N + 1 then
      installed (dim_at s.qp.dim.nu i) (dim_at s.qp.dim.nu i)
        (List.range (dim_at s.qp.dim.nx i)) (List.range (dim_at s.qp.dim.nu i)) (s.qp.idxb i)
    else s.qp.idxb i

/-- The object a successful expand leaves behind. -/
def expanded (s : ocp_qp) : ocp_qp :=
  rebound s s.qp.dim.nu s.qp.dim.nx (expanded_F s)

/-- The sequence stored under a key of `cached_bounds` (empty for another key). -/
def cached (s : ocp_qp) (field : String) : List (List Double) :=
  match s.cached_bounds.at field with
  | .ok w => w
  | .error _ => []

/-- The object after the assignment `cached_bounds.at(field).at(stage) = v`. -/
def with_bound (s : ocp_qp) (field : String) (stage : Nat) (v : List Double) : ocp_qp :=
  { s with cached_bounds := s.cached_bounds.put field ((cached s field).set stage v) }

/-- The current index set of the variable class of a bound field at a stage. -/
def class_indices (s : ocp_qp) (field : String) (stage : Nat) : List Nat :=
  if field = "lbx" ∨ field = "ubx" then x_indices s stage else u_indices s stage

/-- The index set the cached bounds of the variable class of a bound field give
at a stage. -/
def class_sq (s : ocp_qp) (field : String) (stage : Nat) : List Nat :=
  if field = "lbx" ∨ field = "ubx" then sq_x s stage else sq_u s stage

/-- The number of entries of a bound field at a stage: `nx` for state bounds, `nu`
for control bounds. -/
def class_dim (s : ocp_qp) (field : String) (stage : Nat) : Nat :=
  dim_at (if field = "lbx" ∨ field = "ubx" then s.qp.dim.nx else s.qp.dim.nu) stage

/-- The names of the four bound fields. -/
def is_bound_field (field : String) : Prop :=
  field = "lbx" ∨ field = "ubx" ∨ field = "lbu" ∨ field = "ubu"

instance (field : String) : Decidable (is_bound_field field) := by
  unfold is_bound_field; infer_instance

/-- The example object after `initialize_solver("sparse_hpipm", {})`: a ready
solver. -/
def demo_ready : ocp_qp :=
  (initialize_solver (fun _ _ => true) demo "sparse_hpipm" []).2

/-- The raw index arrays after construction: at every stage `0..N` the control
indices `0..nbu-1` followed by the shifted state indices `0..nbx-1`. -/
def constructed_F (N : Nat) (nu nbx nbu : List Nat) : Nat → Nat → Nat :=
  fun i =>
    if i < N + 1 then
      installed (dim_at nbu i) (dim_at nu i) (List.range (dim_at nbx i))
        (List.range (dim_at nbu i)) (fun _ => 0)
    else fun _ => 0

/-- The object a successful construction with `N + 1` stages yields. -/
def constructed (b : build_flags) (N : Nat) (nx nu nbx nbu ng ns : List Nat) : ocp_qp :=
  { N := N
    qp :=
      { dim := create_ocp_qp_dimensions_ptr nx (zero_back nu) nbx (zero_back nbu) ng ns
        idxb := constructed_F N (zero_back nu) nbx (zero_back nbu)
        data := fun _ _ => [] }
    cached_bounds :=
      { lbx := (List.range (N + 1)).map (fun stage => List.replicate (dim_at nx stage) Double.ninf)
        ubx := (List.range (N + 1)).map (fun stage => List.replicate (dim_at nx stage) Double.pinf)
        lbu := (List.range (N + 1)).map (fun stage =>
          List.replicate (dim_at (zero_back nu) stage) Double.ninf)
        ubu := (List.range (N + 1)).map (fun stage =>
          List.replicate (dim_at (zero_back nu) stage) Double.pinf) }
    needs_initializing := true
    available_solvers := available_solvers_of b
    config := none
    args := none
    solver := none
    cached_solver := ""
    backend_calls := 0 }

/-- Every cached bound of a stage is infinite: the lower bounds of the states and
of the controls are `-INFINITY`, the upper bounds are `+INFINITY`. -/
def all_infinite (s : ocp_qp) (i : Nat) : Prop :=
  (∀ x ∈ s.cached_bounds.lbx.getD i [], x = Double.ninf) ∧
  (∀ x ∈ s.cached_bounds.ubx.getD i [], x = Double.pinf) ∧
  (∀ x ∈ s.cached_bounds.lbu.getD i [], x = Double.ninf) ∧
  (∀ x ∈ s.cached_bounds.ubu.getD i [], x = Double.pinf)

instance (s : ocp_qp) (i : Nat) : Decidable (all_infinite s i) := by
  unfold all_infinite; infer_instance

/-- The names of the twelve fields whose values `set_field` writes into the QP. -/
def is_data_field (field : String) : Prop :=
  field = "Q" ∨ field = "S" ∨ field = "R" ∨ field = "q" ∨ field = "r" ∨
  field = "A" ∨ field = "B" ∨ field = "b" ∨ field = "C" ∨ field = "D" ∨
  field = "lg" ∨ field = "ug"

instance (field : String) : Decidable (is_data_field field) := by
  unfold is_data_field; infer_instance

/-- The shape of a field at a stage (`(0, 0)` where `shape_of_field` throws). -/
def shape_or_zero (s : ocp_qp) (field : String) (stage : Nat) : Nat × Nat :=
  match shape_of_field s field stage with
  | .ok sh => sh
  | .error _ => (0, 0)

/-- The object the constructor yields for `N = 2`, `nx = [2,2,2]`, `nu = [1,1,0]`,
`nbx = nx`, `nbu = nu` and no general constraints. -/
def fresh : ocp_qp :=
  constructed ⟨false, false, false, false, false⟩ 2
    [2, 2, 2] [1, 1, 0] [2, 2, 2] [1, 1, 0] [0, 0, 0] [0, 0, 0]

/-- The field names of the closed enumeration. -/
def is_field (field : String) : Prop :=
  is_data_field field ∨ is_bound_field field

instance (field : String) : Decidable (is_field field) := by
  unfold is_field; infer_instance

/-- Every stage counts all its bounds and carries the full index sets:
`nbx = nx`, `nbu = nu`, state index set `0 .. nx-1`, control index set
`0 .. nu-1`. -/
def fully_expanded (s : ocp_qp) : Prop :=
  ∀ j, j < s.N + 1 →
    (nbx s).getD j 0 = (nx s).getD j 0 ∧ (nbu s).getD j 0 = (nu s).getD j 0 ∧
    x_indices s j = List.range ((nx s).getD j 0) ∧
    u_indices s j = List.range ((nu s).getD j 0)

instance (s : ocp_qp) : Decidable (fully_expanded s) := by
  unfold fully_expanded; infer_instance

/-- The object with the numerical data stored in the QP replaced. -/
def with_data (s : ocp_qp) (D : String → Nat → List Double) : ocp_qp :=
  { s with qp := { s.qp with data := D } }

/-- The value `fill_in_bounds` sends to the backend for a cached bound value `x` of
the bound field `name`: `x` itself when it is finite, otherwise the sentinel of the
side (lower or upper) of the field. -/
def fill_value (name : String) (x : Double) : Double :=
  if name.front = 'l' then (if x.isfinite then x else ACADOS_NEG_INFTY)
  else (if x.isfinite then x else ACADOS_POS_INFTY)

/-- The compact vector of a bound field at a stage: the cached dense bound
projected through the current index set of the field's variable class. -/
def fill_vec (s : ocp_qp) (field : String) (stage : Nat) : List Double :=
  (class_indices s field stage).map
    (fun j => fill_value field (((cached s field).getD stage []).getD j Double.nan))

/-- The data stored in the QP after `fill_in_bounds`. -/
def filled_data (s : ocp_qp) : String → Nat → List Double :=
  fun f i => if is_bound_field f ∧ i < s.N + 1 then fill_vec s f i else s.qp.data f i

/-- Every entry of every index set addresses a position of its dense bound vector:
state indices are below `nx[stage]`, control indices below `nu[stage]`. -/
def idx_lt (s : ocp_qp) : Prop :=
  ∀ i, i < s.N + 1 →
    (∀ k ∈ x_indices s i, k < dim_at s.qp.dim.nx i) ∧
    (∀ k ∈ u_indices s i, k < dim_at s.qp.dim.nu i)

instance (s : ocp_qp) : Decidable (idx_lt s) := by
  unfold idx_lt; infer_instance

/-- The text of the error `solve` throws for the return code `ACADOS_MAXITER`. -/
def msg_maxiter (cached_solver : String) : String :=
  "QP solver " ++ cached_solver ++ " reached maximum number of iterations."

/-- The text of the error `solve` throws for the return code `ACADOS_MINSTEP`. -/
def msg_minstep (cached_solver : String) : String :=
  "QP solver " ++ cached_solver ++ " reached minimum step size."

/-- The text of the error `solve` throws for any other return code but
`ACADOS_SUCCESS`: it carries the raw code. -/
def msg_failed (cached_solver : String) (return_code : Int) : String :=
  "QP solver " ++ cached_solver ++ " failed with solver-specific error code " ++
    toString return_code

/-- The index-set well-formedness of the data model: at every stage the state index
set is strictly increasing, its entries are below `nx[stage]` and it has exactly
`nbx[stage]` entries; likewise the control index set with `nu` and `nbu`. -/
def idx_wf (s : ocp_qp) : Prop :=
  ∀ i, i < s.N + 1 →
    (x_indices s i).Sorted (· < ·) ∧ (∀ k ∈ x_indices s i, k < dim_at s.qp.dim.nx i) ∧
    (x_indices s i).length = dim_at s.qp.dim.nbx i ∧
    (u_indices s i).Sorted (· < ·) ∧ (∀ k ∈ u_indices s i, k < dim_at s.qp.dim.nu i) ∧
    (u_indices s i).length = dim_at s.qp.dim.nbu i

instance (s : ocp_qp) : Decidable (idx_wf s) := by
  unfold idx_wf; infer_instance

/-- Two objects agree on everything the index sets and the cached bounds are made
of: `N`, the dimensions, the raw index arrays and `cached_bounds`. -/
def core_eq (s t : ocp_qp) : Prop :=
  t.N = s.N ∧ t.qp.dim = s.qp.dim ∧ t.qp.idxb = s.qp.idxb ∧ t.cached_bounds = s.cached_bounds

/-- The objects reachable from `s0` through the public operations, whatever
arguments they are called with and whether or not a call throws. -/
inductive reachable (s0 : ocp_qp) : ocp_qp → Prop where
  | init : reachable s0 s0
  | set_field (s : ocp_qp) (f : String) (i : Nat) (v : List Double) :
      reachable s0 s → reachable s0 (set_field s f i v).2
  | set_field_all (s : ocp_qp) (f : String) (v : List Double) :
      reachable s0 s → reachable s0 (set_field_all s f v).2
  | squeeze_dimensions (s : ocp_qp) :
      reachable s0 s → reachable s0 (squeeze_dimensions s).2
  | expand_dimensions (s : ocp_qp) :
      reachable s0 s → reachable s0 (expand_dimensions s).2
  | initialize_solver (s : ocp_qp) (recognised : String → String → Bool)
      (solver_name : String) (options : options_t) :
      reachable s0 s → reachable s0 (initialize_solver recognised s solver_name options).2
  | solve (s : ocp_qp) (backend : ocp_qp → Int × ocp_qp_out) :
      reachable s0 s → reachable s0 (solve backend s).2

/-- No position whose cached lower bound is `-INFINITY` and whose cached upper
bound is `+INFINITY` is a member of the index set of its stage and variable
class. -/
def excludes_infinite (s : ocp_qp) : Prop :=
  ∀ i, i < s.N + 1 → ∀ k,
    ((s.cached_bounds.lbx.getD i []).getD k Double.nan = Double.ninf →
      (s.cached_bounds.ubx.getD i []).getD k Double.nan = Double.pinf → k ∉ x_indices s i) ∧
    ((s.cached_bounds.lbu.getD i []).getD k Double.nan = Double.ninf →
      (s.cached_bounds.ubu.getD i []).getD k Double.nan = Double.pinf → k ∉ u_indices s i)

/-- The readiness invariant of the class: the shape invariant holds, and whenever the
solver is ready (`needs_initializing` false) the object is in squeezed form. -/
def ready_inv (s : ocp_qp) : Prop :=
  shape_ok s ∧ (s.needs_initializing = false → squeezed_form s)

instance (s : ocp_qp) : Decidable (ready_inv s) := by
  unfold ready_inv; infer_instance

/-- An example of a ready object reached through the public interface: on `fresh`,
`set_field("lbx", 0, [-1, -INF])` (which expands), then
`initialize_solver("sparse_hpipm", {})` (which squeezes and makes the solver ready),
then `set_field("lbx", 0, [-2, -INF])`, which keeps the active positions of stage 0
and therefore leaves the solver ready. -/
def tightened : ocp_qp :=
  (set_field
    (initialize_solver (fun _ _ => true)
      (set_field fresh "lbx" 0 [.fin (-1), .ninf]).2 "sparse_hpipm" []).2
    "lbx" 0 [.fin (-2), .ninf]).2

/-! # Properties -/

/-! ## Lemmas on the loop combinators -/

theorem foldl_push_filter (p : Nat → Prop) [DecidablePred p] (l init : List Nat) :
    l.foldl (fun acc i => if p i then acc ++ [i] else acc) init
      = init ++ l.filter (fun i => decide (p i)) := by
  induction l generalizing init with
  | nil => simp
  | cons a rest ih =>
    simp only [List.foldl_cons, ih, List.filter_cons]
    by_cases h : p a <;> simp [h]

theorem idxb_eq (lower upper : List Double) :
    idxb lower upper =
      if lower.length ≠ upper.length then
        .error (.invalid_argument "Lower bound must have same shape as upper bound.")
      else .ok (active_positions lower upper) := by
  unfold idxb active_positions
  split
  · rfl
  · rw [foldl_push_filter (fun i => lower.getD i Double.nan ≠ Double.ninf ∨
      upper.getD i Double.nan ≠ Double.pinf)]
    simp

theorem active_positions_sorted (lower upper : List Double) :
    (active_positions lower upper).Sorted (· < ·) := by
  unfold active_positions
  exact List.Sorted.filter _ (List.sorted_lt_range _)

theorem mem_active_positions (lower upper : List Double) (i : Nat) :
    i ∈ active_positions lower upper ↔
      i < lower.length ∧ (lower.getD i .nan ≠ .ninf ∨ upper.getD i .nan ≠ .pinf) := by
  simp [active_positions]

theorem vec_at_eq_ok {α : Type} (v : List α) (i : Nat) (d : α) (h : i < v.length) :
    vec_at v i = .ok (v.getD i d) := by
  simp [vec_at, List.getD, List.getElem?_eq_getElem h]

theorem map_each_ok {α β : Type} (l : List α) (f : α → Except Err β) (g : α → β)
    (h : ∀ a ∈ l, f a = .ok (g a)) : map_each l f = .ok (l.map g) := by
  induction l with
  | nil => rfl
  | cons a rest ih =>
    have ha := h a (List.mem_cons_self _ _)
    have hr := ih (fun b hb => h b (List.mem_cons_of_mem _ hb))
    simp [map_each, ha, hr]

/-- Claim C1. `idxb` throws `invalid_argument` exactly when the two vectors differ
in length; otherwise it returns the positions `i` with `lower[i] != -INFINITY` or
`upper[i] != +INFINITY`, in increasing order and each once. -/
theorem idxb_contract (lower upper : List Double) :
    ((∃ msg, idxb lower upper = .error (.invalid_argument msg)) ↔
        lower.length ≠ upper.length) ∧
    ((∃ r, idxb lower upper = .ok r) ↔ lower.length = upper.length) ∧
    (∀ r, idxb lower upper = .ok r →
      r.Sorted (· < ·) ∧ r.Nodup ∧
      ∀ i, i ∈ r ↔ (i < lower.length ∧
        (lower.getD i .nan ≠ .ninf ∨ upper.getD i .nan ≠ .pinf))) := by
  rw [idxb_eq]
  by_cases h : lower.length = upper.length
  · simp only [h, ne_eq, not_true_eq_false, if_false]
    refine ⟨by simp, by simp, ?_⟩
    intro r hr
    cases hr
    refine ⟨active_positions_sorted _ _, (active_positions_sorted _ _).nodup, ?_⟩
    intro i
    rw [mem_active_positions, h]
  · simp [h]

theorem idxb_contract_witness :
    idxb [.fin (-1), .ninf, .nan] [.fin 1, .pinf, .pinf] = .ok [0, 2] ∧
    ([0, 2] : List Nat).Sorted (· < ·) ∧ ([0, 2] : List Nat).Nodup ∧
    ∀ i, i ∈ ([0, 2] : List Nat) ↔ (i < [Double.fin (-1), .ninf, .nan].length ∧
        ([Double.fin (-1), .ninf, .nan].getD i .nan ≠ .ninf ∨
          [Double.fin 1, .pinf, .pinf].getD i .nan ≠ .pinf)) :=
  ⟨by decide, (idxb_contract [.fin (-1), .ninf, .nan] [.fin 1, .pinf, .pinf]).2.2 [0, 2]
    (by decide)⟩

theorem foldl_update_range (val : Nat → Nat) (off n : Nat) (cells : Nat → Nat) (k : Nat) :
    ((List.range n).foldl (fun c i => Function.update c (off + i) (val i)) cells) k =
      if off ≤ k ∧ k < off + n then val (k - off) else cells k := by
  induction n with
  | zero =>
    have h : ¬ (off ≤ k ∧ k < off + 0) := by omega
    rw [if_neg h]
    rfl
  | succ n ih =>
    rw [List.range_succ, List.foldl_append]
    simp only [List.foldl_cons, List.foldl_nil]
    by_cases hk : k = off + n
    · subst hk; simp
    · rw [Function.update_noteq hk, ih]
      by_cases h1 : off ≤ k ∧ k < off + n
      · have h2 : off ≤ k ∧ k < off + (n + 1) := ⟨h1.1, by omega⟩
        simp [h1, h2]
      · have h2 : ¬ (off ≤ k ∧ k < off + (n + 1)) := by omega
        simp [h1, h2]

theorem write_cells_apply (off base : Nat) (v : List Nat) (cells : Nat → Nat) (k : Nat) :
    write_cells off base v cells k =
      if off ≤ k ∧ k < off + v.length then base + v.getD (k - off) 0 else cells k := by
  unfold write_cells
  exact foldl_update_range (fun i => base + v.getD i 0) off v.length cells k

theorem installed_apply (nu : Nat) (X U : List Nat) (cells : Nat → Nat) (k : Nat) :
    installed U.length nu X U cells k =
      if k < U.length then U.getD k 0
      else if k < U.length + X.length then nu + X.getD (k - U.length) 0
      else cells k := by
  unfold installed
  rw [write_cells_apply, write_cells_apply]
  by_cases h1 : k < U.length
  · simp [h1]
  · have h2 : U.length ≤ k := by omega
    simp [h1, h2]

theorem range_map_installed (nu : Nat) (X U : List Nat) (cells : Nat → Nat) :
    (List.range (U.length + X.length)).map (installed U.length nu X U cells)
      = U ++ X.map (fun x => nu + x) := by
  apply List.ext_getElem
  · simp
  · intro k h1 h2
    simp only [List.getElem_map, List.getElem_range, installed_apply]
    by_cases hk : k < U.length
    · simp [hk, List.getElem_append_left, List.getD_eq_getElem]
    · have hk2 : U.length ≤ k := by omega
      have hk3 : k < U.length + X.length := by simpa using h1
      have hk4 : k - U.length < X.length := by omega
      rw [if_neg hk, if_pos hk3, List.getElem_append_right hk2, List.getD_eq_getElem _ _ hk4]
      simp

theorem filter_ge_installed (nu : Nat) (X U : List Nat) (hU : ∀ u ∈ U, u < nu) :
    ((U ++ X.map (fun x => nu + x)).filter (fun c => decide (c ≥ nu))).map (fun c => c - nu)
      = X := by
  rw [List.filter_append]
  have h1 : U.filter (fun c => decide (c ≥ nu)) = [] := by
    rw [List.filter_eq_nil_iff]
    intro u hu
    have := hU u hu
    simp; omega
  have h2 : (X.map (fun x => nu + x)).filter (fun c => decide (c ≥ nu))
      = X.map (fun x => nu + x) := by
    rw [List.filter_eq_self]
    intro c hc
    rw [List.mem_map] at hc
    obtain ⟨x, _, rfl⟩ := hc
    simp
  rw [h1, h2, List.nil_append, List.map_map]
  conv_rhs => rw [← List.map_id X]
  apply List.map_congr_left
  intro x _
  simp

theorem filter_lt_installed (nu : Nat) (X U : List Nat) (hU : ∀ u ∈ U, u < nu) :
    (U ++ X.map (fun x => nu + x)).filter (fun c => decide (c < nu)) = U := by
  rw [List.filter_append]
  have h1 : U.filter (fun c => decide (c < nu)) = U := by
    rw [List.filter_eq_self]
    intro u hu
    simpa using hU u hu
  have h2 : (X.map (fun x => nu + x)).filter (fun c => decide (c < nu)) = [] := by
    rw [List.filter_eq_nil_iff]
    intro c hc
    rw [List.mem_map] at hc
    obtain ⟨x, _, rfl⟩ := hc
    simp
  rw [h1, h2]
  simp

theorem getD_map_range {α : Type} (f : Nat → α) (n i : Nat) (d : α) (h : i < n) :
    ((List.range n).map f).getD i d = f i := by
  rw [List.getD_eq_getElem _ _ (by simpa using h)]
  simp

theorem x_indices_eq (s : ocp_qp) (i : Nat) (h : i < s.N + 1) :
    x_indices s i = ((idxb_cells s i).filter (fun c => decide (c ≥ dim_at s.qp.dim.nu i))).map
        (fun c => c - dim_at s.qp.dim.nu i) := by
  simp only [x_indices, bounds_indices, if_true]
  rw [getD_map_range _ _ _ _ h]

theorem u_indices_eq (s : ocp_qp) (i : Nat) (h : i < s.N + 1) :
    u_indices s i = (idxb_cells s i).filter (fun c => decide (c < dim_at s.qp.dim.nu i)) := by
  have hne : ¬ ("u" = "x") := by decide
  simp only [u_indices, bounds_indices, hne, if_false, if_true]
  rw [getD_map_range _ _ _ _ h]

theorem stage_canon_indices (s : ocp_qp) (i : Nat) (X U : List Nat) (h : i < s.N + 1)
    (hc : stage_canon s i X U) (hU : ∀ u ∈ U, u < dim_at s.qp.dim.nu i) :
    x_indices s i = X ∧ u_indices s i = U := by
  obtain ⟨_, _, _, hcells⟩ := hc
  rw [x_indices_eq s i h, u_indices_eq s i h, hcells]
  exact ⟨filter_ge_installed _ X U hU, filter_lt_installed _ X U hU⟩

theorem install_all_apply (W : Nat → (Nat → Nat) → (Nat → Nat)) (l : List Nat) (hl : l.Nodup)
    (F : Nat → Nat → Nat) (i : Nat) :
    install_all W l F i = if i ∈ l then W i (F i) else F i := by
  unfold install_all
  induction l generalizing F with
  | nil => simp
  | cons a rest ih =>
    rw [List.nodup_cons] at hl
    rw [List.foldl_cons, ih hl.2]
    by_cases hi : i ∈ rest
    · have hne : i ≠ a := fun h => hl.1 (h ▸ hi)
      simp [hi, Function.update_noteq hne]
    · by_cases hia : i = a
      · subst hia; simp [hi]
      · simp [hi, hia, Function.update_noteq hia]

theorem for_each_idxb (l : List Nat) (body : Nat → ocp_qp → Outcome Unit)
    (W : Nat → (Nat → Nat) → (Nat → Nat)) (s : ocp_qp)
    (h : ∀ stage ∈ l, ∀ F, body stage (with_idxb s F) =
      (.ok (), with_idxb s (Function.update F stage (W stage (F stage))))) :
    for_each l body s = (.ok (), with_idxb s (install_all W l s.qp.idxb)) := by
  have key : ∀ F, for_each l body (with_idxb s F) = (.ok (), with_idxb s (install_all W l F)) := by
    induction l with
    | nil => intro F; rfl
    | cons a rest ih =>
      intro F
      have ha := h a (List.mem_cons_self _ _) F
      have hr := ih (fun st hst => h st (List.mem_cons_of_mem _ hst))
      simp only [for_each, ha]
      exact hr _
  exact key s.qp.idxb

theorem set_bounds_indices_x (s : ocp_qp) (stage : Nat) (v : List Nat)
    (h : dim_at s.qp.dim.nbx stage = v.length) :
    set_bounds_indices s "x" stage v = (.ok (), with_idxb s (Function.update s.qp.idxb stage
      (write_cells (dim_at s.qp.dim.nbu stage) (dim_at s.qp.dim.nu stage) v
        (s.qp.idxb stage)))) := by
  simp [set_bounds_indices, h, with_idxb]

theorem set_bounds_indices_u (s : ocp_qp) (stage : Nat) (v : List Nat)
    (h : dim_at s.qp.dim.nbu stage = v.length) :
    set_bounds_indices s "u" stage v = (.ok (), with_idxb s (Function.update s.qp.idxb stage
      (write_cells 0 0 v (s.qp.idxb stage)))) := by
  have hne : ¬ ("u" = "x") := by decide
  simp [set_bounds_indices, h, with_idxb, hne]

theorem squeeze_install_x (s : ocp_qp) (X : List (List Nat)) (hX : X.length = s.N + 1)
    (h : ∀ i, i < s.N + 1 → dim_at s.qp.dim.nbx i = (X.getD i []).length) :
    squeeze_install "x" X s = (.ok (), with_idxb s (install_all
      (fun i c => write_cells (dim_at s.qp.dim.nbu i) (dim_at s.qp.dim.nu i) (X.getD i []) c)
      (List.range (s.N + 1)) s.qp.idxb)) := by
  unfold squeeze_install
  apply for_each_idxb
  intro stage hst F
  rw [List.mem_range] at hst
  rw [vec_at_eq_ok X stage [] (by omega)]
  exact set_bounds_indices_x (with_idxb s F) stage _ (h stage hst)

theorem squeeze_install_u (s : ocp_qp) (U : List (List Nat)) (hU : U.length = s.N + 1)
    (h : ∀ i, i < s.N + 1 → dim_at s.qp.dim.nbu i = (U.getD i []).length) :
    squeeze_install "u" U s = (.ok (), with_idxb s (install_all
      (fun i c => write_cells 0 0 (U.getD i []) c)
      (List.range (s.N + 1)) s.qp.idxb)) := by
  unfold squeeze_install
  apply for_each_idxb
  intro stage hst F
  rw [List.mem_range] at hst
  rw [vec_at_eq_ok U stage [] (by omega)]
  exact set_bounds_indices_u (with_idxb s F) stage _ (h stage hst)

theorem squeeze_collect_x (s : ocp_qp) (h : shape_ok s) :
    squeeze_collect s "x" = .ok ((List.range (s.N + 1)).map (sq_x s)) := by
  obtain ⟨_, _, _, _, _, _, _, h1, h2, _, _, hst⟩ := h
  unfold squeeze_collect
  apply map_each_ok
  intro i hi
  rw [List.mem_range] at hi
  obtain ⟨ha, hb, _, _⟩ := hst i hi
  have e1 : s.cached_bounds.at ("lb" ++ "x") = .ok s.cached_bounds.lbx := by
    simp [bounds_cache.at]
  have e2 : s.cached_bounds.at ("ub" ++ "x") = .ok s.cached_bounds.ubx := by
    simp [bounds_cache.at]
  simp only [e1, e2]
  rw [vec_at_eq_ok _ i [] (by omega), vec_at_eq_ok _ i [] (by omega)]
  show idxb _ _ = _
  rw [idxb_eq, if_neg (not_not.mpr (ha.trans hb.symm))]
  rfl

theorem squeeze_collect_u (s : ocp_qp) (h : shape_ok s) :
    squeeze_collect s "u" = .ok ((List.range (s.N + 1)).map (sq_u s)) := by
  obtain ⟨_, _, _, _, _, _, _, _, _, h1, h2, hst⟩ := h
  unfold squeeze_collect
  apply map_each_ok
  intro i hi
  rw [List.mem_range] at hi
  obtain ⟨_, _, ha, hb⟩ := hst i hi
  have e1 : s.cached_bounds.at ("lb" ++ "u") = .ok s.cached_bounds.lbu := by
    simp [bounds_cache.at]
  have e2 : s.cached_bounds.at ("ub" ++ "u") = .ok s.cached_bounds.ubu := by
    simp [bounds_cache.at]
  simp only [e1, e2]
  rw [vec_at_eq_ok _ i [] (by omega), vec_at_eq_ok _ i [] (by omega)]
  show idxb _ _ = _
  rw [idxb_eq, if_neg (not_not.mpr (ha.trans hb.symm))]
  rfl

theorem dim_at_map_range (f : Nat → Nat) (n i : Nat) (h : i < n) :
    dim_at ((List.range n).map f) i = f i := by
  unfold dim_at
  exact getD_map_range f n i 0 h

theorem dim_at_map_map_range (g : Nat → List Nat) (n i : Nat) (h : i < n) :
    dim_at (((List.range n).map g).map List.length) i = (g i).length := by
  rw [List.map_map]
  exact dim_at_map_range _ n i h

theorem rebound_nbx (s : ocp_qp) (nbu nbx : List Nat) (F : Nat → Nat → Nat) (i : Nat)
    (h : i < s.N + 1) : dim_at (rebound s nbu nbx F).qp.dim.nbx i = dim_at nbx i := by
  simp only [rebound, d_change_bounds_dimensions_ocp_qp]
  exact dim_at_map_range _ _ i h

theorem rebound_nbu (s : ocp_qp) (nbu nbx : List Nat) (F : Nat → Nat → Nat) (i : Nat)
    (h : i < s.N + 1) : dim_at (rebound s nbu nbx F).qp.dim.nbu i = dim_at nbu i := by
  simp only [rebound, d_change_bounds_dimensions_ocp_qp]
  exact dim_at_map_range _ _ i h

theorem rebound_nb (s : ocp_qp) (nbu nbx : List Nat) (F : Nat → Nat → Nat) (i : Nat)
    (h : i < s.N + 1) :
    dim_at (rebound s nbu nbx F).qp.dim.nb i = dim_at nbu i + dim_at nbx i := by
  simp only [rebound, d_change_bounds_dimensions_ocp_qp]
  exact dim_at_map_range _ _ i h

theorem d_change_nbx (N : Nat) (nbu nbx : List Nat) (qp : ocp_qp_in) (i : Nat) (h : i < N + 1) :
    dim_at (d_change_bounds_dimensions_ocp_qp N nbu nbx qp).dim.nbx i = dim_at nbx i := by
  simp only [d_change_bounds_dimensions_ocp_qp]
  exact dim_at_map_range _ _ i h

theorem d_change_nbu (N : Nat) (nbu nbx : List Nat) (qp : ocp_qp_in) (i : Nat) (h : i < N + 1) :
    dim_at (d_change_bounds_dimensions_ocp_qp N nbu nbx qp).dim.nbu i = dim_at nbu i := by
  simp only [d_change_bounds_dimensions_ocp_qp]
  exact dim_at_map_range _ _ i h

theorem squeeze_dimensions_eq (s : ocp_qp) (h : shape_ok s) :
    squeeze_dimensions s = (.ok (), squeezed s) := by
  unfold squeeze_dimensions
  rw [squeeze_collect_x s h, squeeze_collect_u s h]
  simp only []
  rw [squeeze_install_x]
  · simp only []
    rw [squeeze_install_u]
    · simp only [with_idxb, squeezed, rebound]
      congr 3
      funext i
      rw [install_all_apply _ _ (List.nodup_range _), install_all_apply _ _ (List.nodup_range _)]
      unfold squeezed_F
      by_cases hi : i < s.N + 1
      · have hm : i ∈ List.range (s.N + 1) := List.mem_range.mpr hi
        rw [if_pos hm, if_pos hm, if_pos hi, d_change_nbu _ _ _ _ i hi,
          dim_at_map_map_range _ _ i hi, getD_map_range _ _ _ _ hi, getD_map_range _ _ _ _ hi]
        rfl
      · have hm : i ∉ List.range (s.N + 1) := fun hm => hi (List.mem_range.mp hm)
        rw [if_neg hm, if_neg hm, if_neg hi]
        rfl
    · simp [with_idxb]
    · intro i hi
      have hi2 : i < s.N + 1 := hi
      show dim_at (d_change_bounds_dimensions_ocp_qp s.N _ _ s.qp).dim.nbu i = _
      rw [d_change_nbu _ _ _ _ i hi2, dim_at_map_map_range _ _ i hi2,
        getD_map_range _ _ _ _ hi2]
  · simp
  · intro i hi
    have hi2 : i < s.N + 1 := hi
    show dim_at (d_change_bounds_dimensions_ocp_qp s.N _ _ s.qp).dim.nbx i = _
    rw [d_change_nbx _ _ _ _ i hi2, dim_at_map_map_range _ _ i hi2,
      getD_map_range _ _ _ _ hi2]

theorem idxb_cells_rebound (s : ocp_qp) (nbu nbx : List Nat) (F : Nat → Nat → Nat) (i : Nat)
    (h : i < s.N + 1) :
    idxb_cells (rebound s nbu nbx F) i = (List.range (dim_at nbu i + dim_at nbx i)).map (F i) := by
  unfold idxb_cells
  rw [rebound_nb s nbu nbx F i h]
  rfl

theorem squeezed_canon (s : ocp_qp) (i : Nat) (h : i < s.N + 1) :
    stage_canon (squeezed s) i (sq_x s i) (sq_u s i) := by
  have e1 : dim_at (squeezed s).qp.dim.nbx i = (sq_x s i).length := by
    unfold squeezed
    rw [rebound_nbx s _ _ _ i h, dim_at_map_map_range _ _ i h]
  have e2 : dim_at (squeezed s).qp.dim.nbu i = (sq_u s i).length := by
    unfold squeezed
    rw [rebound_nbu s _ _ _ i h, dim_at_map_map_range _ _ i h]
  have e3 : dim_at (squeezed s).qp.dim.nb i = (sq_u s i).length + (sq_x s i).length := by
    unfold squeezed
    rw [rebound_nb s _ _ _ i h, dim_at_map_map_range _ _ i h, dim_at_map_map_range _ _ i h]
  refine ⟨e1, e2, e3, ?_⟩
  unfold squeezed
  rw [idxb_cells_rebound s _ _ _ i h, dim_at_map_map_range _ _ i h,
    dim_at_map_map_range _ _ i h]
  have e4 : squeezed_F s i =
      installed (sq_u s i).length (dim_at s.qp.dim.nu i) (sq_x s i) (sq_u s i) (s.qp.idxb i) := by
    unfold squeezed_F
    rw [if_pos h]
  rw [e4]
  exact range_map_installed _ _ _ _

theorem sq_u_lt (s : ocp_qp) (hs : shape_ok s) (i : Nat) (h : i < s.N + 1) :
    ∀ u ∈ sq_u s i, u < dim_at s.qp.dim.nu i := by
  intro u hu
  unfold sq_u at hu
  rw [mem_active_positions] at hu
  have := (hs.2.2.2.2.2.2.2.2.2.2.2 i h).2.2.1
  omega

theorem sq_x_lt (s : ocp_qp) (hs : shape_ok s) (i : Nat) (h : i < s.N + 1) :
    ∀ x ∈ sq_x s i, x < dim_at s.qp.dim.nx i := by
  intro x hx
  unfold sq_x at hx
  rw [mem_active_positions] at hx
  have := (hs.2.2.2.2.2.2.2.2.2.2.2 i h).1
  omega

theorem squeezed_indices (s : ocp_qp) (hs : shape_ok s) (i : Nat) (h : i < s.N + 1) :
    x_indices (squeezed s) i = sq_x s i ∧ u_indices (squeezed s) i = sq_u s i :=
  stage_canon_indices (squeezed s) i _ _ h (squeezed_canon s i h) (sq_u_lt s hs i h)

theorem squeezed_shape_ok (s : ocp_qp) (hs : shape_ok s) : shape_ok (squeezed s) := by
  obtain ⟨h0, h1, h2, _, _, _, h6, h7, h8, h9, h10, h11⟩ := hs
  refine ⟨h0, h1, h2, ?_, ?_, ?_, h6, h7, h8, h9, h10, h11⟩ <;>
    simp [squeezed, rebound, d_change_bounds_dimensions_ocp_qp]

theorem idxb_cached_x (s : ocp_qp) (hs : shape_ok s) (i : Nat) (h : i < s.N + 1) :
    idxb (s.cached_bounds.lbx.getD i []) (s.cached_bounds.ubx.getD i []) = .ok (sq_x s i) := by
  obtain ⟨ha, hb, _, _⟩ := hs.2.2.2.2.2.2.2.2.2.2.2 i h
  rw [idxb_eq, if_neg (not_not.mpr (ha.trans hb.symm))]
  rfl

theorem idxb_cached_u (s : ocp_qp) (hs : shape_ok s) (i : Nat) (h : i < s.N + 1) :
    idxb (s.cached_bounds.lbu.getD i []) (s.cached_bounds.ubu.getD i []) = .ok (sq_u s i) := by
  obtain ⟨_, _, ha, hb⟩ := hs.2.2.2.2.2.2.2.2.2.2.2 i h
  rw [idxb_eq, if_neg (not_not.mpr (ha.trans hb.symm))]
  rfl


theorem squeezed_is_squeezed_form (s : ocp_qp) (hs : shape_ok s) : squeezed_form (squeezed s) := by
  intro i hi
  have hi2 : i < s.N + 1 := hi
  obtain ⟨hx, hu⟩ := squeezed_indices s hs i hi2
  obtain ⟨c1, c2, _, _⟩ := squeezed_canon s i hi2
  rw [hx, hu]
  refine ⟨idxb_cached_x s hs i hi2, idxb_cached_u s hs i hi2, ?_, ?_⟩
  · unfold nbx
    rw [getD_map_range _ _ _ _ hi]
    exact c1
  · unfold nbu
    rw [getD_map_range _ _ _ _ hi]
    exact c2

/-- Claim C2. After `squeeze_dimensions` the object is in squeezed form: at every
stage `0..N` the state index set is `idxb(lbx, ubx)` and the control index set is
`idxb(lbu, ubu)` of the cached bounds (which the squeeze leaves as they were),
`nbx` and `nbu` are the lengths of these sets; and `needs_initializing` is true. -/
theorem squeeze_postcondition (s : ocp_qp) (hs : shape_ok s) :
    ∃ s1, squeeze_dimensions s = (.ok (), s1) ∧ squeezed_form s1 ∧
      s1.needs_initializing = true ∧ s1.cached_bounds = s.cached_bounds ∧ s1.N = s.N :=
  ⟨squeezed s, squeeze_dimensions_eq s hs, squeezed_is_squeezed_form s hs, rfl, rfl, rfl⟩

theorem squeeze_postcondition_witness :
    shape_ok demo ∧
    ∃ s1, squeeze_dimensions demo = (.ok (), s1) ∧ squeezed_form s1 ∧
      s1.needs_initializing = true ∧ s1.cached_bounds = demo.cached_bounds ∧ s1.N = demo.N :=
  ⟨by decide, squeeze_postcondition demo (by decide)⟩

theorem fold_each_scan (nb n : Nat) (idxb_stage : List Nat) (lb_old ub_old : List Double)
    (hnb : nb ≤ idxb_stage.length) (hl : lb_old.length = n) (hu : ub_old.length = n)
    (k a : Nat) (st : Nat × List Double × List Double) (hst : st.1 ≤ a) (hk : a + k ≤ n) :
    ∃ r, fold_each (List.range' a k) (expand_scan_step nb idxb_stage lb_old ub_old) st
      = .ok r := by
  induction k generalizing a st with
  | zero => exact ⟨st, rfl⟩
  | succ k ih =>
    rw [List.range'_succ]
    unfold fold_each
    have step : ∃ st1, expand_scan_step nb idxb_stage lb_old ub_old st a = .ok st1
        ∧ st1.1 ≤ a + 1 := by
      unfold expand_scan_step
      by_cases h1 : st.1 < nb
      · rw [if_pos h1, vec_at_eq_ok idxb_stage st.1 0 (by omega)]
        simp only []
        by_cases h2 : a = idxb_stage.getD st.1 0
        · rw [if_pos h2, vec_at_eq_ok lb_old st.1 Double.nan (by omega),
            vec_at_eq_ok ub_old st.1 Double.nan (by omega)]
          exact ⟨_, rfl, by simp; omega⟩
        · rw [if_neg h2]
          exact ⟨_, rfl, by simp; omega⟩
      · rw [if_neg h1]
        exact ⟨_, rfl, by simp; omega⟩
    obtain ⟨st1, e1, h1⟩ := step
    rw [e1]
    exact ih (a + 1) st1 h1 (by omega)

theorem expand_scan_ok (nb n : Nat) (idxb_stage : List Nat) (lb_old ub_old : List Double)
    (hnb : nb ≤ idxb_stage.length) (hl : lb_old.length = n) (hu : ub_old.length = n) :
    ∃ r, expand_scan n nb idxb_stage lb_old ub_old = .ok r := by
  unfold expand_scan
  rw [List.range_eq_range']
  obtain ⟨r, hr⟩ := fold_each_scan nb n idxb_stage lb_old ub_old hnb hl hu n 0 (0, [], [])
    (Nat.le_refl _) (by omega)
  rw [hr]
  exact ⟨_, rfl⟩

theorem in_range_bound (s : ocp_qp) (field : String) (i : Nat) (h : i < s.N + 1)
    (hf : field = "lbx" ∨ field = "ubx" ∨ field = "lbu" ∨ field = "ubu") :
    in_range s field i = true := by
  have hi : i ≤ s.N := by omega
  rcases hf with rfl | rfl | rfl | rfl <;> simp [in_range, hi]

theorem shape_of_field_bound (s : ocp_qp) (field : String) (i : Nat) (h : i < s.N + 1)
    (hf : field = "lbx" ∨ field = "ubx" ∨ field = "lbu" ∨ field = "ubu") :
    shape_of_field s field i =
      .ok (dim_at (if field = "lbx" ∨ field = "ubx" then s.qp.dim.nx else s.qp.dim.nu) i, 1) := by
  unfold shape_of_field
  rw [in_range_bound s field i h hf]
  rcases hf with rfl | rfl | rfl | rfl <;> simp

theorem get_field_bound (s : ocp_qp) (field : String)
    (hf : field = "lbx" ∨ field = "ubx" ∨ field = "lbu" ∨ field = "ubu") :
    get_field s field = .ok ((List.range (s.N + 1)).map (fun i =>
      d_cvt_ocp_qp_to_colmaj field i s.qp
        (dim_at (if field = "lbx" ∨ field = "ubx" then s.qp.dim.nx else s.qp.dim.nu) i * 1))) := by
  unfold get_field
  have hA : ¬ (field = "A" ∨ field = "B" ∨ field = "b") := by
    rcases hf with rfl | rfl | rfl | rfl <;> decide
  rw [if_neg hA]
  simp only []
  rw [← List.range_eq_range']
  apply map_each_ok
  intro i hi
  rw [List.mem_range] at hi
  rw [shape_of_field_bound s field i hi hf]

theorem d_cvt_length (field : String) (stage : Nat) (qp : ocp_qp_in) (len : Nat) :
    (d_cvt_ocp_qp_to_colmaj field stage qp len).length = len := by
  simp [d_cvt_ocp_qp_to_colmaj]

theorem bounds_indices_x (s : ocp_qp) :
    bounds_indices s "x" = .ok ((List.range (s.N + 1)).map (x_indices s)) := by
  simp only [bounds_indices, if_true]
  congr 1
  apply List.map_congr_left
  intro i hi
  rw [List.mem_range] at hi
  rw [x_indices_eq s i hi]

theorem bounds_indices_u (s : ocp_qp) :
    bounds_indices s "u" = .ok ((List.range (s.N + 1)).map (u_indices s)) := by
  have hne : ¬ ("u" = "x") := by decide
  simp only [bounds_indices, hne, if_false, if_true]
  congr 1
  apply List.map_congr_left
  intro i hi
  rw [List.mem_range] at hi
  rw [u_indices_eq s i hi]

theorem expand_stage_x (s : ocp_qp) (i : Nat) (h : i < s.N + 1)
    (hx : dim_at s.qp.dim.nbx i ≤ (x_indices s i).length) :
    ∃ r, expand_stage s "x" i = .ok r := by
  unfold expand_stage
  have e1 : "lb" ++ "x" = "lbx" := by decide
  have e2 : "ub" ++ "x" = "ubx" := by decide
  have e3 : "n" ++ "x" = "nx" := by decide
  have e4 : "nb" ++ "x" = "nbx" := by decide
  rw [e1, e2, e3, e4, get_field_bound s "lbx" (by simp), get_field_bound s "ubx" (by simp),
    bounds_indices_x]
  simp only []
  rw [vec_at_eq_ok _ i [] (by simpa using h), vec_at_eq_ok _ i [] (by simpa using h),
    vec_at_eq_ok _ i [] (by simpa using h)]
  simp only []
  have e5 : dimensions s "nx" = nx s := by simp [dimensions]
  have e6 : dimensions s "nbx" = nbx s := by simp [dimensions]
  rw [e5, e6, vec_at_eq_ok _ i 0 (by simpa [nx] using h)]
  simp only []
  apply expand_scan_ok
  · rw [getD_map_range _ _ _ _ h]
    unfold nbx
    rw [dim_at_map_range _ _ i h]
    exact hx
  · rw [getD_map_range _ _ _ _ h, d_cvt_length]
    unfold nx
    rw [getD_map_range _ _ _ _ h]
    simp
  · rw [getD_map_range _ _ _ _ h, d_cvt_length]
    unfold nx
    rw [getD_map_range _ _ _ _ h]
    simp

theorem expand_stage_u (s : ocp_qp) (i : Nat) (h : i < s.N + 1)
    (hu : dim_at s.qp.dim.nbu i ≤ (u_indices s i).length) :
    ∃ r, expand_stage s "u" i = .ok r := by
  unfold expand_stage
  have e1 : "lb" ++ "u" = "lbu" := by decide
  have e2 : "ub" ++ "u" = "ubu" := by decide
  have e3 : "n" ++ "u" = "nu" := by decide
  have e4 : "nb" ++ "u" = "nbu" := by decide
  rw [e1, e2, e3, e4, get_field_bound s "lbu" (by simp), get_field_bound s "ubu" (by simp),
    bounds_indices_u]
  simp only []
  rw [vec_at_eq_ok _ i [] (by simpa using h), vec_at_eq_ok _ i [] (by simpa using h),
    vec_at_eq_ok _ i [] (by simpa using h)]
  simp only []
  have e5 : dimensions s "nu" = nu s := by simp [dimensions]
  have e6 : dimensions s "nbu" = nbu s := by simp [dimensions]
  rw [e5, e6, vec_at_eq_ok _ i 0 (by simpa [nu] using h)]
  simp only []
  apply expand_scan_ok
  · rw [getD_map_range _ _ _ _ h]
    unfold nbu
    rw [dim_at_map_range _ _ i h]
    exact hu
  · rw [getD_map_range _ _ _ _ h, d_cvt_length]
    unfold nu
    rw [getD_map_range _ _ _ _ h]
    simp
  · rw [getD_map_range _ _ _ _ h, d_cvt_length]
    unfold nu
    rw [getD_map_range _ _ _ _ h]
    simp

theorem map_each_exists {α β : Type} (l : List α) (f : α → Except Err β)
    (h : ∀ a ∈ l, ∃ b, f a = .ok b) : ∃ r, map_each l f = .ok r := by
  induction l with
  | nil => exact ⟨[], rfl⟩
  | cons a rest ih =>
    obtain ⟨b, hb⟩ := h a (List.mem_cons_self _ _)
    obtain ⟨r, hr⟩ := ih (fun c hc => h c (List.mem_cons_of_mem _ hc))
    exact ⟨b :: r, by simp [map_each, hb, hr]⟩

theorem expand_collect_ok (s : ocp_qp)
    (h : ∀ i, i < s.N + 1 → dim_at s.qp.dim.nbx i ≤ (x_indices s i).length ∧
      dim_at s.qp.dim.nbu i ≤ (u_indices s i).length) :
    (∃ r, expand_collect s "x" = .ok r) ∧ (∃ r, expand_collect s "u" = .ok r) := by
  constructor
  · apply map_each_exists
    intro i hi
    rw [List.mem_range] at hi
    exact expand_stage_x s i hi (h i hi).1
  · apply map_each_exists
    intro i hi
    rw [List.mem_range] at hi
    exact expand_stage_u s i hi (h i hi).2

theorem set_iota_indices_eq (cx cu : ocp_qp → List Nat) (i : Nat) (s : ocp_qp) (n m : Nat)
    (hx : vec_at (cx s) i = .ok n) (hu : ∀ F, vec_at (cu (with_idxb s F)) i = .ok m)
    (hnx : dim_at s.qp.dim.nbx i = n) (hnu : dim_at s.qp.dim.nbu i = m) :
    set_iota_indices cx cu i s = (.ok (), with_idxb s (Function.update s.qp.idxb i
      (installed (dim_at s.qp.dim.nbu i) (dim_at s.qp.dim.nu i) (List.range n) (List.range m)
        (s.qp.idxb i)))) := by
  unfold set_iota_indices
  rw [hx]
  simp only []
  rw [set_bounds_indices_x s i (List.range n) (by simpa using hnx)]
  simp only []
  rw [hu]
  simp only []
  rw [set_bounds_indices_u _ i (List.range m) (by simpa [with_idxb] using hnu)]
  simp only [with_idxb, Function.update_same, Function.update_idem, installed]

theorem vec_at_dimensions_nx (t : ocp_qp) (i : Nat) (h : i < t.N + 1) :
    vec_at (dimensions t "nx") i = .ok (dim_at t.qp.dim.nx i) := by
  have e : dimensions t "nx" = nx t := by simp [dimensions]
  rw [e, vec_at_eq_ok _ i 0 (by simpa [nx] using h)]
  unfold nx
  rw [getD_map_range _ _ _ _ h]

theorem vec_at_dimensions_nu (t : ocp_qp) (i : Nat) (h : i < t.N + 1) :
    vec_at (dimensions t "nu") i = .ok (dim_at t.qp.dim.nu i) := by
  have e : dimensions t "nu" = nu t := by simp [dimensions]
  rw [e, vec_at_eq_ok _ i 0 (by simpa [nu] using h)]
  unfold nu
  rw [getD_map_range _ _ _ _ h]

theorem expand_dimensions_eq (s : ocp_qp)
    (h : ∀ i, i < s.N + 1 → dim_at s.qp.dim.nbx i ≤ (x_indices s i).length ∧
      dim_at s.qp.dim.nbu i ≤ (u_indices s i).length) :
    expand_dimensions s = (.ok (), expanded s) := by
  obtain ⟨⟨rx, hrx⟩, ⟨ru, hru⟩⟩ := expand_collect_ok s h
  unfold expand_dimensions
  rw [hrx, hru]
  simp only []
  rw [for_each_idxb _ _ (fun i c => installed (dim_at s.qp.dim.nu i) (dim_at s.qp.dim.nu i)
    (List.range (dim_at s.qp.dim.nx i)) (List.range (dim_at s.qp.dim.nu i)) c)]
  · simp only [with_idxb, expanded, rebound]
    congr 3
    funext i
    rw [install_all_apply _ _ (List.nodup_range _)]
    unfold expanded_F
    by_cases hi : i < s.N + 1
    · have hm : i ∈ List.range (s.N + 1) := List.mem_range.mpr hi
      rw [if_pos hm, if_pos hi]
      rfl
    · have hm : i ∉ List.range (s.N + 1) := fun hm => hi (List.mem_range.mp hm)
      rw [if_neg hm, if_neg hi]
      rfl
  · intro i hi F
    rw [List.mem_range] at hi
    have hi2 : i < s.N + 1 := hi
    rw [set_iota_indices_eq _ _ i _ (dim_at s.qp.dim.nx i) (dim_at s.qp.dim.nu i)]
    · simp only [with_idxb]
      rw [d_change_nbu _ _ _ _ i hi2]
      rfl
    · exact vec_at_dimensions_nx _ i hi2
    · intro G
      exact vec_at_dimensions_nu _ i hi2
    · show dim_at (d_change_bounds_dimensions_ocp_qp s.N _ _ s.qp).dim.nbx i = _
      rw [d_change_nbx _ _ _ _ i hi2]
    · show dim_at (d_change_bounds_dimensions_ocp_qp s.N _ _ s.qp).dim.nbu i = _
      rw [d_change_nbu _ _ _ _ i hi2]

theorem expanded_canon (s : ocp_qp) (i : Nat) (h : i < s.N + 1) :
    stage_canon (expanded s) i (List.range (dim_at s.qp.dim.nx i))
      (List.range (dim_at s.qp.dim.nu i)) := by
  have e1 : dim_at (expanded s).qp.dim.nbx i = dim_at s.qp.dim.nx i := by
    unfold expanded
    rw [rebound_nbx s _ _ _ i h]
  have e2 : dim_at (expanded s).qp.dim.nbu i = dim_at s.qp.dim.nu i := by
    unfold expanded
    rw [rebound_nbu s _ _ _ i h]
  have e3 : dim_at (expanded s).qp.dim.nb i = dim_at s.qp.dim.nu i + dim_at s.qp.dim.nx i := by
    unfold expanded
    rw [rebound_nb s _ _ _ i h]
  refine ⟨by simpa using e1, by simpa using e2, by simpa using e3, ?_⟩
  unfold expanded
  rw [idxb_cells_rebound s _ _ _ i h]
  have e4 : expanded_F s i =
      installed (List.range (dim_at s.qp.dim.nu i)).length (dim_at s.qp.dim.nu i)
        (List.range (dim_at s.qp.dim.nx i)) (List.range (dim_at s.qp.dim.nu i)) (s.qp.idxb i) := by
    unfold expanded_F
    rw [if_pos h, List.length_range]
  rw [e4]
  have e5 := range_map_installed (dim_at s.qp.dim.nu i) (List.range (dim_at s.qp.dim.nx i))
    (List.range (dim_at s.qp.dim.nu i)) (s.qp.idxb i)
  simp only [List.length_range] at e5 ⊢
  exact e5

theorem expanded_indices (s : ocp_qp) (i : Nat) (h : i < s.N + 1) :
    x_indices (expanded s) i = List.range (dim_at s.qp.dim.nx i) ∧
    u_indices (expanded s) i = List.range (dim_at s.qp.dim.nu i) :=
  stage_canon_indices (expanded s) i _ _ h (expanded_canon s i h)
    (fun _ hu => List.mem_range.mp hu)

theorem expanded_shape_ok (s : ocp_qp) (hs : shape_ok s) : shape_ok (expanded s) := by
  obtain ⟨h0, h1, h2, _, _, _, h6, h7, h8, h9, h10, h11⟩ := hs
  refine ⟨h0, h1, h2, ?_, ?_, ?_, h6, h7, h8, h9, h10, h11⟩ <;>
    simp [expanded, rebound, d_change_bounds_dimensions_ocp_qp]

theorem expanded_idx_ok (s : ocp_qp) : idx_ok (expanded s) := by
  intro i hi
  have hi2 : i < s.N + 1 := hi
  obtain ⟨hx, hu⟩ := expanded_indices s i hi2
  obtain ⟨c1, c2, _, _⟩ := expanded_canon s i hi2
  rw [hx, hu]
  exact ⟨c1.symm, c2.symm⟩

theorem squeezed_idx_ok (s : ocp_qp) (hs : shape_ok s) : idx_ok (squeezed s) := by
  intro i hi
  have hi2 : i < s.N + 1 := hi
  obtain ⟨hx, hu⟩ := squeezed_indices s hs i hi2
  obtain ⟨c1, c2, _, _⟩ := squeezed_canon s i hi2
  rw [hx, hu]
  exact ⟨c1.symm, c2.symm⟩

theorem front_lbx : "lbx".front = 'l' := by decide
theorem front_lbu : "lbu".front = 'l' := by decide
theorem front_ubx : "ubx".front = 'u' := by decide
theorem front_ubu : "ubu".front = 'u' := by decide
theorem class_lbx : String.singleton "lbx".back = "x" := by decide
theorem class_ubx : String.singleton "ubx".back = "x" := by decide
theorem class_lbu : String.singleton "lbu".back = "u" := by decide
theorem class_ubu : String.singleton "ubu".back = "u" := by decide
theorem other_lbx : "lbx".set 0 'u' = "ubx" := by decide
theorem other_lbu : "lbu".set 0 'u' = "ubu" := by decide
theorem other_ubx : "ubx".set 0 'l' = "lbx" := by decide
theorem other_ubu : "ubu".set 0 'l' = "lbu" := by decide

theorem x_indices_with_bound (s : ocp_qp) (f : String) (i : Nat) (v : List Double) (j : Nat) :
    x_indices (with_bound s f i v) j = x_indices s j := rfl

theorem u_indices_with_bound (s : ocp_qp) (f : String) (i : Nat) (v : List Double) (j : Nat) :
    u_indices (with_bound s f i v) j = u_indices s j := rfl

theorem u_ne_l : ¬ ('u' = 'l') := by decide

theorem set_bound_lbx (s : ocp_qp) (hs : shape_ok s) (i : Nat) (hi : i < s.N + 1)
    (v : List Double) (hv : v.length = dim_at s.qp.dim.nx i)
    (hx : ∀ j, j < s.N + 1 → dim_at s.qp.dim.nbx j ≤ (x_indices s j).length ∧
      dim_at s.qp.dim.nbu j ≤ (u_indices s j).length) :
    set_bound s "lbx" i v =
      (.ok (), if x_indices s i ≠ sq_x (with_bound s "lbx" i v) i
        then expanded (with_bound s "lbx" i v) else with_bound s "lbx" i v) := by
  have hlen : s.cached_bounds.lbx.length = s.N + 1 := by
    obtain ⟨_, _, _, _, _, _, _, h7, h8, h9, h10, _⟩ := hs
    assumption
  have hlen2 : s.cached_bounds.ubx.length = s.N + 1 := by
    obtain ⟨_, _, _, _, _, _, _, h7, h8, h9, h10, _⟩ := hs
    assumption
  have hub : (s.cached_bounds.ubx.getD i []).length = dim_at s.qp.dim.nx i := by
    obtain ⟨h1, h2, h3, h4⟩ := hs.2.2.2.2.2.2.2.2.2.2.2 i hi
    assumption
  have hi' : i < (with_bound s "lbx" i v).N + 1 := hi
  unfold set_bound
  have e1 : s.cached_bounds.at "lbx" = .ok s.cached_bounds.lbx := by simp [bounds_cache.at]
  rw [e1]
  simp only []
  rw [if_pos (by omega)]
  simp only [class_lbx, front_lbx, other_lbx, if_true, u_ne_l, if_false]
  have e0 : ({ s with cached_bounds := s.cached_bounds.put "lbx" (s.cached_bounds.lbx.set i v) } : ocp_qp)
      = with_bound s "lbx" i v := by
    simp [with_bound, cached, e1]
  have e2 : (s.cached_bounds.put "lbx" (s.cached_bounds.lbx.set i v)).at "ubx"
      = .ok s.cached_bounds.ubx := by
    simp [bounds_cache.at, bounds_cache.put]
  have e3 : sq_x (with_bound s "lbx" i v) i = active_positions v (s.cached_bounds.ubx.getD i []) := by
    have hil : i < s.cached_bounds.lbx.length := by omega
    have e4 : (s.cached_bounds.lbx.set i v)[i]?.getD [] = v := by
      simp [hil]
    simp [sq_x, with_bound, cached, e1, bounds_cache.put, e4]
  rw [e0, e2, bounds_indices_x]
  simp only []
  rw [vec_at_eq_ok _ i [] (by simpa using hi), vec_at_eq_ok _ i [] (by omega)]
  simp only []
  rw [idxb_eq, if_neg (not_not.mpr (hv.trans hub.symm)), getD_map_range _ _ _ _ hi', ← e3]
  try simp only []
  by_cases hc : x_indices s i = sq_x (with_bound s "lbx" i v) i
  · have hc2 : x_indices (with_bound s "lbx" i v) i = sq_x (with_bound s "lbx" i v) i := hc
    simp [hc, hc2]
  · have hc2 : ¬ x_indices (with_bound s "lbx" i v) i = sq_x (with_bound s "lbx" i v) i := hc
    rw [if_pos hc2, if_pos hc, expand_dimensions_eq (with_bound s "lbx" i v) hx]
    rfl

theorem set_bound_ubx (s : ocp_qp) (hs : shape_ok s) (i : Nat) (hi : i < s.N + 1)
    (v : List Double) (hv : v.length = dim_at s.qp.dim.nx i)
    (hx : ∀ j, j < s.N + 1 → dim_at s.qp.dim.nbx j ≤ (x_indices s j).length ∧
      dim_at s.qp.dim.nbu j ≤ (u_indices s j).length) :
    set_bound s "ubx" i v =
      (.ok (), if x_indices s i ≠ sq_x (with_bound s "ubx" i v) i
        then expanded (with_bound s "ubx" i v) else with_bound s "ubx" i v) := by
  have hlen : s.cached_bounds.ubx.length = s.N + 1 := by
    obtain ⟨_, _, _, _, _, _, _, h7, h8, h9, h10, _⟩ := hs
    assumption
  have hlen2 : s.cached_bounds.lbx.length = s.N + 1 := by
    obtain ⟨_, _, _, _, _, _, _, h7, h8, h9, h10, _⟩ := hs
    assumption
  have hub : (s.cached_bounds.lbx.getD i []).length = dim_at s.qp.dim.nx i := by
    obtain ⟨h1, h2, h3, h4⟩ := hs.2.2.2.2.2.2.2.2.2.2.2 i hi
    assumption
  have hi' : i < (with_bound s "ubx" i v).N + 1 := hi
  unfold set_bound
  have e1 : s.cached_bounds.at "ubx" = .ok s.cached_bounds.ubx := by simp [bounds_cache.at]
  rw [e1]
  simp only []
  rw [if_pos (by omega)]
  simp only [class_ubx, front_ubx, other_ubx, if_true, u_ne_l, if_false]
  have e0 : ({ s with cached_bounds := s.cached_bounds.put "ubx" (s.cached_bounds.ubx.set i v) } : ocp_qp)
      = with_bound s "ubx" i v := by
    simp [with_bound, cached, e1]
  have e2 : (s.cached_bounds.put "ubx" (s.cached_bounds.ubx.set i v)).at "lbx"
      = .ok s.cached_bounds.lbx := by
    simp [bounds_cache.at, bounds_cache.put]
  have e3 : sq_x (with_bound s "ubx" i v) i = active_positions (s.cached_bounds.lbx.getD i []) v := by
    have hil : i < s.cached_bounds.ubx.length := by omega
    have e4 : (s.cached_bounds.ubx.set i v)[i]?.getD [] = v := by
      simp [hil]
    simp [sq_x, with_bound, cached, e1, bounds_cache.put, e4]
  rw [e0, e2, bounds_indices_x]
  simp only []
  rw [vec_at_eq_ok _ i [] (by simpa using hi), vec_at_eq_ok _ i [] (by omega)]
  simp only []
  rw [idxb_eq, if_neg (not_not.mpr (hub.trans hv.symm)), getD_map_range _ _ _ _ hi', ← e3]
  try simp only []
  by_cases hc : x_indices s i = sq_x (with_bound s "ubx" i v) i
  · have hc2 : x_indices (with_bound s "ubx" i v) i = sq_x (with_bound s "ubx" i v) i := hc
    simp [hc, hc2]
  · have hc2 : ¬ x_indices (with_bound s "ubx" i v) i = sq_x (with_bound s "ubx" i v) i := hc
    rw [if_pos hc2, if_pos hc, expand_dimensions_eq (with_bound s "ubx" i v) hx]
    rfl

theorem set_bound_lbu (s : ocp_qp) (hs : shape_ok s) (i : Nat) (hi : i < s.N + 1)
    (v : List Double) (hv : v.length = dim_at s.qp.dim.nu i)
    (hx : ∀ j, j < s.N + 1 → dim_at s.qp.dim.nbx j ≤ (x_indices s j).length ∧
      dim_at s.qp.dim.nbu j ≤ (u_indices s j).length) :
    set_bound s "lbu" i v =
      (.ok (), if u_indices s i ≠ sq_u (with_bound s "lbu" i v) i
        then expanded (with_bound s "lbu" i v) else with_bound s "lbu" i v) := by
  have hlen : s.cached_bounds.lbu.length = s.N + 1 := by
    obtain ⟨_, _, _, _, _, _, _, h7, h8, h9, h10, _⟩ := hs
    assumption
  have hlen2 : s.cached_bounds.ubu.length = s.N + 1 := by
    obtain ⟨_, _, _, _, _, _, _, h7, h8, h9, h10, _⟩ := hs
    assumption
  have hub : (s.cached_bounds.ubu.getD i []).length = dim_at s.qp.dim.nu i := by
    obtain ⟨h1, h2, h3, h4⟩ := hs.2.2.2.2.2.2.2.2.2.2.2 i hi
    assumption
  have hi' : i < (with_bound s "lbu" i v).N + 1 := hi
  unfold set_bound
  have e1 : s.cached_bounds.at "lbu" = .ok s.cached_bounds.lbu := by simp [bounds_cache.at]
  rw [e1]
  simp only []
  rw [if_pos (by omega)]
  simp only [class_lbu, front_lbu, other_lbu, if_true, u_ne_l, if_false]
  have e0 : ({ s with cached_bounds := s.cached_bounds.put "lbu" (s.cached_bounds.lbu.set i v) } : ocp_qp)
      = with_bound s "lbu" i v := by
    simp [with_bound, cached, e1]
  have e2 : (s.cached_bounds.put "lbu" (s.cached_bounds.lbu.set i v)).at "ubu"
      = .ok s.cached_bounds.ubu := by
    simp [bounds_cache.at, bounds_cache.put]
  have e3 : sq_u (with_bound s "lbu" i v) i = active_positions v (s.cached_bounds.ubu.getD i []) := by
    have hil : i < s.cached_bounds.lbu.length := by omega
    have e4 : (s.cached_bounds.lbu.set i v)[i]?.getD [] = v := by
      simp [hil]
    simp [sq_u, with_bound, cached, e1, bounds_cache.put, e4]
  rw [e0, e2, bounds_indices_u]
  simp only []
  rw [vec_at_eq_ok _ i [] (by simpa using hi), vec_at_eq_ok _ i [] (by omega)]
  simp only []
  rw [idxb_eq, if_neg (not_not.mpr (hv.trans hub.symm)), getD_map_range _ _ _ _ hi', ← e3]
  try simp only []
  by_cases hc : u_indices s i = sq_u (with_bound s "lbu" i v) i
  · have hc2 : u_indices (with_bound s "lbu" i v) i = sq_u (with_bound s "lbu" i v) i := hc
    simp [hc, hc2]
  · have hc2 : ¬ u_indices (with_bound s "lbu" i v) i = sq_u (with_bound s "lbu" i v) i := hc
    rw [if_pos hc2, if_pos hc, expand_dimensions_eq (with_bound s "lbu" i v) hx]
    rfl

theorem set_bound_ubu (s : ocp_qp) (hs : shape_ok s) (i : Nat) (hi : i < s.N + 1)
    (v : List Double) (hv : v.length = dim_at s.qp.dim.nu i)
    (hx : ∀ j, j < s.N + 1 → dim_at s.qp.dim.nbx j ≤ (x_indices s j).length ∧
      dim_at s.qp.dim.nbu j ≤ (u_indices s j).length) :
    set_bound s "ubu" i v =
      (.ok (), if u_indices s i ≠ sq_u (with_bound s "ubu" i v) i
        then expanded (with_bound s "ubu" i v) else with_bound s "ubu" i v) := by
  have hlen : s.cached_bounds.ubu.length = s.N + 1 := by
    obtain ⟨_, _, _, _, _, _, _, h7, h8, h9, h10, _⟩ := hs
    assumption
  have hlen2 : s.cached_bounds.lbu.length = s.N + 1 := by
    obtain ⟨_, _, _, _, _, _, _, h7, h8, h9, h10, _⟩ := hs
    assumption
  have hub : (s.cached_bounds.lbu.getD i []).length = dim_at s.qp.dim.nu i := by
    obtain ⟨h1, h2, h3, h4⟩ := hs.2.2.2.2.2.2.2.2.2.2.2 i hi
    assumption
  have hi' : i < (with_bound s "ubu" i v).N + 1 := hi
  unfold set_bound
  have e1 : s.cached_bounds.at "ubu" = .ok s.cached_bounds.ubu := by simp [bounds_cache.at]
  rw [e1]
  simp only []
  rw [if_pos (by omega)]
  simp only [class_ubu, front_ubu, other_ubu, if_true, u_ne_l, if_false]
  have e0 : ({ s with cached_bounds := s.cached_bounds.put "ubu" (s.cached_bounds.ubu.set i v) } : ocp_qp)
      = with_bound s "ubu" i v := by
    simp [with_bound, cached, e1]
  have e2 : (s.cached_bounds.put "ubu" (s.cached_bounds.ubu.set i v)).at "lbu"
      = .ok s.cached_bounds.lbu := by
    simp [bounds_cache.at, bounds_cache.put]
  have e3 : sq_u (with_bound s "ubu" i v) i = active_positions (s.cached_bounds.lbu.getD i []) v := by
    have hil : i < s.cached_bounds.ubu.length := by omega
    have e4 : (s.cached_bounds.ubu.set i v)[i]?.getD [] = v := by
      simp [hil]
    simp [sq_u, with_bound, cached, e1, bounds_cache.put, e4]
  rw [e0, e2, bounds_indices_u]
  simp only []
  rw [vec_at_eq_ok _ i [] (by simpa using hi), vec_at_eq_ok _ i [] (by omega)]
  simp only []
  rw [idxb_eq, if_neg (not_not.mpr (hub.trans hv.symm)), getD_map_range _ _ _ _ hi', ← e3]
  try simp only []
  by_cases hc : u_indices s i = sq_u (with_bound s "ubu" i v) i
  · have hc2 : u_indices (with_bound s "ubu" i v) i = sq_u (with_bound s "ubu" i v) i := hc
    simp [hc, hc2]
  · have hc2 : ¬ u_indices (with_bound s "ubu" i v) i = sq_u (with_bound s "ubu" i v) i := hc
    rw [if_pos hc2, if_pos hc, expand_dimensions_eq (with_bound s "ubu" i v) hx]
    rfl

theorem idx_ok_le (s : ocp_qp) (h : idx_ok s) :
    ∀ j, j < s.N + 1 → dim_at s.qp.dim.nbx j ≤ (x_indices s j).length ∧
      dim_at s.qp.dim.nbu j ≤ (u_indices s j).length := by
  intro j hj
  obtain ⟨h1, h2⟩ := h j hj
  omega

theorem set_field_bound (s : ocp_qp) (hs : shape_ok s) (f : String) (hf : is_bound_field f)
    (i : Nat) (hi : i < s.N + 1) (v : List Double) (hv : v.length = class_dim s f i)
    (hx : ∀ j, j < s.N + 1 → dim_at s.qp.dim.nbx j ≤ (x_indices s j).length ∧
      dim_at s.qp.dim.nbu j ≤ (u_indices s j).length) :
    set_field s f i v =
      (.ok (), if class_indices s f i ≠ class_sq (with_bound s f i v) f i
        then expanded (with_bound s f i v) else with_bound s f i v) := by
  unfold set_field
  rw [in_range_bound s f i hi hf, shape_of_field_bound s f i hi hf]
  have hm : match_shape (class_dim s f i, 1) v.length = true := by
    simp [match_shape, hv]
  simp only [Bool.not_eq_true, Bool.true_eq_false, not_false_eq_true, if_false]
  unfold class_dim at hm hv
  unfold is_bound_field at hf
  rw [hm]
  simp only [Bool.true_eq_false, if_false, if_pos hf]
  rcases hf with rfl | rfl | rfl | rfl
  · simpa [class_indices, class_sq] using set_bound_lbx s hs i hi v (by simpa using hv) hx
  · simpa [class_indices, class_sq] using set_bound_ubx s hs i hi v (by simpa using hv) hx
  · simpa [class_indices, class_sq] using set_bound_lbu s hs i hi v (by simpa using hv) hx
  · simpa [class_indices, class_sq] using set_bound_ubu s hs i hi v (by simpa using hv) hx

/-- Claim C3. In an object that satisfies the class invariants (for instance one
that is ready after `initialize_solver`), a `set_field` on a bound field at a
valid stage whose resulting active set differs from the stage's current index set
succeeds and leaves `needs_initializing` true; a following `solve()` throws the
`Reinitialize solver` error and leaves the object, in particular the count of
backend calls, as it was. -/
theorem stale_solver_rejection (backend : ocp_qp → Int × ocp_qp_out) (s : ocp_qp)
    (hs : shape_ok s) (hidx : idx_ok s) (f : String) (hf : is_bound_field f)
    (i : Nat) (hi : i < s.N + 1) (v : List Double) (hv : v.length = class_dim s f i)
    (hdiff : class_sq (with_bound s f i v) f i ≠ class_indices s f i) :
    ∃ s1, set_field s f i v = (.ok (), s1) ∧ s1.needs_initializing = true ∧
      solve backend s1 = (.error (.runtime_error "Reinitialize solver"), s1) ∧
      s1.backend_calls = s.backend_calls := by
  refine ⟨expanded (with_bound s f i v), ?_, rfl, ?_, rfl⟩
  · rw [set_field_bound s hs f hf i hi v hv (idx_ok_le s hidx), if_pos (fun h => hdiff h.symm)]
  · unfold solve
    have hn : (expanded (with_bound s f i v)).needs_initializing = true := rfl
    rw [if_pos hn]

theorem stale_solver_rejection_witness :
    shape_ok demo_ready ∧ idx_ok demo_ready ∧ demo_ready.needs_initializing = false ∧
    is_bound_field "lbx" ∧ 1 < demo_ready.N + 1 ∧
    [Double.fin 0, Double.ninf].length = class_dim demo_ready "lbx" 1 ∧
    class_sq (with_bound demo_ready "lbx" 1 [.fin 0, .ninf]) "lbx" 1
      ≠ class_indices demo_ready "lbx" 1 ∧
    ∃ s1, set_field demo_ready "lbx" 1 [.fin 0, .ninf] = (.ok (), s1) ∧
      s1.needs_initializing = true ∧
      solve (fun _ => (0, ⟨[]⟩)) s1 = (.error (.runtime_error "Reinitialize solver"), s1) ∧
      s1.backend_calls = demo_ready.backend_calls :=
  ⟨by decide, by decide, by decide, by decide, by decide, by decide, by decide,
    stale_solver_rejection (fun _ => (0, ⟨[]⟩)) demo_ready (by decide) (by decide) "lbx"
      (by decide) 1 (by decide) [.fin 0, .ninf] (by decide) (by decide)⟩

theorem installed_idem (nu : Nat) (X U : List Nat) (cells : Nat → Nat) :
    installed U.length nu X U (installed U.length nu X U cells)
      = installed U.length nu X U cells := by
  funext k
  rw [installed_apply, installed_apply]
  by_cases h1 : k < U.length
  · simp [h1]
  · by_cases h2 : k < U.length + X.length
    · simp [h1, h2]
    · simp [h1, h2]

theorem squeezed_idem (s : ocp_qp) : squeezed (squeezed s) = squeezed s := by
  have hF : squeezed_F (squeezed s) = squeezed_F s := by
    funext i
    show (if i < s.N + 1 then
        installed (sq_u s i).length (dim_at s.qp.dim.nu i) (sq_x s i) (sq_u s i) (squeezed_F s i)
      else squeezed_F s i) = squeezed_F s i
    by_cases hi : i < s.N + 1
    · rw [if_pos hi]
      have e : squeezed_F s i = installed (sq_u s i).length (dim_at s.qp.dim.nu i) (sq_x s i)
          (sq_u s i) (s.qp.idxb i) := by
        unfold squeezed_F
        rw [if_pos hi]
      rw [e, installed_idem]
    · rw [if_neg hi]
  show rebound (squeezed s) _ _ (squeezed_F (squeezed s)) = _
  rw [hF]
  rfl

/-- Claim C8. Squeezing twice in a row leaves exactly the object the first squeeze
left: the second `squeeze_dimensions` succeeds and changes nothing, so every
stage's state and control index sets, `nbx`, `nbu` and the cached bounds are as
after the first one. -/
theorem squeeze_idempotent (s : ocp_qp) (hs : shape_ok s) :
    ∃ s1, squeeze_dimensions s = (.ok (), s1) ∧ squeeze_dimensions s1 = (.ok (), s1) := by
  refine ⟨squeezed s, squeeze_dimensions_eq s hs, ?_⟩
  rw [squeeze_dimensions_eq (squeezed s) (squeezed_shape_ok s hs), squeezed_idem]

theorem squeeze_idempotent_witness :
    shape_ok demo ∧
    ∃ s1, squeeze_dimensions demo = (.ok (), s1) ∧ squeeze_dimensions s1 = (.ok (), s1) :=
  ⟨by decide, squeeze_idempotent demo (by decide)⟩

theorem nbx_eq_of_stagewise (s t : ocp_qp) (hN : t.N = s.N)
    (h : ∀ i, i < s.N + 1 → dim_at t.qp.dim.nbx i = dim_at s.qp.dim.nbx i) : nbx t = nbx s := by
  unfold nbx
  rw [hN]
  apply List.map_congr_left
  intro i hi
  exact h i (List.mem_range.mp hi)

theorem nbu_eq_of_stagewise (s t : ocp_qp) (hN : t.N = s.N)
    (h : ∀ i, i < s.N + 1 → dim_at t.qp.dim.nbu i = dim_at s.qp.dim.nbu i) : nbu t = nbu s := by
  unfold nbu
  rw [hN]
  apply List.map_congr_left
  intro i hi
  exact h i (List.mem_range.mp hi)

theorem bounds_indices_eq_of_stagewise (s t : ocp_qp) (hN : t.N = s.N)
    (h : ∀ i, i < s.N + 1 → x_indices t i = x_indices s i ∧ u_indices t i = u_indices s i) :
    bounds_indices t "x" = bounds_indices s "x" ∧ bounds_indices t "u" = bounds_indices s "u" := by
  rw [bounds_indices_x, bounds_indices_x, bounds_indices_u, bounds_indices_u, hN]
  constructor
  · congr 1
    apply List.map_congr_left
    intro i hi
    exact (h i (List.mem_range.mp hi)).1
  · congr 1
    apply List.map_congr_left
    intro i hi
    exact (h i (List.mem_range.mp hi)).2

/-- Claim C9. For an object `s1` produced by `squeeze_dimensions`, running
`expand_dimensions` and then `squeeze_dimensions` succeeds and restores, at every
stage, the state and control index sets and `nbx`, `nbu` of `s1`. -/
theorem expand_squeeze_inverse (s s1 : ocp_qp) (hs : shape_ok s)
    (h1 : squeeze_dimensions s = (.ok (), s1)) :
    ∃ e s2, expand_dimensions s1 = (.ok (), e) ∧ squeeze_dimensions e = (.ok (), s2) ∧
      bounds_indices s2 "x" = bounds_indices s1 "x" ∧
      bounds_indices s2 "u" = bounds_indices s1 "u" ∧
      nbx s2 = nbx s1 ∧ nbu s2 = nbu s1 := by
  rw [squeeze_dimensions_eq s hs] at h1
  have e1 : s1 = squeezed s := by
    have := congrArg Prod.snd h1
    exact this.symm
  subst e1
  have hs1 := squeezed_shape_ok s hs
  have hs2 := expanded_shape_ok _ hs1
  refine ⟨expanded (squeezed s), squeezed (expanded (squeezed s)),
    expand_dimensions_eq _ (idx_ok_le _ (squeezed_idx_ok s hs)),
    squeeze_dimensions_eq _ hs2, ?_⟩
  have hst : ∀ i, i < (squeezed s).N + 1 →
      x_indices (squeezed (expanded (squeezed s))) i = x_indices (squeezed s) i ∧
      u_indices (squeezed (expanded (squeezed s))) i = u_indices (squeezed s) i := by
    intro i hi
    have hi2 : i < s.N + 1 := hi
    obtain ⟨a1, a2⟩ := squeezed_indices (expanded (squeezed s)) hs2 i hi2
    obtain ⟨b1, b2⟩ := squeezed_indices s hs i hi2
    rw [a1, a2, b1, b2]
    exact ⟨rfl, rfl⟩
  obtain ⟨hbx, hbu⟩ := bounds_indices_eq_of_stagewise (squeezed s)
    (squeezed (expanded (squeezed s))) rfl hst
  refine ⟨hbx, hbu, ?_, ?_⟩
  · apply nbx_eq_of_stagewise _ _ rfl
    intro i hi
    have hi2 : i < s.N + 1 := hi
    exact ((squeezed_canon (expanded (squeezed s)) i hi2).1).trans
      ((squeezed_canon s i hi2).1).symm
  · apply nbu_eq_of_stagewise _ _ rfl
    intro i hi
    have hi2 : i < s.N + 1 := hi
    exact ((squeezed_canon (expanded (squeezed s)) i hi2).2.1).trans
      ((squeezed_canon s i hi2).2.1).symm

theorem expand_squeeze_inverse_witness :
    shape_ok demo ∧ squeeze_dimensions demo = (.ok (), (squeeze_dimensions demo).2) ∧
    ∃ e s2, expand_dimensions (squeeze_dimensions demo).2 = (.ok (), e) ∧
      squeeze_dimensions e = (.ok (), s2) ∧
      bounds_indices s2 "x" = bounds_indices (squeeze_dimensions demo).2 "x" ∧
      bounds_indices s2 "u" = bounds_indices (squeeze_dimensions demo).2 "u" ∧
      nbx s2 = nbx (squeeze_dimensions demo).2 ∧ nbu s2 = nbu (squeeze_dimensions demo).2 :=
  ⟨by decide, by rw [squeeze_dimensions_eq demo (by decide)],
    expand_squeeze_inverse demo (squeeze_dimensions demo).2 (by decide)
      (by rw [squeeze_dimensions_eq demo (by decide)])⟩

theorem lookup_none_of_not_key {β : Type} (l : List (String × β)) (name : String)
    (h : name ∉ l.map Prod.fst) : l.lookup name = none := by
  induction l with
  | nil => rfl
  | cons a rest ih =>
    simp only [List.map_cons, List.mem_cons, not_or] at h
    obtain ⟨k, p⟩ := a
    have hne : (name == k) = false := by simpa using h.1
    simp only [List.lookup, hne]
    exact ih h.2

/-- Claim C10. For a `solver_name` that is not a key of `available_solvers`,
`initialize_solver` throws `invalid_argument` with a message that contains
`solver_name`, and leaves the whole object as it was (no squeeze happens; the
solver handle, `cached_solver` and `needs_initializing` are untouched). -/
theorem unavailable_backend (recognised : String → String → Bool) (s : ocp_qp)
    (solver_name : String) (options : options_t)
    (h : solver_name ∉ s.available_solvers.map Prod.fst) :
    ∃ msg, initialize_solver recognised s solver_name options
        = (.error (.invalid_argument msg), s) ∧
      ∃ before after, msg = before ++ solver_name ++ after := by
  refine ⟨"QP solver '" ++ solver_name ++ "' is not available.", ?_,
    "QP solver '", "' is not available.", rfl⟩
  unfold initialize_solver
  rw [lookup_none_of_not_key _ _ h]

theorem unavailable_backend_witness :
    "qpoases" ∉ demo_ready.available_solvers.map Prod.fst ∧
    ∃ msg, initialize_solver (fun _ _ => true) demo_ready "qpoases" []
        = (.error (.invalid_argument msg), demo_ready) ∧
      ∃ before after, msg = before ++ "qpoases" ++ after :=
  ⟨by decide, unavailable_backend (fun _ _ => true) demo_ready "qpoases" [] (by decide)⟩

theorem zero_back_length (v : List Nat) : (zero_back v).length = v.length := by
  unfold zero_back
  split <;> simp

theorem zero_back_eq_set (v : List Nat) (N : Nat) (h : v.length = N + 1) :
    zero_back v = v.set N 0 := by
  unfold zero_back
  have hne : v.isEmpty = false := by
    cases v with
    | nil => simp at h
    | cons a t => rfl
  rw [hne, h]
  simp

theorem uint_N (len N : Nat) (h : len = N + 1) (hN : N + 1 < UINT_MOD) :
    (len + UINT_MOD - 1) % UINT_MOD = N := by
  subst h
  simp only [UINT_MOD] at hN ⊢
  omega

theorem create_eq (b : build_flags) (N : Nat) (nx nu nbx nbu ng ns : List Nat)
    (hN : N + 1 < UINT_MOD) (hnx : nx.length = N + 1) (hnbx : nbx.length = N + 1)
    (hnbu : nbu.length = N + 1) :
    ocp_qp.create b nx nu nbx nbu ng ns = .ok (constructed b N nx nu nbx nbu ng ns) := by
  simp only [ocp_qp.create]
  rw [uint_N nx.length N hnx hN, ← List.range_eq_range']
  rw [for_each_idxb _ _ (fun i c => installed (dim_at (zero_back nbu) i) (dim_at (zero_back nu) i)
    (List.range (dim_at nbx i)) (List.range (dim_at (zero_back nbu) i)) c)]
  · simp only [with_idxb, constructed]
    congr 3
    funext i
    rw [install_all_apply _ _ (List.nodup_range _)]
    unfold constructed_F
    by_cases hi : i < N + 1
    · have hm : i ∈ List.range (N + 1) := List.mem_range.mpr hi
      rw [if_pos hm, if_pos hi]
      rfl
    · have hm : i ∉ List.range (N + 1) := fun hm => hi (List.mem_range.mp hm)
      rw [if_neg hm, if_neg hi]
      rfl
  · intro i hi F
    rw [List.mem_range] at hi
    rw [set_iota_indices_eq _ _ i _ (dim_at nbx i) (dim_at (zero_back nbu) i)]
    · rfl
    · exact vec_at_eq_ok nbx i 0 (by omega)
    · intro G
      exact vec_at_eq_ok (zero_back nbu) i 0 (by rw [zero_back_length]; omega)
    · rfl
    · rfl

theorem map_dim_at_range (l : List Nat) (n : Nat) (h : l.length = n) :
    (List.range n).map (fun i => dim_at l i) = l := by
  apply List.ext_getElem
  · simp [h]
  · intro k h1 h2
    simp [dim_at, List.getD_eq_getElem?_getD, List.getElem?_eq_getElem h2]

theorem constructed_getters (b : build_flags) (N : Nat) (nx0 nu0 nbx0 nbu0 ng0 ns0 : List Nat)
    (hnx : nx0.length = N + 1) (hnu : nu0.length = N + 1) (hnbx : nbx0.length = N + 1)
    (hnbu : nbu0.length = N + 1) (hng : ng0.length = N + 1) :
    nx (constructed b N nx0 nu0 nbx0 nbu0 ng0 ns0) = nx0 ∧
    nu (constructed b N nx0 nu0 nbx0 nbu0 ng0 ns0) = nu0.set N 0 ∧
    nbx (constructed b N nx0 nu0 nbx0 nbu0 ng0 ns0) = nbx0 ∧
    nbu (constructed b N nx0 nu0 nbx0 nbu0 ng0 ns0) = nbu0.set N 0 ∧
    ng (constructed b N nx0 nu0 nbx0 nbu0 ng0 ns0) = ng0 := by
  refine ⟨map_dim_at_range nx0 _ hnx, ?_, map_dim_at_range nbx0 _ hnbx, ?_,
    map_dim_at_range ng0 _ hng⟩
  · rw [← zero_back_eq_set nu0 N hnu]
    exact map_dim_at_range (zero_back nu0) _ ((zero_back_length nu0).trans hnu)
  · rw [← zero_back_eq_set nbu0 N hnbu]
    exact map_dim_at_range (zero_back nbu0) _ ((zero_back_length nbu0).trans hnbu)

/-- Claim C5. For per-stage vectors of length `N + 1` the constructor succeeds, and
afterwards `nu[N] = 0` and `nbu[N] = 0` whatever was passed for these entries,
while every other entry of `nx`, `nu`, `nbx`, `nbu`, `ng` is the value passed in
(`nu` and `nbu` are the inputs with entry `N` set to zero); the same holds for the
overload that takes one count for all stages. -/
theorem constructor_terminal_stage (b : build_flags) (N : Nat)
    (nx0 nu0 nbx0 nbu0 ng0 ns0 : List Nat) (hN : N + 1 < UINT_MOD)
    (hnx : nx0.length = N + 1) (hnu : nu0.length = N + 1) (hnbx : nbx0.length = N + 1)
    (hnbu : nbu0.length = N + 1) (hng : ng0.length = N + 1) :
    (∃ s, ocp_qp.create b nx0 nu0 nbx0 nbu0 ng0 ns0 = .ok s ∧ s.N = N ∧
      (nu s)[N]? = some 0 ∧ (nbu s)[N]? = some 0 ∧
      nx s = nx0 ∧ nu s = nu0.set N 0 ∧ nbx s = nbx0 ∧ nbu s = nbu0.set N 0 ∧ ng s = ng0) ∧
    (∀ cx cu cbx cbu cg cs : Nat,
      ∃ s, ocp_qp.create_uniform b N cx cu cbx cbu cg cs = .ok s ∧ s.N = N ∧
        (nu s)[N]? = some 0 ∧ (nbu s)[N]? = some 0 ∧
        nx s = List.replicate (N + 1) cx ∧ nu s = (List.replicate (N + 1) cu).set N 0 ∧
        nbx s = List.replicate (N + 1) cbx ∧ nbu s = (List.replicate (N + 1) cbu).set N 0 ∧
        ng s = List.replicate (N + 1) cg) := by
  have key : ∀ (x u bx bu g z : List Nat), x.length = N + 1 → u.length = N + 1 →
      bx.length = N + 1 → bu.length = N + 1 → g.length = N + 1 →
      ∃ s, ocp_qp.create b x u bx bu g z = .ok s ∧ s.N = N ∧
        (nu s)[N]? = some 0 ∧ (nbu s)[N]? = some 0 ∧
        nx s = x ∧ nu s = u.set N 0 ∧ nbx s = bx ∧ nbu s = bu.set N 0 ∧ ng s = g := by
    intro x u bx bu g z hx hu hbx hbu hg
    obtain ⟨g1, g2, g3, g4, g5⟩ := constructed_getters b N x u bx bu g z hx hu hbx hbu hg
    refine ⟨constructed b N x u bx bu g z, create_eq b N x u bx bu g z hN hx hbx hbu, rfl,
      ?_, ?_, g1, g2, g3, g4, g5⟩
    · rw [g2]
      simp [hu]
    · rw [g4]
      simp [hbu]
  refine ⟨key nx0 nu0 nbx0 nbu0 ng0 ns0 hnx hnu hnbx hnbu hng, ?_⟩
  intro cx cu cbx cbu cg cs
  have hlen : (N + 1) % UINT_MOD = N + 1 := Nat.mod_eq_of_lt hN
  unfold ocp_qp.create_uniform
  simp only [hlen]
  exact key _ _ _ _ _ _ (by simp) (by simp) (by simp) (by simp) (by simp)

theorem constructor_terminal_stage_witness :
    2 + 1 < UINT_MOD ∧ [2, 2, 2].length = 2 + 1 ∧ [1, 1, 1].length = 2 + 1 ∧
    [2, 1, 0].length = 2 + 1 ∧ [1, 0, 1].length = 2 + 1 ∧ [0, 3, 0].length = 2 + 1 ∧
    ((∃ s, ocp_qp.create ⟨false, false, false, false, false⟩
          [2, 2, 2] [1, 1, 1] [2, 1, 0] [1, 0, 1] [0, 3, 0] [] = .ok s ∧ s.N = 2 ∧
        (nu s)[2]? = some 0 ∧ (nbu s)[2]? = some 0 ∧
        nx s = [2, 2, 2] ∧ nu s = [1, 1, 1].set 2 0 ∧ nbx s = [2, 1, 0] ∧
        nbu s = [1, 0, 1].set 2 0 ∧ ng s = [0, 3, 0]) ∧
      (∀ cx cu cbx cbu cg cs : Nat,
        ∃ s, ocp_qp.create_uniform ⟨false, false, false, false, false⟩ 2 cx cu cbx cbu cg cs
            = .ok s ∧ s.N = 2 ∧
          (nu s)[2]? = some 0 ∧ (nbu s)[2]? = some 0 ∧
          nx s = List.replicate (2 + 1) cx ∧ nu s = (List.replicate (2 + 1) cu).set 2 0 ∧
          nbx s = List.replicate (2 + 1) cbx ∧ nbu s = (List.replicate (2 + 1) cbu).set 2 0 ∧
          ng s = List.replicate (2 + 1) cg)) :=
  ⟨by decide, by decide, by decide, by decide, by decide, by decide,
    constructor_terminal_stage ⟨false, false, false, false, false⟩ 2
      [2, 2, 2] [1, 1, 1] [2, 1, 0] [1, 0, 1] [0, 3, 0] [] (by decide) (by decide) (by decide)
      (by decide) (by decide) (by decide)⟩

theorem active_positions_all_inf (l u : List Double) (hlen : l.length = u.length)
    (hl : ∀ x ∈ l, x = Double.ninf) (hu : ∀ x ∈ u, x = Double.pinf) :
    active_positions l u = [] := by
  unfold active_positions
  rw [List.filter_eq_nil_iff]
  intro i hi
  rw [List.mem_range] at hi
  have h1 : l.getD i Double.nan = Double.ninf := by
    rw [List.getD_eq_getElem _ _ hi]
    exact hl _ (List.getElem_mem _)
  have h2 : u.getD i Double.nan = Double.pinf := by
    rw [List.getD_eq_getElem _ _ (by omega)]
    exact hu _ (List.getElem_mem _)
  rw [h1, h2]
  decide

theorem constructed_shape_ok (b : build_flags) (N : Nat) (nx0 nu0 nbx0 nbu0 ng0 ns0 : List Nat)
    (hN : N + 1 < UINT_MOD)
    (hnx : nx0.length = N + 1) (hnu : nu0.length = N + 1) (hnbx : nbx0.length = N + 1)
    (hnbu : nbu0.length = N + 1) (hng : ng0.length = N + 1) :
    shape_ok (constructed b N nx0 nu0 nbx0 nbu0 ng0 ns0) := by
  refine ⟨hN, hnx, (zero_back_length nu0).trans hnu, hnbx, (zero_back_length nbu0).trans hnbu,
    ?_, hng, by simp [constructed], by simp [constructed], by simp [constructed],
    by simp [constructed], ?_⟩
  · simp [constructed, create_ocp_qp_dimensions_ptr, zero_back_length, hnbx, hnbu]
  · intro i hi
    have hi2 : i < N + 1 := hi
    simp only [constructed]
    rw [getD_map_range _ _ _ _ hi2, getD_map_range _ _ _ _ hi2, getD_map_range _ _ _ _ hi2,
      getD_map_range _ _ _ _ hi2]
    simp [create_ocp_qp_dimensions_ptr]

theorem constructed_all_infinite (b : build_flags) (N : Nat) (nx0 nu0 nbx0 nbu0 ng0 ns0 : List Nat)
    (i : Nat) (hi : i < N + 1) :
    all_infinite (constructed b N nx0 nu0 nbx0 nbu0 ng0 ns0) i := by
  unfold all_infinite
  simp only [constructed]
  rw [getD_map_range _ _ _ _ hi, getD_map_range _ _ _ _ hi, getD_map_range _ _ _ _ hi,
    getD_map_range _ _ _ _ hi]
  refine ⟨?_, ?_, ?_, ?_⟩ <;> intro x hx <;> exact (List.mem_replicate.mp hx).2

theorem sq_of_all_infinite (s : ocp_qp) (hs : shape_ok s) (i : Nat) (hi : i < s.N + 1)
    (hinf : all_infinite s i) : sq_x s i = [] ∧ sq_u s i = [] := by
  obtain ⟨a1, a2, a3, a4⟩ := hs.2.2.2.2.2.2.2.2.2.2.2 i hi
  obtain ⟨b1, b2, b3, b4⟩ := hinf
  exact ⟨active_positions_all_inf _ _ (a1.trans a2.symm) b1 b2,
    active_positions_all_inf _ _ (a3.trans a4.symm) b3 b4⟩

theorem squeezed_all_infinite (s : ocp_qp) (hs : shape_ok s) (i : Nat) (hi : i < s.N + 1)
    (hinf : all_infinite s i) :
    x_indices (squeezed s) i = [] ∧ u_indices (squeezed s) i = [] ∧
    (nbx (squeezed s)).getD i 0 = 0 ∧ (nbu (squeezed s)).getD i 0 = 0 := by
  obtain ⟨e1, e2⟩ := sq_of_all_infinite s hs i hi hinf
  obtain ⟨hx, hu⟩ := squeezed_indices s hs i hi
  obtain ⟨c1, c2, _, _⟩ := squeezed_canon s i hi
  have hi2 : i < (squeezed s).N + 1 := hi
  refine ⟨hx.trans e1, hu.trans e2, ?_, ?_⟩
  · unfold nbx
    rw [getD_map_range _ _ _ _ hi2, c1, e1]
    rfl
  · unfold nbu
    rw [getD_map_range _ _ _ _ hi2, c2, e2]
    rfl

/-- Claim C7. If every cached lower bound of stage `i` is `-INFINITY` and every
cached upper bound is `+INFINITY` (states and controls), `squeeze_dimensions`
leaves stage `i` with empty state and control index sets and
`nbx[i] = nbu[i] = 0`. In particular a freshly constructed object, whatever
`nbx`/`nbu` were passed, has empty index sets and `nbx = nbu = [0, ..., 0]` after a
squeeze. -/
theorem all_infinite_squeeze (s : ocp_qp) (hs : shape_ok s) (i : Nat) (hi : i < s.N + 1)
    (hinf : all_infinite s i) :
    (∃ s1, squeeze_dimensions s = (.ok (), s1) ∧
      x_indices s1 i = [] ∧ u_indices s1 i = [] ∧
      (nbx s1).getD i 0 = 0 ∧ (nbu s1).getD i 0 = 0) ∧
    (∀ (b : build_flags) (N : Nat) (nx0 nu0 nbx0 nbu0 ng0 ns0 : List Nat),
      N + 1 < UINT_MOD → nx0.length = N + 1 → nu0.length = N + 1 → nbx0.length = N + 1 →
      nbu0.length = N + 1 → ng0.length = N + 1 →
      ∃ s0 s1, ocp_qp.create b nx0 nu0 nbx0 nbu0 ng0 ns0 = .ok s0 ∧
        squeeze_dimensions s0 = (.ok (), s1) ∧
        nbx s1 = List.replicate (N + 1) 0 ∧ nbu s1 = List.replicate (N + 1) 0 ∧
        ∀ j, j < N + 1 → x_indices s1 j = [] ∧ u_indices s1 j = []) := by
  refine ⟨⟨squeezed s, squeeze_dimensions_eq s hs, squeezed_all_infinite s hs i hi hinf⟩, ?_⟩
  intro b N nx0 nu0 nbx0 nbu0 ng0 ns0 hN hnx hnu hnbx hnbu hng
  have hs0 := constructed_shape_ok b N nx0 nu0 nbx0 nbu0 ng0 ns0 hN hnx hnu hnbx hnbu hng
  have hall : ∀ j, j < N + 1 →
      x_indices (squeezed (constructed b N nx0 nu0 nbx0 nbu0 ng0 ns0)) j = [] ∧
      u_indices (squeezed (constructed b N nx0 nu0 nbx0 nbu0 ng0 ns0)) j = [] ∧
      (nbx (squeezed (constructed b N nx0 nu0 nbx0 nbu0 ng0 ns0))).getD j 0 = 0 ∧
      (nbu (squeezed (constructed b N nx0 nu0 nbx0 nbu0 ng0 ns0))).getD j 0 = 0 :=
    fun j hj => squeezed_all_infinite _ hs0 j hj
      (constructed_all_infinite b N nx0 nu0 nbx0 nbu0 ng0 ns0 j hj)
  refine ⟨_, _, create_eq b N nx0 nu0 nbx0 nbu0 ng0 ns0 hN hnx hnbx hnbu,
    squeeze_dimensions_eq _ hs0, ?_, ?_, fun j hj => ⟨(hall j hj).1, (hall j hj).2.1⟩⟩
  · apply List.ext_getElem
    · simp [nbx]
      rfl
    · intro k h1 h2
      have hk : k < N + 1 := by simpa using h2
      have := (hall k hk).2.2.1
      rw [List.getD_eq_getElem _ _ h1] at this
      simp [this]
  · apply List.ext_getElem
    · simp [nbu]
      rfl
    · intro k h1 h2
      have hk : k < N + 1 := by simpa using h2
      have := (hall k hk).2.2.2
      rw [List.getD_eq_getElem _ _ h1] at this
      simp [this]

theorem all_infinite_squeeze_witness :
    shape_ok demo ∧ 1 < demo.N + 1 ∧ all_infinite demo 1 ∧
    (∃ s1, squeeze_dimensions demo = (.ok (), s1) ∧
      x_indices s1 1 = [] ∧ u_indices s1 1 = [] ∧
      (nbx s1).getD 1 0 = 0 ∧ (nbu s1).getD 1 0 = 0) ∧
    (∃ s0 s1, ocp_qp.create ⟨false, false, false, false, false⟩
        [2, 2, 2] [1, 1, 0] [2, 2, 2] [1, 1, 0] [0, 0, 0] [0, 0, 0] = .ok s0 ∧
      squeeze_dimensions s0 = (.ok (), s1) ∧
      nbx s1 = [0, 0, 0] ∧ nbu s1 = [0, 0, 0] ∧
      ∀ j, j < 2 + 1 → x_indices s1 j = [] ∧ u_indices s1 j = []) :=
  ⟨by decide, by decide, by decide,
    (all_infinite_squeeze demo (by decide) 1 (by decide) (by decide)).1,
    (all_infinite_squeeze demo (by decide) 1 (by decide) (by decide)).2
      ⟨false, false, false, false, false⟩ 2 [2, 2, 2] [1, 1, 0] [2, 2, 2] [1, 1, 0] [0, 0, 0]
      [0, 0, 0] (by decide) (by decide) (by decide) (by decide) (by decide) (by decide)⟩

theorem data_not_bound (f : String) (hf : is_data_field f) : ¬ is_bound_field f := by
  unfold is_data_field at hf
  unfold is_bound_field
  rcases hf with rfl | rfl | rfl | rfl | rfl | rfl | rfl | rfl | rfl | rfl | rfl | rfl <;> decide

theorem shape_of_field_data_eq (s : ocp_qp) (f : String) (hf : is_data_field f) (j : Nat)
    (hr : in_range s f j = true) : shape_of_field s f j = .ok (num_shape f j s.qp.dim) := by
  unfold shape_of_field
  rw [hr]
  unfold is_data_field at hf
  rcases hf with rfl | rfl | rfl | rfl | rfl | rfl | rfl | rfl | rfl | rfl | rfl | rfl <;> simp

theorem shape_of_field_data (s : ocp_qp) (f : String) (hf : is_data_field f) (j : Nat)
    (hr : in_range s f j = true) : ∃ sh, shape_of_field s f j = .ok sh :=
  ⟨_, shape_of_field_data_eq s f hf j hr⟩

theorem in_range_of_shape (s : ocp_qp) (f : String) (i : Nat) (sh : Nat × Nat)
    (h : shape_of_field s f i = .ok sh) : in_range s f i = true := by
  unfold shape_of_field at h
  by_cases hr : in_range s f i = true
  · exact hr
  · rw [if_pos hr] at h
    cases h

theorem d_cvt_roundtrip (f : String) (i : Nat) (v : List Double) (qp : ocp_qp_in) :
    d_cvt_ocp_qp_to_colmaj f i (d_cvt_colmaj_to_ocp_qp f i v qp) v.length = v := by
  unfold d_cvt_ocp_qp_to_colmaj d_cvt_colmaj_to_ocp_qp
  simp only [and_self, if_true]
  apply List.ext_getElem
  · simp
  · intro k h1 h2
    simp [List.getElem?_eq_getElem h2]

theorem map_each_getElem {α β : Type} (l : List α) (f : α → Except Err β) (r : List β)
    (h : map_each l f = .ok r) (i : Nat) (a : α) (ha : l[i]? = some a) :
    ∃ b, f a = .ok b ∧ r[i]? = some b := by
  induction l generalizing r i with
  | nil => simp at ha
  | cons x rest ih =>
    unfold map_each at h
    cases hx : f x with
    | error e => rw [hx] at h; cases h
    | ok b0 =>
      rw [hx] at h
      simp only [] at h
      cases hrest : map_each rest f with
      | error e => rw [hrest] at h; cases h
      | ok bs =>
        rw [hrest] at h
        simp only [] at h
        cases h
        cases i with
        | zero =>
          simp only [List.getElem?_cons_zero, Option.some.injEq] at ha
          subst ha
          exact ⟨b0, hx, by simp⟩
        | succ n =>
          simp only [List.getElem?_cons_succ] at ha
          obtain ⟨b, hb1, hb2⟩ := ih bs hrest n ha
          exact ⟨b, hb1, by simpa using hb2⟩

theorem get_field_ok (s : ocp_qp) (hN : s.N + 1 < UINT_MOD) (f : String) (hf : is_data_field f)
    (i : Nat) (hr : in_range s f i = true) :
    ∃ r, get_field s f = .ok r ∧
      ∃ sh, shape_of_field s f i = .ok sh ∧
        r[i]? = some (d_cvt_ocp_qp_to_colmaj f i s.qp (sh.1 * sh.2)) := by
  have hall : ∃ r, get_field s f = .ok r := by
    unfold get_field
    apply map_each_exists
    intro j hj
    have hjr : in_range s f j = true := by
      rw [List.mem_range'_1] at hj
      unfold in_range at hr ⊢
      by_cases hA : f = "A" ∨ f = "B" ∨ f = "b"
      · rw [if_pos hA] at hr ⊢
        have hi : i < s.N := by simpa using hr
        rw [if_pos hA] at hj
        unfold N_minus_one at hj
        simp only [UINT_MOD] at hj hN
        have : j < s.N := by omega
        simpa using this
      · rw [if_neg hA] at hr ⊢
        rw [if_neg hA] at hj
        have : j ≤ s.N := by omega
        simpa using this
    obtain ⟨sh, hsh⟩ := shape_of_field_data s f hf j hjr
    exact ⟨_, by rw [hsh]⟩
  obtain ⟨r, hr2⟩ := hall
  refine ⟨r, hr2, ?_⟩
  unfold get_field at hr2
  have hmem : (List.range' 0 ((if f = "A" ∨ f = "B" ∨ f = "b" then N_minus_one s else s.N) + 1))[i]?
      = some i := by
    have hlt : i < (if f = "A" ∨ f = "B" ∨ f = "b" then N_minus_one s else s.N) + 1 := by
      unfold in_range at hr
      by_cases hA : f = "A" ∨ f = "B" ∨ f = "b"
      · rw [if_pos hA] at hr ⊢
        have hi : i < s.N := by simpa using hr
        unfold N_minus_one
        simp only [UINT_MOD] at hN ⊢
        omega
      · rw [if_neg hA] at hr ⊢
        have hi : i ≤ s.N := by simpa using hr
        omega
    rw [List.getElem?_eq_getElem (by simpa using hlt)]
    simp
  obtain ⟨b, hb1, hb2⟩ := map_each_getElem _ _ r hr2 i i hmem
  obtain ⟨sh, hsh⟩ := shape_of_field_data s f hf i hr
  rw [hsh] at hb1
  simp only [] at hb1
  cases hb1
  exact ⟨sh, hsh, hb2⟩

theorem set_field_data (s : ocp_qp) (f : String) (hf : is_data_field f) (i : Nat)
    (v : List Double) (sh : Nat × Nat) (hsh : shape_of_field s f i = .ok sh)
    (hv : sh.1 * sh.2 = v.length) :
    set_field s f i v = (.ok (), { s with qp := d_cvt_colmaj_to_ocp_qp f i v s.qp }) := by
  have hnb := data_not_bound f hf
  unfold is_bound_field at hnb
  unfold is_data_field at hf
  unfold set_field
  rw [in_range_of_shape s f i sh hsh, hsh]
  have hm : match_shape sh v.length = true := by simp [match_shape, hv]
  simp only [hm, Bool.not_eq_true, Bool.true_eq_false, if_false, if_neg hnb, if_pos hf,
    not_true_eq_false]

theorem cached_with_bound (s : ocp_qp) (f : String) (hf : is_bound_field f) (i : Nat)
    (v : List Double) : cached (with_bound s f i v) f = (cached s f).set i v := by
  unfold is_bound_field at hf
  rcases hf with rfl | rfl | rfl | rfl <;>
    simp [cached, with_bound, bounds_cache.at, bounds_cache.put]

theorem cached_length (s : ocp_qp) (hs : shape_ok s) (f : String) (hf : is_bound_field f) :
    (cached s f).length = s.N + 1 := by
  obtain ⟨_, _, _, _, _, _, _, h7, h8, h9, h10, _⟩ := hs
  unfold is_bound_field at hf
  rcases hf with rfl | rfl | rfl | rfl <;> simpa [cached, bounds_cache.at]

theorem in_range_bound_lt (s : ocp_qp) (f : String) (hf : is_bound_field f) (i : Nat)
    (hr : in_range s f i = true) : i < s.N + 1 := by
  unfold is_bound_field at hf
  have hA : ¬ (f = "A" ∨ f = "B" ∨ f = "b") := by
    rcases hf with rfl | rfl | rfl | rfl <;> decide
  unfold in_range at hr
  rw [if_neg hA] at hr
  have : i ≤ s.N := by simpa using hr
  omega

theorem set_field_bound_cases (s : ocp_qp) (hs : shape_ok s) (hidx : idx_ok s) (f : String)
    (hf : is_bound_field f) (i : Nat) (v : List Double) (sh : Nat × Nat)
    (hsh : shape_of_field s f i = .ok sh) (hv : sh.1 * sh.2 = v.length) :
    i < s.N + 1 ∧ v.length = class_dim s f i ∧
    (set_field s f i v = (.ok (), expanded (with_bound s f i v)) ∨
      set_field s f i v = (.ok (), with_bound s f i v)) := by
  have hi := in_range_bound_lt s f hf i (in_range_of_shape s f i sh hsh)
  have hv2 : v.length = class_dim s f i := by
    rw [shape_of_field_bound s f i hi hf] at hsh
    cases hsh
    unfold class_dim
    simpa using hv.symm
  refine ⟨hi, hv2, ?_⟩
  rw [set_field_bound s hs f hf i hi v hv2 (idx_ok_le s hidx)]
  by_cases hc : class_indices s f i ≠ class_sq (with_bound s f i v) f i
  · rw [if_pos hc]
    exact Or.inl rfl
  · rw [if_neg hc]
    exact Or.inr rfl

/-- Claim C4, as stated, fails for a bound field: on the freshly constructed object
`fresh` (stage 0, `nx[0] = 2`), `set_field("lbx", 0, [5, 7])` succeeds, yet entry 0
of `get_field("lbx")` is the QP's stored `[0, 0]`, not `[5, 7]`. -/
theorem roundtrip_fails_for_bound_field :
    ocp_qp.create ⟨false, false, false, false, false⟩
      [2, 2, 2] [1, 1, 0] [2, 2, 2] [1, 1, 0] [0, 0, 0] [0, 0, 0] = .ok fresh ∧
    shape_of_field fresh "lbx" 0 = .ok (2, 1) ∧ [Double.fin 5, Double.fin 7].length = 2 * 1 ∧
    (set_field fresh "lbx" 0 [.fin 5, .fin 7]).1 = .ok () ∧
    get_field (set_field fresh "lbx" 0 [.fin 5, .fin 7]).2 "lbx"
      = .ok [[.fin 0, .fin 0], [.fin 0, .fin 0], [.fin 0, .fin 0]] ∧
    ([[Double.fin 0, .fin 0], [.fin 0, .fin 0], [.fin 0, .fin 0]] : List (List Double))[0]?
      ≠ some [.fin 5, .fin 7] :=
  ⟨create_eq _ 2 _ _ _ _ _ _ (by decide) (by decide) (by decide) (by decide),
    by decide, by decide, by decide!, by decide!, by decide⟩

/-- Claim C4, amended. For every field `f` of `Q, S, R, q, r, A, B, b, C, D, lg, ug`,
every stage `i` valid for `f` and every `v` of the field's expected size,
`set_field(f, i, v)` succeeds and entry `i` of `get_field(f)` is `v`. For a bound
field `lbx, ubx, lbu, ubu`, `set_field(f, i, v)` succeeds and records `v` as the
cached dense bound `cached_bounds[f][i]`, without writing the data stored in the QP
(which is what `get_field` reads). -/
theorem set_get_roundtrip (s : ocp_qp) (hN : s.N + 1 < UINT_MOD) (f : String) (i : Nat)
    (v : List Double) (sh : Nat × Nat) (hsh : shape_of_field s f i = .ok sh)
    (hv : sh.1 * sh.2 = v.length) :
    (is_data_field f →
      ∃ s1 r, set_field s f i v = (.ok (), s1) ∧ get_field s1 f = .ok r ∧ r[i]? = some v) ∧
    (is_bound_field f → shape_ok s → idx_ok s →
      ∃ s1, set_field s f i v = (.ok (), s1) ∧ (cached s1 f)[i]? = some v ∧
        s1.qp.data = s.qp.data) := by
  constructor
  · intro hf
    have hr := in_range_of_shape s f i sh hsh
    obtain ⟨r, hr1, sh2, hsh2, hr2⟩ := get_field_ok
      ({ s with qp := d_cvt_colmaj_to_ocp_qp f i v s.qp } : ocp_qp) hN f hf i hr
    have e : shape_of_field ({ s with qp := d_cvt_colmaj_to_ocp_qp f i v s.qp } : ocp_qp) f i
        = shape_of_field s f i := rfl
    rw [e, hsh] at hsh2
    cases hsh2
    refine ⟨_, r, set_field_data s f hf i v sh hsh hv, hr1, ?_⟩
    rw [hr2, hv]
    exact congrArg some (d_cvt_roundtrip f i v s.qp)
  · intro hf hs hidx
    obtain ⟨hi, _, h | h⟩ := set_field_bound_cases s hs hidx f hf i v sh hsh hv
    · refine ⟨_, h, ?_, rfl⟩
      show (cached (with_bound s f i v) f)[i]? = some v
      rw [cached_with_bound s f hf]
      have hl := cached_length s hs f hf
      simp [hl, hi]
    · refine ⟨_, h, ?_, rfl⟩
      rw [cached_with_bound s f hf]
      have hl := cached_length s hs f hf
      simp [hl, hi]

theorem set_get_roundtrip_witness :
    demo.N + 1 < UINT_MOD ∧ shape_of_field demo "Q" 0 = .ok (2, 2) ∧
    (2, 2).1 * (2, 2).2 = [Double.fin 1, Double.fin 2, Double.fin 3, Double.fin 4].length ∧
    is_data_field "Q" ∧
    (∃ s1 r, set_field demo "Q" 0 [.fin 1, .fin 2, .fin 3, .fin 4] = (.ok (), s1) ∧
      get_field s1 "Q" = .ok r ∧ r[0]? = some [.fin 1, .fin 2, .fin 3, .fin 4]) ∧
    shape_of_field demo "lbx" 0 = .ok (2, 1) ∧
    (2, 1).1 * (2, 1).2 = [Double.fin 5, Double.fin 7].length ∧
    is_bound_field "lbx" ∧ shape_ok demo ∧ idx_ok demo ∧
    (∃ s1, set_field demo "lbx" 0 [.fin 5, .fin 7] = (.ok (), s1) ∧
      (cached s1 "lbx")[0]? = some [.fin 5, .fin 7] ∧ s1.qp.data = demo.qp.data) :=
  ⟨by decide, by decide, by decide, by decide,
    (set_get_roundtrip demo (by decide) "Q" 0 [.fin 1, .fin 2, .fin 3, .fin 4] (2, 2)
      (by decide) (by decide)).1 (by decide),
    by decide, by decide, by decide, by decide, by decide,
    (set_get_roundtrip demo (by decide) "lbx" 0 [.fin 5, .fin 7] (2, 1)
      (by decide) (by decide)).2 (by decide) (by decide) (by decide)⟩

theorem getD_set_list (l : List (List Double)) (i j : Nat) (v : List Double)
    (hi : i < l.length) :
    (l.set i v).getD j [] = if j = i then v else l.getD j [] := by
  by_cases h : j = i
  · subst h
    rw [if_pos rfl, List.getD_eq_getElem _ _ (by simpa using hi)]
    simp
  · rw [if_neg h]
    simp [List.getD_eq_getElem?_getD, List.getElem?_set, Ne.symm h]

theorem with_bound_shape_ok (s : ocp_qp) (hs : shape_ok s) (f : String) (hf : is_bound_field f)
    (i : Nat) (hi : i < s.N + 1) (v : List Double) (hv : v.length = class_dim s f i) :
    shape_ok (with_bound s f i v) := by
  obtain ⟨h0, h1, h2, h3, h4, h5, h6, h7, h8, h9, h10, h11⟩ := hs
  unfold is_bound_field at hf
  unfold class_dim at hv
  rcases hf with rfl | rfl | rfl | rfl
  · refine ⟨h0, h1, h2, h3, h4, h5, h6, ?_, h8, h9, h10, ?_⟩
    · simpa [with_bound, cached, bounds_cache.at, bounds_cache.put] using h7
    · intro j hj
      obtain ⟨a1, a2, a3, a4⟩ := h11 j hj
      refine ⟨?_, a2, a3, a4⟩
      show ((s.cached_bounds.lbx.set i v).getD j []).length = _
      rw [getD_set_list _ _ _ _ (by omega)]
      by_cases hji : j = i
      · subst hji; simpa using hv
      · rw [if_neg hji]; exact a1
  · refine ⟨h0, h1, h2, h3, h4, h5, h6, h7, ?_, h9, h10, ?_⟩
    · simpa [with_bound, cached, bounds_cache.at, bounds_cache.put] using h8
    · intro j hj
      obtain ⟨a1, a2, a3, a4⟩ := h11 j hj
      refine ⟨a1, ?_, a3, a4⟩
      show ((s.cached_bounds.ubx.set i v).getD j []).length = _
      rw [getD_set_list _ _ _ _ (by omega)]
      by_cases hji : j = i
      · subst hji; simpa using hv
      · rw [if_neg hji]; exact a2
  · refine ⟨h0, h1, h2, h3, h4, h5, h6, h7, h8, ?_, h10, ?_⟩
    · simpa [with_bound, cached, bounds_cache.at, bounds_cache.put] using h9
    · intro j hj
      obtain ⟨a1, a2, a3, a4⟩ := h11 j hj
      refine ⟨a1, a2, ?_, a4⟩
      show ((s.cached_bounds.lbu.set i v).getD j []).length = _
      rw [getD_set_list _ _ _ _ (by omega)]
      by_cases hji : j = i
      · subst hji; simpa using hv
      · rw [if_neg hji]; exact a3
  · refine ⟨h0, h1, h2, h3, h4, h5, h6, h7, h8, h9, ?_, ?_⟩
    · simpa [with_bound, cached, bounds_cache.at, bounds_cache.put] using h10
    · intro j hj
      obtain ⟨a1, a2, a3, a4⟩ := h11 j hj
      refine ⟨a1, a2, a3, ?_⟩
      show ((s.cached_bounds.ubu.set i v).getD j []).length = _
      rw [getD_set_list _ _ _ _ (by omega)]
      by_cases hji : j = i
      · subst hji; simpa using hv
      · rw [if_neg hji]; exact a4

theorem with_bound_idx_ok (s : ocp_qp) (h : idx_ok s) (f : String) (i : Nat) (v : List Double) :
    idx_ok (with_bound s f i v) :=
  fun j hj => h j hj

theorem class_indices_expanded (s : ocp_qp) (f : String) (i : Nat) (hi : i < s.N + 1) :
    class_indices (expanded s) f i = List.range (class_dim s f i) := by
  obtain ⟨hx, hu⟩ := expanded_indices s i hi
  unfold class_indices class_dim
  by_cases h : f = "lbx" ∨ f = "ubx"
  · rw [if_pos h, if_pos h]; exact hx
  · rw [if_neg h, if_neg h]; exact hu

/-- What a successful `set_field` on a bound field leaves behind. -/
theorem set_field_bound_post (s : ocp_qp) (hs : shape_ok s) (hidx : idx_ok s) (f : String)
    (hf : is_bound_field f) (i : Nat) (hi : i < s.N + 1) (v : List Double)
    (hv : v.length = class_dim s f i) :
    ∃ s1, set_field s f i v = (.ok (), s1) ∧ shape_ok s1 ∧ idx_ok s1 ∧ s1.N = s.N ∧
      s1.qp.dim.nx = s.qp.dim.nx ∧ s1.qp.dim.nu = s.qp.dim.nu ∧
      s1.cached_bounds = (with_bound s f i v).cached_bounds ∧
      (class_indices s1 f i = class_sq s1 f i ∨
        class_indices s1 f i = List.range (class_dim s f i)) := by
  have hw := with_bound_shape_ok s hs f hf i hi v hv
  rw [set_field_bound s hs f hf i hi v hv (idx_ok_le s hidx)]
  by_cases hc : class_indices s f i ≠ class_sq (with_bound s f i v) f i
  · rw [if_pos hc]
    exact ⟨_, rfl, expanded_shape_ok _ hw, expanded_idx_ok _, rfl, rfl, rfl, rfl,
      Or.inr (class_indices_expanded (with_bound s f i v) f i hi)⟩
  · rw [if_neg hc]
    exact ⟨_, rfl, hw, with_bound_idx_ok s hidx f i v, rfl, rfl, rfl, rfl,
      Or.inl (not_not.mp hc)⟩

/-- Claim C6, as stated, fails: on the freshly constructed object `fresh` with
`nx = [2,2,2]`, `nu = [1,1,0]` (and `nbx = nx`, `nbu = nu`), the calls
`set_field("lbx", 0, [-1, -INF])` and `set_field("ubx", 0, [1, +INF])` succeed and
leave the state index set of stage 0 at `[0, 1]`, while the positions with a
non-infinite bound are `[0]`. -/
theorem set_bounds_leave_full_index_set :
    ocp_qp.create ⟨false, false, false, false, false⟩
      [2, 2, 2] [1, 1, 0] [2, 2, 2] [1, 1, 0] [0, 0, 0] [0, 0, 0] = .ok fresh ∧
    (set_field fresh "lbx" 0 [.fin (-1), .ninf]).1 = .ok () ∧
    (set_field (set_field fresh "lbx" 0 [.fin (-1), .ninf]).2 "ubx" 0 [.fin 1, .pinf]).1
      = .ok () ∧
    bounds_indices
      (set_field (set_field fresh "lbx" 0 [.fin (-1), .ninf]).2 "ubx" 0 [.fin 1, .pinf]).2 "x"
      = .ok [[0, 1], [0, 1], [0, 1]] ∧
    idxb [.fin (-1), .ninf] [.fin 1, .pinf] = .ok [0] :=
  ⟨create_eq _ 2 _ _ _ _ _ _ (by decide) (by decide) (by decide) (by decide),
    by decide!, by decide!, by decide!, by decide⟩

theorem sq_x_of_cached (s : ocp_qp) (i : Nat) (l u : List Double)
    (hl : s.cached_bounds.lbx.getD i [] = l) (hu : s.cached_bounds.ubx.getD i [] = u) :
    sq_x s i = active_positions l u := by
  unfold sq_x
  rw [hl, hu]

/-- Claim C6, amended. After `set_field("lbx", i, l)` followed by
`set_field("ubx", i, u)` with `l` and `u` of length `nx[i]`, a following
`squeeze_dimensions` (as `initialize_solver` performs) makes the state index set of
stage `i` exactly the positions `k` with `l[k] != -INF` or `u[k] != +INF`. Directly
after the two `set_field` calls the state index set of stage `i` is either that set
or the full range `0 .. nx[i]-1`. -/
theorem set_bounds_then_squeeze (s : ocp_qp) (hs : shape_ok s) (hidx : idx_ok s) (i : Nat)
    (hi : i < s.N + 1) (l u : List Double) (hl : l.length = dim_at s.qp.dim.nx i)
    (hu : u.length = dim_at s.qp.dim.nx i) :
    ∃ s1 s2 s3, set_field s "lbx" i l = (.ok (), s1) ∧ set_field s1 "ubx" i u = (.ok (), s2) ∧
      squeeze_dimensions s2 = (.ok (), s3) ∧
      x_indices s3 i = active_positions l u ∧
      (x_indices s2 i = active_positions l u ∨
        x_indices s2 i = List.range (dim_at s.qp.dim.nx i)) := by
  have hfl : is_bound_field "lbx" := by decide
  have hfu : is_bound_field "ubx" := by decide
  obtain ⟨s1, e1, hs1, hidx1, hN1, hnx1, _, hc1, _⟩ :=
    set_field_bound_post s hs hidx "lbx" hfl i hi l (by simpa [class_dim] using hl)
  have hi1 : i < s1.N + 1 := by rw [hN1]; exact hi
  obtain ⟨s2, e2, hs2, _, hN2, _, _, hc2, hd2⟩ :=
    set_field_bound_post s1 hs1 hidx1 "ubx" hfu i hi1 u
      (by simpa [class_dim, hnx1] using hu)
  have hi2 : i < s2.N + 1 := by rw [hN2]; exact hi1
  have hlen_l : i < s.cached_bounds.lbx.length := by
    have := hs.2.2.2.2.2.2.2.1
    omega
  have hlen_u : i < s1.cached_bounds.ubx.length := by
    have := hs1.2.2.2.2.2.2.2.2.1
    omega
  have c_l : s2.cached_bounds.lbx.getD i [] = l := by
    rw [hc2]
    show s1.cached_bounds.lbx.getD i [] = l
    rw [hc1]
    show (s.cached_bounds.lbx.set i l).getD i [] = l
    rw [getD_set_list _ _ _ _ hlen_l, if_pos rfl]
  have c_u : s2.cached_bounds.ubx.getD i [] = u := by
    rw [hc2]
    show (s1.cached_bounds.ubx.set i u).getD i [] = u
    rw [getD_set_list _ _ _ _ hlen_u, if_pos rfl]
  have hsq : sq_x s2 i = active_positions l u := sq_x_of_cached s2 i l u c_l c_u
  refine ⟨s1, s2, squeezed s2, e1, e2, squeeze_dimensions_eq s2 hs2, ?_, ?_⟩
  · rw [(squeezed_indices s2 hs2 i hi2).1, hsq]
  · have e3 : class_indices s2 "ubx" i = x_indices s2 i := by simp [class_indices]
    have e4 : class_sq s2 "ubx" i = sq_x s2 i := by simp [class_sq]
    have e5 : class_dim s1 "ubx" i = dim_at s.qp.dim.nx i := by simp [class_dim, hnx1]
    rw [e3, e4, e5, hsq] at hd2
    exact hd2

theorem set_bounds_then_squeeze_witness :
    shape_ok demo ∧ idx_ok demo ∧ 0 < demo.N + 1 ∧
    [Double.fin (-1), Double.ninf].length = dim_at demo.qp.dim.nx 0 ∧
    [Double.fin 1, Double.pinf].length = dim_at demo.qp.dim.nx 0 ∧
    active_positions [.fin (-1), .ninf] [.fin 1, .pinf] = [0] ∧
    ∃ s1 s2 s3, set_field demo "lbx" 0 [.fin (-1), .ninf] = (.ok (), s1) ∧
      set_field s1 "ubx" 0 [.fin 1, .pinf] = (.ok (), s2) ∧
      squeeze_dimensions s2 = (.ok (), s3) ∧
      x_indices s3 0 = active_positions [.fin (-1), .ninf] [.fin 1, .pinf] ∧
      (x_indices s2 0 = active_positions [.fin (-1), .ninf] [.fin 1, .pinf] ∨
        x_indices s2 0 = List.range (dim_at demo.qp.dim.nx 0)) :=
  ⟨by decide, by decide, by decide, by decide, by decide, by decide,
    set_bounds_then_squeeze demo (by decide) (by decide) 0 (by decide)
      [.fin (-1), .ninf] [.fin 1, .pinf] (by decide) (by decide)⟩

theorem in_range_false_iff (s : ocp_qp) (f : String) (i : Nat) :
    in_range s f i = false ↔
      (s.N < i ∨ (s.N ≤ i ∧ (f = "A" ∨ f = "B" ∨ f = "b"))) := by
  unfold in_range
  by_cases hA : f = "A" ∨ f = "B" ∨ f = "b"
  · rw [if_pos hA]
    simp only [decide_eq_false_iff_not, not_lt]
    constructor
    · intro h; exact Or.inr ⟨h, hA⟩
    · rintro (h | ⟨h, _⟩) <;> omega
  · rw [if_neg hA]
    simp only [decide_eq_false_iff_not, not_le]
    constructor
    · intro h; exact Or.inl h
    · rintro (h | ⟨_, h⟩)
      · exact h
      · exact absurd h hA

theorem shape_of_field_ok (s : ocp_qp) (f : String) (hf : is_field f) (i : Nat)
    (hr : in_range s f i = true) : ∃ sh, shape_of_field s f i = .ok sh := by
  rcases hf with hd | hb
  · exact shape_of_field_data s f hd i hr
  · exact ⟨_, shape_of_field_bound s f i (in_range_bound_lt s f hb i hr) hb⟩

theorem set_field_out_of_range (s : ocp_qp) (f : String) (i : Nat) (v : List Double)
    (hr : in_range s f i = false) :
    set_field s f i v = (.error (.out_of_range "Stage index should be in [0, N]."), s) := by
  unfold set_field
  rw [hr]
  simp

theorem set_field_shape_mismatch (s : ocp_qp) (f : String) (i : Nat) (v : List Double)
    (sh : Nat × Nat) (hsh : shape_of_field s f i = .ok sh) (hv : sh.1 * sh.2 ≠ v.length) :
    set_field s f i v = (.error (.invalid_argument ("I need " ++ shape_to_string sh ++
      " elements but got " ++ toString v.length ++ ".")), s) := by
  unfold set_field
  rw [in_range_of_shape s f i sh hsh, hsh]
  have hm : match_shape sh v.length = false := by simp [match_shape, hv]
  simp [hm]

/-- Claim C11. For a field of the enumeration, `set_field(field, stage, v)` throws
`out_of_range` when `stage > N`, or when `stage >= N` and the field is `A`, `B` or
`b`; otherwise the field has a shape at that stage, and the call throws
`invalid_argument` (naming the expected shape and the actual count) when
`v.size()` differs from `rows * cols`; in both error cases the object is unchanged. -/
theorem set_field_validation (s : ocp_qp) (f : String) (hf : is_field f) (i : Nat)
    (v : List Double) :
    ((s.N < i ∨ (s.N ≤ i ∧ (f = "A" ∨ f = "B" ∨ f = "b"))) →
      ∃ msg, set_field s f i v = (.error (.out_of_range msg), s)) ∧
    (¬ (s.N < i ∨ (s.N ≤ i ∧ (f = "A" ∨ f = "B" ∨ f = "b"))) →
      ∃ sh, shape_of_field s f i = .ok sh ∧
        (sh.1 * sh.2 ≠ v.length →
          ∃ msg, set_field s f i v = (.error (.invalid_argument msg), s) ∧
            ∃ before after, msg = before ++ toString v.length ++ after)) := by
  constructor
  · intro h
    exact ⟨_, set_field_out_of_range s f i v ((in_range_false_iff s f i).mpr h)⟩
  · intro h
    have hr : in_range s f i = true := by
      cases hc : in_range s f i with
      | true => rfl
      | false => exact absurd ((in_range_false_iff s f i).mp hc) h
    obtain ⟨sh, hsh⟩ := shape_of_field_ok s f hf i hr
    refine ⟨sh, hsh, fun hv => ⟨_, set_field_shape_mismatch s f i v sh hsh hv, ?_⟩⟩
    exact ⟨"I need " ++ shape_to_string sh ++ " elements but got ", ".", rfl⟩

theorem set_field_validation_witness :
    is_field "A" ∧ (demo.N < 2 ∨ (demo.N ≤ 2 ∧ ("A" = "A" ∨ "A" = "B" ∨ "A" = "b"))) ∧
    (∃ msg, set_field demo "A" 2 [] = (.error (.out_of_range msg), demo)) ∧
    is_field "lbu" ∧
    ¬ (demo.N < 2 ∨ (demo.N ≤ 2 ∧ ("lbu" = "A" ∨ "lbu" = "B" ∨ "lbu" = "b"))) ∧
    shape_of_field demo "lbu" 2 = .ok (0, 1) ∧
    (∃ msg, set_field demo "lbu" 2 [.fin 1] = (.error (.invalid_argument msg), demo)) := by
  refine ⟨by decide, by decide, (set_field_validation demo "A" (by decide) 2 []).1 (by decide),
    by decide, by decide, by decide, ?_⟩
  obtain ⟨sh, hsh, h⟩ := (set_field_validation demo "lbu" (by decide) 2 [.fin 1]).2 (by decide)
  have e : shape_of_field demo "lbu" 2 = .ok (0, 1) := by decide
  rw [e] at hsh
  cases hsh
  obtain ⟨msg, hm, _⟩ := h (by decide)
  exact ⟨msg, hm⟩

theorem shape_of_field_unknown (s : ocp_qp) (f : String) (hf : ¬ is_field f) (i : Nat)
    (hi : i ≤ s.N) :
    shape_of_field s f i = .error (.invalid_argument ("OCP QP does not contain field " ++ f)) := by
  have hr : in_range s f i = true := by
    have hA : ¬ (f = "A" ∨ f = "B" ∨ f = "b") := by
      intro h
      apply hf
      left
      unfold is_data_field
      rcases h with h | h | h <;> simp [h]
    unfold in_range
    rw [if_neg hA]
    simpa using hi
  unfold is_field is_data_field is_bound_field at hf
  unfold shape_of_field
  rw [hr]
  simp only [Bool.not_eq_true, Bool.true_eq_false, if_false]
  have h1 : ¬ (f = "Q" ∨ f = "S" ∨ f = "R" ∨ f = "q" ∨ f = "r" ∨ f = "A" ∨ f = "B" ∨ f = "b") := by
    intro h; apply hf; left; tauto
  have h2 : ¬ f = "lbx" := by intro h; apply hf; right; tauto
  have h3 : ¬ f = "ubx" := by intro h; apply hf; right; tauto
  have h4 : ¬ f = "lbu" := by intro h; apply hf; right; tauto
  have h5 : ¬ f = "ubu" := by intro h; apply hf; right; tauto
  have h6 : ¬ (f = "C" ∨ f = "D" ∨ f = "lg" ∨ f = "ug") := by
    intro h; apply hf; left; tauto
  rw [if_neg h1, if_neg h2, if_neg h3, if_neg h4, if_neg h5, if_neg h6]
  simp

/-- Claim C12. A field name outside the enumeration is rejected: for every stage
`<= N` and every `v`, `set_field(name, stage, v)` throws `invalid_argument` and
leaves the object unchanged, and `get_field(name)` throws `invalid_argument`. -/
theorem unknown_field_rejected (s : ocp_qp) (name : String) (hf : ¬ is_field name) (i : Nat)
    (hi : i ≤ s.N) (v : List Double) :
    set_field s name i v =
      (.error (.invalid_argument ("OCP QP does not contain field " ++ name)), s) ∧
    get_field s name = .error (.invalid_argument ("OCP QP does not contain field " ++ name)) := by
  have hA : ¬ (name = "A" ∨ name = "B" ∨ name = "b") := by
    intro h
    apply hf
    left
    unfold is_data_field
    rcases h with h | h | h <;> simp [h]
  constructor
  · have hr : in_range s name i = true := by
      unfold in_range
      rw [if_neg hA]
      simpa using hi
    unfold set_field
    rw [hr, shape_of_field_unknown s name hf i hi]
    simp
  · unfold get_field
    rw [if_neg hA]
    simp only []
    rw [List.range'_succ]
    unfold map_each
    rw [shape_of_field_unknown s name hf 0 (Nat.zero_le _)]

theorem unknown_field_rejected_witness :
    ¬ is_field "lb" ∧ 1 ≤ demo.N ∧
    set_field demo "lb" 1 [.fin 0] =
      (.error (.invalid_argument ("OCP QP does not contain field " ++ "lb")), demo) ∧
    get_field demo "lb" = .error (.invalid_argument ("OCP QP does not contain field " ++ "lb")) :=
  ⟨by decide, by decide, unknown_field_rejected demo "lb" (by decide) 1 (by decide) [.fin 0]⟩

theorem cached_with_bound_other (s : ocp_qp) (f : String) (hf : is_bound_field f) (i : Nat)
    (v : List Double) (g : String) (hg : g ≠ f) :
    cached (with_bound s f i v) g = cached s g := by
  unfold is_bound_field at hf
  rcases hf with rfl | rfl | rfl | rfl <;>
    simp only [cached, with_bound, bounds_cache.at, bounds_cache.put, if_true] <;>
    by_cases h1 : g = "lbx" <;> by_cases h2 : g = "ubx" <;> by_cases h3 : g = "lbu" <;>
    by_cases h4 : g = "ubu" <;> simp_all

/-- Claim C17. A `set_field` on a bound field at a valid stage, with `v` of the
right length and such that `idxb` of the new (lower, upper) pair of the stage
equals the stage's current index set, changes only `cached_bounds[f][i]` (to `v`):
the QP with its dimensions and index sets, the other cached bounds, the solver
handle and `needs_initializing` are as before. -/
theorem bound_update_only_touches_cache (s : ocp_qp) (hs : shape_ok s) (hidx : idx_ok s)
    (f : String) (hf : is_bound_field f) (i : Nat) (hi : i < s.N + 1) (v : List Double)
    (hv : v.length = class_dim s f i)
    (hsame : class_sq (with_bound s f i v) f i = class_indices s f i) :
    ∃ s1, set_field s f i v = (.ok (), s1) ∧
      s1 = { s with cached_bounds := s1.cached_bounds } ∧
      cached s1 f = (cached s f).set i v ∧ (cached s1 f)[i]? = some v ∧
      (∀ g, g ≠ f → cached s1 g = cached s g) ∧
      s1.needs_initializing = s.needs_initializing ∧
      nbx s1 = nbx s ∧ nbu s1 = nbu s ∧
      bounds_indices s1 "x" = bounds_indices s "x" ∧
      bounds_indices s1 "u" = bounds_indices s "u" := by
  refine ⟨with_bound s f i v, ?_, rfl, cached_with_bound s f hf i v, ?_,
    cached_with_bound_other s f hf i v, rfl, rfl, rfl, rfl, rfl⟩
  · rw [set_field_bound s hs f hf i hi v hv (idx_ok_le s hidx), if_neg (not_not.mpr hsame.symm)]
  · rw [cached_with_bound s f hf]
    have hl := cached_length s hs f hf
    simp [hl, hi]

theorem bound_update_only_touches_cache_witness :
    shape_ok demo_ready ∧ idx_ok demo_ready ∧ is_bound_field "lbx" ∧ 0 < demo_ready.N + 1 ∧
    [Double.fin (-3), Double.ninf].length = class_dim demo_ready "lbx" 0 ∧
    class_sq (with_bound demo_ready "lbx" 0 [.fin (-3), .ninf]) "lbx" 0
      = class_indices demo_ready "lbx" 0 ∧
    demo_ready.needs_initializing = false ∧
    ∃ s1, set_field demo_ready "lbx" 0 [.fin (-3), .ninf] = (.ok (), s1) ∧
      s1 = { demo_ready with cached_bounds := s1.cached_bounds } ∧
      cached s1 "lbx" = (cached demo_ready "lbx").set 0 [.fin (-3), .ninf] ∧
      (cached s1 "lbx")[0]? = some [.fin (-3), .ninf] ∧
      (∀ g, g ≠ "lbx" → cached s1 g = cached demo_ready g) ∧
      s1.needs_initializing = demo_ready.needs_initializing ∧
      nbx s1 = nbx demo_ready ∧ nbu s1 = nbu demo_ready ∧
      bounds_indices s1 "x" = bounds_indices demo_ready "x" ∧
      bounds_indices s1 "u" = bounds_indices demo_ready "u" :=
  ⟨by decide, by decide, by decide, by decide, by decide, by decide, by decide,
    bound_update_only_touches_cache demo_ready (by decide) (by decide) "lbx" (by decide) 0
      (by decide) [.fin (-3), .ninf] (by decide) (by decide)⟩

theorem expanded_fully_expanded (s : ocp_qp) : fully_expanded (expanded s) := by
  intro j hj
  have hj2 : j < s.N + 1 := hj
  obtain ⟨hx, hu⟩ := expanded_indices s j hj2
  obtain ⟨c1, c2, _, _⟩ := expanded_canon s j hj2
  have e1 : (nx (expanded s)).getD j 0 = dim_at s.qp.dim.nx j := by
    unfold nx
    rw [getD_map_range _ _ _ _ hj]
    rfl
  have e2 : (nu (expanded s)).getD j 0 = dim_at s.qp.dim.nu j := by
    unfold nu
    rw [getD_map_range _ _ _ _ hj]
    rfl
  rw [e1, e2, hx, hu]
  refine ⟨?_, ?_, rfl, rfl⟩
  · unfold nbx
    rw [getD_map_range _ _ _ _ hj, c1, List.length_range]
  · unfold nbu
    rw [getD_map_range _ _ _ _ hj, c2, List.length_range]

/-- Claim C19. `expand_dimensions` succeeds and covers the whole horizon: at every
stage `j` in `0..N`, `nbx[j] = nx[j]`, `nbu[j] = nu[j]`, the state index set is
`[0, .., nx[j]-1]` and the control index set is `[0, .., nu[j]-1]`;
`needs_initializing` is true and the cached dense bounds are as before. The same
holds after a `set_field` on a bound field whose new active set differs from the
touched stage's current index set (the cached bounds then being the ones with the
new value stored). -/
theorem expand_covers_horizon (s : ocp_qp) (hs : shape_ok s) (hidx : idx_ok s) :
    (∃ s1, expand_dimensions s = (.ok (), s1) ∧ fully_expanded s1 ∧
      s1.needs_initializing = true ∧ s1.cached_bounds = s.cached_bounds ∧
      s1.N = s.N ∧ nx s1 = nx s ∧ nu s1 = nu s) ∧
    (∀ (f : String) (i : Nat) (v : List Double), is_bound_field f → i < s.N + 1 →
      v.length = class_dim s f i →
      class_sq (with_bound s f i v) f i ≠ class_indices s f i →
      ∃ s1, set_field s f i v = (.ok (), s1) ∧ fully_expanded s1 ∧
        s1.needs_initializing = true ∧
        s1.cached_bounds = (with_bound s f i v).cached_bounds ∧
        s1.N = s.N ∧ nx s1 = nx s ∧ nu s1 = nu s) := by
  constructor
  · exact ⟨expanded s, expand_dimensions_eq s (idx_ok_le s hidx), expanded_fully_expanded s,
      rfl, rfl, rfl, rfl, rfl⟩
  · intro f i v hf hi hv hdiff
    refine ⟨expanded (with_bound s f i v), ?_, expanded_fully_expanded _, rfl, rfl, rfl, rfl, rfl⟩
    rw [set_field_bound s hs f hf i hi v hv (idx_ok_le s hidx), if_pos (fun h => hdiff h.symm)]

theorem expand_covers_horizon_witness :
    shape_ok demo_ready ∧ idx_ok demo_ready ∧
    (∃ s1, expand_dimensions demo_ready = (.ok (), s1) ∧ fully_expanded s1 ∧
      s1.needs_initializing = true ∧ s1.cached_bounds = demo_ready.cached_bounds ∧
      s1.N = demo_ready.N ∧ nx s1 = nx demo_ready ∧ nu s1 = nu demo_ready) ∧
    is_bound_field "lbu" ∧ 1 < demo_ready.N + 1 ∧
    [Double.fin 0].length = class_dim demo_ready "lbu" 1 ∧
    class_sq (with_bound demo_ready "lbu" 1 [.fin 0]) "lbu" 1
      ≠ class_indices demo_ready "lbu" 1 ∧
    (∃ s1, set_field demo_ready "lbu" 1 [.fin 0] = (.ok (), s1) ∧ fully_expanded s1 ∧
      s1.needs_initializing = true ∧
      s1.cached_bounds = (with_bound demo_ready "lbu" 1 [.fin 0]).cached_bounds ∧
      s1.N = demo_ready.N ∧ nx s1 = nx demo_ready ∧ nu s1 = nu demo_ready) :=
  ⟨by decide, by decide, (expand_covers_horizon demo_ready (by decide) (by decide)).1,
    by decide, by decide, by decide, by decide,
    (expand_covers_horizon demo_ready (by decide) (by decide)).2 "lbu" 1 [.fin 0]
      (by decide) (by decide) (by decide) (by decide)⟩

theorem process_options_ok (recognised : String → String → Bool) (solver_name : String)
    (options : options_t) (args : ocp_qp_opts)
    (h : ∀ kv ∈ options, recognised solver_name kv.1 = true) :
    process_options recognised solver_name options args = .ok { args with applied := options } := by
  unfold process_options
  have hnone : options.find? (fun kv => ! recognised solver_name kv.1) = none := by
    rw [List.find?_eq_none]
    intro kv hkv
    simp [h kv hkv]
  rw [hnone]

theorem lookup_some_of_mem_keys {β : Type} (l : List (String × β)) (name : String)
    (h : name ∈ l.map Prod.fst) : ∃ p, l.lookup name = some p := by
  induction l with
  | nil => simp at h
  | cons a rest ih =>
    obtain ⟨k, p⟩ := a
    by_cases hk : name = k
    · subst hk
      exact ⟨p, by simp [List.lookup]⟩
    · have hne : (name == k) = false := by simpa using hk
      simp only [List.map_cons, List.mem_cons] at h
      rcases h with h | h
      · exact absurd h hk
      · obtain ⟨q, hq⟩ := ih h
        exact ⟨q, by simp only [List.lookup, hne]; exact hq⟩

theorem initialize_solver_eq (recognised : String → String → Bool) (s : ocp_qp)
    (hs : shape_ok s) (solver_name : String) (options : options_t) (plan : ocp_qp_solver_plan)
    (hav : s.available_solvers.lookup solver_name = some plan)
    (hopt : ∀ kv ∈ options, recognised solver_name kv.1 = true) :
    initialize_solver recognised s solver_name options =
      (.ok (), { squeezed s with
        config := some plan
        args := some { dim := (squeezed s).qp.dim, applied := options }
        solver := some { plan := plan, dim := (squeezed s).qp.dim,
                         opts := { dim := (squeezed s).qp.dim, applied := options } }
        needs_initializing := false
        cached_solver := solver_name }) := by
  unfold initialize_solver
  rw [hav]
  simp only []
  rw [squeeze_dimensions_eq s hs]
  simp only []
  rw [process_options_ok recognised solver_name options _ hopt]

/-- Claim C20. For an available `solver_name` whose options are all recognised,
`initialize_solver` succeeds; it squeezes first, so the dimensions handed to the
construction of the backend options and of the backend memory are those of the
squeezed object: `nbx[i]` and `nbu[i]` are the numbers of positions of stage `i`
whose cached lower bound is not `-INFINITY` or whose cached upper bound is not
`+INFINITY`. On return the object is in squeezed form, `needs_initializing` is false
and `cached_solver` is `solver_name`. -/
theorem initialize_solver_success (recognised : String → String → Bool) (s : ocp_qp)
    (hs : shape_ok s) (solver_name : String) (options : options_t)
    (hav : solver_name ∈ s.available_solvers.map Prod.fst)
    (hopt : ∀ kv ∈ options, recognised solver_name kv.1 = true) :
    ∃ s1 args solver, initialize_solver recognised s solver_name options = (.ok (), s1) ∧
      s1.needs_initializing = false ∧ s1.cached_solver = solver_name ∧
      s1.cached_bounds = s.cached_bounds ∧ squeezed_form s1 ∧
      s1.args = some args ∧ s1.solver = some solver ∧
      s.available_solvers.lookup solver_name = some solver.plan ∧
      args.dim = s1.qp.dim ∧ solver.dim = s1.qp.dim ∧
      ∀ i, i < s.N + 1 →
        dim_at solver.dim.nbx i =
          (active_positions (s.cached_bounds.lbx.getD i []) (s.cached_bounds.ubx.getD i [])).length ∧
        dim_at solver.dim.nbu i =
          (active_positions (s.cached_bounds.lbu.getD i []) (s.cached_bounds.ubu.getD i [])).length := by
  obtain ⟨plan, hplan⟩ := lookup_some_of_mem_keys _ _ hav
  refine ⟨_, _, _, initialize_solver_eq recognised s hs solver_name options plan hplan hopt,
    rfl, rfl, rfl, ?_, rfl, rfl, hplan, rfl, rfl, ?_⟩
  · exact squeezed_is_squeezed_form s hs
  · intro i hi
    obtain ⟨c1, c2, _, _⟩ := squeezed_canon s i hi
    exact ⟨c1, c2⟩

theorem initialize_solver_success_witness :
    shape_ok demo ∧ "sparse_hpipm" ∈ demo.available_solvers.map Prod.fst ∧
    (∀ kv ∈ [("max_iter", "10")], (fun _ _ => true) "sparse_hpipm" kv.1 = true) ∧
    ∃ s1 args solver,
      initialize_solver (fun _ _ => true) demo "sparse_hpipm" [("max_iter", "10")]
        = (.ok (), s1) ∧
      s1.needs_initializing = false ∧ s1.cached_solver = "sparse_hpipm" ∧
      s1.cached_bounds = demo.cached_bounds ∧ squeezed_form s1 ∧
      s1.args = some args ∧ s1.solver = some solver ∧
      demo.available_solvers.lookup "sparse_hpipm" = some solver.plan ∧
      args.dim = s1.qp.dim ∧ solver.dim = s1.qp.dim ∧
      ∀ i, i < demo.N + 1 →
        dim_at solver.dim.nbx i =
          (active_positions (demo.cached_bounds.lbx.getD i [])
            (demo.cached_bounds.ubx.getD i [])).length ∧
        dim_at solver.dim.nbu i =
          (active_positions (demo.cached_bounds.lbu.getD i [])
            (demo.cached_bounds.ubu.getD i [])).length :=
  ⟨by decide, by decide, by decide,
    initialize_solver_success (fun _ _ => true) demo (by decide) "sparse_hpipm"
      [("max_iter", "10")] (by decide) (by decide)⟩

theorem fold_each_push {β : Type} (g : Nat → β) (body : List β → Nat → Except Err (List β))
    (k a : Nat) (acc : List β)
    (h : ∀ idx, a ≤ idx → idx < a + k → ∀ acc, body acc idx = .ok (acc ++ [g idx])) :
    fold_each (List.range' a k) body acc = .ok (acc ++ (List.range' a k).map g) := by
  induction k generalizing a acc with
  | zero => simp [fold_each]
  | succ k ih =>
    rw [List.range'_succ]
    unfold fold_each
    rw [h a (Nat.le_refl _) (by omega)]
    simp only []
    rw [ih (a + 1) (acc ++ [g a]) (fun idx h1 h2 => h idx (by omega) (by omega))]
    simp

theorem map_getD_range {β : Type} (l : List Nat) (F : Nat → β) :
    (List.range l.length).map (fun idx => F (l.getD idx 0)) = l.map F := by
  apply List.ext_getElem
  · simp
  · intro k h1 h2
    have hk : k < l.length := by simpa using h2
    simp [List.getElem?_eq_getElem hk]

theorem front_bound (f : String) (hf : is_bound_field f) : f.front = 'l' ∨ f.front = 'u' := by
  unfold is_bound_field at hf
  rcases hf with rfl | rfl | rfl | rfl <;> decide

theorem fill_in_vector_eq (name : String) (hname : is_bound_field name) (idxb_stage : List Nat)
    (stage_bound : List Double) (h : ∀ j ∈ idxb_stage, j < stage_bound.length) :
    fill_in_vector name idxb_stage stage_bound =
      .ok (idxb_stage.map (fun j => fill_value name (stage_bound.getD j Double.nan))) := by
  unfold fill_in_vector
  rw [List.range_eq_range', fold_each_push
    (fun idx => fill_value name (stage_bound.getD (idxb_stage.getD idx 0) Double.nan))]
  · rw [← List.range_eq_range', map_getD_range idxb_stage
      (fun j => fill_value name (stage_bound.getD j Double.nan))]
    rfl
  · intro idx _ h2 acc
    have hidx : idx < idxb_stage.length := by omega
    rw [vec_at_eq_ok idxb_stage idx 0 hidx]
    simp only []
    have hj : idxb_stage.getD idx 0 < stage_bound.length := by
      apply h
      rw [List.getD_eq_getElem _ _ hidx]
      exact List.getElem_mem _
    rw [vec_at_eq_ok stage_bound _ Double.nan hj]
    simp only []
    unfold fill_value
    rcases front_bound name hname with hl | hu
    · rw [if_pos hl, if_pos hl]
    · have hnl : ¬ name.front = 'l' := by rw [hu]; decide
      rw [if_neg hnl, if_pos hu, if_neg hnl]

theorem bounds_indices_class (s : ocp_qp) (f : String) (hf : is_bound_field f) :
    bounds_indices s (String.singleton f.back)
      = .ok ((List.range (s.N + 1)).map (class_indices s f)) := by
  unfold is_bound_field at hf
  rcases hf with rfl | rfl | rfl | rfl
  · rw [class_lbx, bounds_indices_x]; simp [class_indices]
  · rw [class_ubx, bounds_indices_x]; simp [class_indices]
  · rw [class_lbu, bounds_indices_u]; simp [class_indices]
  · rw [class_ubu, bounds_indices_u]; simp [class_indices]

theorem class_indices_lt (s : ocp_qp) (hs : shape_ok s) (hlt : idx_lt s) (f : String)
    (hf : is_bound_field f) (i : Nat) (hi : i < s.N + 1) :
    ∀ j ∈ class_indices s f i, j < ((cached s f).getD i []).length := by
  obtain ⟨a1, a2, a3, a4⟩ := hs.2.2.2.2.2.2.2.2.2.2.2 i hi
  obtain ⟨b1, b2⟩ := hlt i hi
  unfold is_bound_field at hf
  rcases hf with rfl | rfl | rfl | rfl
  · intro j hj
    have e : cached s "lbx" = s.cached_bounds.lbx := by simp [cached, bounds_cache.at]
    rw [e, a1]
    exact b1 j (by simpa [class_indices] using hj)
  · intro j hj
    have e : cached s "ubx" = s.cached_bounds.ubx := by simp [cached, bounds_cache.at]
    rw [e, a2]
    exact b1 j (by simpa [class_indices] using hj)
  · intro j hj
    have e : cached s "lbu" = s.cached_bounds.lbu := by simp [cached, bounds_cache.at]
    rw [e, a3]
    exact b2 j (by simpa [class_indices] using hj)
  · intro j hj
    have e : cached s "ubu" = s.cached_bounds.ubu := by simp [cached, bounds_cache.at]
    rw [e, a4]
    exact b2 j (by simpa [class_indices] using hj)

theorem fill_in_stage_eq (s : ocp_qp) (hs : shape_ok s) (hlt : idx_lt s) (name : String)
    (hname : is_bound_field name) (stage : Nat) (hst : stage < s.N + 1)
    (D : String → Nat → List Double) :
    fill_in_stage name (cached s name) stage (with_data s D) =
      (.ok (), with_data s
        (fun f i => if f = name ∧ i = stage then fill_vec s name stage else D f i)) := by
  unfold fill_in_stage
  rw [bounds_indices_class (with_data s D) name hname]
  simp only []
  have hN : (with_data s D).N = s.N := rfl
  rw [hN, vec_at_eq_ok _ stage [] (by simpa using hst)]
  simp only []
  rw [vec_at_eq_ok (cached s name) stage [] (by rw [cached_length s hs name hname]; exact hst)]
  simp only []
  rw [getD_map_range _ _ _ _ hst]
  have hci : class_indices (with_data s D) name stage = class_indices s name stage := rfl
  rw [hci, fill_in_vector_eq name hname _ _ (class_indices_lt s hs hlt name hname stage hst)]
  simp only []
  unfold is_bound_field at hname
  rw [if_pos hname]
  rfl

theorem fill_in_stages_eq (s : ocp_qp) (hs : shape_ok s) (hlt : idx_lt s) (name : String)
    (hname : is_bound_field name) (l : List Nat) (hl : ∀ i ∈ l, i < s.N + 1)
    (D : String → Nat → List Double) :
    for_each l (fill_in_stage name (cached s name)) (with_data s D) =
      (.ok (), with_data s
        (fun f i => if f = name ∧ i ∈ l then fill_vec s name i else D f i)) := by
  induction l generalizing D with
  | nil => simp [for_each]
  | cons a rest ih =>
    unfold for_each
    rw [fill_in_stage_eq s hs hlt name hname a (hl a (List.mem_cons_self _ _)) D]
    simp only []
    rw [ih (fun i hi => hl i (List.mem_cons_of_mem _ hi))]
    congr 2
    funext f i
    by_cases hf : f = name
    · by_cases hi : i ∈ rest
      · simp [hf, hi]
      · by_cases hia : i = a
        · simp [hf, hia]
        · simp [hf, hi, hia]
    · simp [hf]

theorem cached_lbx (s : ocp_qp) : s.cached_bounds.lbx = cached s "lbx" := by
  simp [cached, bounds_cache.at]

theorem cached_ubx (s : ocp_qp) : s.cached_bounds.ubx = cached s "ubx" := by
  simp [cached, bounds_cache.at]

theorem cached_lbu (s : ocp_qp) : s.cached_bounds.lbu = cached s "lbu" := by
  simp [cached, bounds_cache.at]

theorem cached_ubu (s : ocp_qp) : s.cached_bounds.ubu = cached s "ubu" := by
  simp [cached, bounds_cache.at]

theorem fill_in_bounds_eq (s : ocp_qp) (hs : shape_ok s) (hlt : idx_lt s) :
    fill_in_bounds s = (.ok (), with_data s (filled_data s)) := by
  have step : ∀ (name : String), is_bound_field name → ∀ D,
      for_each (List.range ((with_data s D).N + 1)) (fill_in_stage name (cached s name))
        (with_data s D) =
      (.ok (), with_data s
        (fun f i => if f = name ∧ i ∈ List.range (s.N + 1) then fill_vec s name i else D f i)) :=
    fun name hname D => fill_in_stages_eq s hs hlt name hname (List.range (s.N + 1))
      (fun i hi => List.mem_range.mp hi) D
  have st1 : for_each (List.range (s.N + 1)) (fill_in_stage "lbu" (cached s "lbu")) s = _ :=
    step "lbu" (by decide) s.qp.data
  unfold fill_in_bounds
  rw [cached_lbu s, cached_lbx s, cached_ubu s, cached_ubx s]
  simp only [for_each]
  rw [st1]
  simp only []
  rw [step "lbx" (by decide)]
  simp only []
  rw [step "ubu" (by decide)]
  simp only []
  rw [step "ubx" (by decide)]
  simp only []
  congr 2
  funext f i
  unfold filled_data is_bound_field
  by_cases hi : i < s.N + 1
  · by_cases h1 : f = "ubx"
    · subst h1; simp [hi]
    · by_cases h2 : f = "ubu"
      · subst h2; simp [hi]
      · by_cases h3 : f = "lbx"
        · subst h3; simp [hi]
        · by_cases h4 : f = "lbu"
          · subst h4; simp [hi]
          · simp [h1, h2, h3, h4]
  · simp [hi]

theorem fill_value_finite (f : String) (x : Double) : (fill_value f x).isfinite = true := by
  unfold fill_value
  by_cases hl : f.front = 'l' <;> cases x <;>
    simp [hl, Double.isfinite, ACADOS_NEG_INFTY, ACADOS_POS_INFTY]

theorem fill_value_eq (f : String) (hf : is_bound_field f) (x : Double) :
    fill_value f x =
      if x.isfinite then x
      else if f = "lbx" ∨ f = "lbu" then ACADOS_NEG_INFTY else ACADOS_POS_INFTY := by
  unfold is_bound_field at hf
  unfold fill_value
  rcases hf with rfl | rfl | rfl | rfl
  · rw [if_pos front_lbx]; simp
  · have h : ¬ "ubx".front = 'l' := by decide
    rw [if_neg h]; simp
  · rw [if_pos front_lbu]; simp
  · have h : ¬ "ubu".front = 'l' := by decide
    rw [if_neg h]; simp

/-- Claim C18. In an object whose index sets address positions of the dense bound
vectors, `fill_in_bounds` succeeds (no lookup is out of range) and changes only the
data stored in the QP. For every bound field and stage, the compact vector it hands
to the backend has the length of the stage's current index set of that class, and
its `k`-th entry is `cached[idx[k]]` when that value is finite and otherwise
`ACADOS_NEG_INFTY` (lower bounds) or `ACADOS_POS_INFTY` (upper bounds); so every
entry handed over is finite. -/
theorem fill_in_projection (s : ocp_qp) (hs : shape_ok s) (hlt : idx_lt s) :
    ∃ s1, fill_in_bounds s = (.ok (), s1) ∧ s1 = with_data s s1.qp.data ∧
      ∀ f, is_bound_field f → ∀ i, i < s.N + 1 →
        (s1.qp.data f i).length = (class_indices s f i).length ∧
        (∀ k, k < (class_indices s f i).length →
          ∃ x, ((cached s f).getD i [])[(class_indices s f i).getD k 0]? = some x ∧
            (s1.qp.data f i)[k]? = some
              (if x.isfinite then x
               else if f = "lbx" ∨ f = "lbu" then ACADOS_NEG_INFTY else ACADOS_POS_INFTY)) ∧
        (∀ y ∈ s1.qp.data f i, y.isfinite = true) := by
  refine ⟨with_data s (filled_data s), fill_in_bounds_eq s hs hlt, rfl, ?_⟩
  intro f hf i hi
  have hd : (with_data s (filled_data s)).qp.data f i = fill_vec s f i := by
    show filled_data s f i = _
    unfold filled_data
    rw [if_pos ⟨hf, hi⟩]
  rw [hd]
  refine ⟨by simp [fill_vec], ?_, ?_⟩
  · intro k hk
    have hj : (class_indices s f i).getD k 0 < ((cached s f).getD i []).length := by
      apply class_indices_lt s hs hlt f hf i hi
      rw [List.getD_eq_getElem _ _ hk]
      exact List.getElem_mem _
    refine ⟨((cached s f).getD i []).getD ((class_indices s f i).getD k 0) Double.nan, ?_, ?_⟩
    · rw [List.getElem?_eq_getElem hj, List.getD_eq_getElem _ _ hj]
    · rw [← fill_value_eq f hf]
      unfold fill_vec
      rw [List.getElem?_map, List.getElem?_eq_getElem hk, List.getD_eq_getElem _ _ hk]
      rfl
  · intro y hy
    unfold fill_vec at hy
    rw [List.mem_map] at hy
    obtain ⟨j, _, rfl⟩ := hy
    exact fill_value_finite f _

theorem fill_in_projection_witness :
    shape_ok demo_ready ∧ idx_lt demo_ready ∧
    ∃ s1, fill_in_bounds demo_ready = (.ok (), s1) ∧ s1 = with_data demo_ready s1.qp.data ∧
      ∀ f, is_bound_field f → ∀ i, i < demo_ready.N + 1 →
        (s1.qp.data f i).length = (class_indices demo_ready f i).length ∧
        (∀ k, k < (class_indices demo_ready f i).length →
          ∃ x, ((cached demo_ready f).getD i [])[(class_indices demo_ready f i).getD k 0]?
              = some x ∧
            (s1.qp.data f i)[k]? = some
              (if x.isfinite then x
               else if f = "lbx" ∨ f = "lbu" then ACADOS_NEG_INFTY else ACADOS_POS_INFTY)) ∧
        (∀ y ∈ s1.qp.data f i, y.isfinite = true) :=
  ⟨by decide, by decide, fill_in_projection demo_ready (by decide) (by decide)⟩

theorem append_left_cancel_str (p x y : String) (h : p ++ x = p ++ y) : x = y := by
  have := congrArg String.data h
  simp only [String.data_append] at this
  exact String.ext (List.append_cancel_left this)

theorem ne_append_of_take (a b t : String) (ha : a.data.take 2 ≠ b.data.take 2)
    (hb : 2 ≤ b.data.length) : a ≠ b ++ t := by
  intro h
  have := congrArg String.data h
  simp only [String.data_append] at this
  apply ha
  rw [this, List.take_append_of_le_length hb]

theorem msg_maxiter_ne_minstep (cs : String) : msg_maxiter cs ≠ msg_minstep cs := by
  intro h
  have := append_left_cancel_str _ _ _ h
  revert this
  decide

theorem msg_maxiter_ne_failed (cs : String) (c : Int) : msg_maxiter cs ≠ msg_failed cs c := by
  intro h
  unfold msg_maxiter msg_failed at h
  rw [String.append_assoc ("QP solver " ++ cs)] at h
  have := append_left_cancel_str _ _ _ h
  revert this
  exact ne_append_of_take _ _ _ (by decide) (by decide)

theorem msg_minstep_ne_failed (cs : String) (c : Int) : msg_minstep cs ≠ msg_failed cs c := by
  intro h
  unfold msg_minstep msg_failed at h
  rw [String.append_assoc ("QP solver " ++ cs)] at h
  have := append_left_cancel_str _ _ _ h
  revert this
  exact ne_append_of_take _ _ _ (by decide) (by decide)

theorem solve_eq (backend : ocp_qp → Int × ocp_qp_out) (s : ocp_qp) (hs : shape_ok s)
    (hlt : idx_lt s) (hready : s.needs_initializing = false) :
    solve backend s =
      (if (backend (with_data s (filled_data s))).1 ≠ ACADOS_SUCCESS then
        if (backend (with_data s (filled_data s))).1 = ACADOS_MAXITER then
          .error (.runtime_error (msg_maxiter s.cached_solver))
        else if (backend (with_data s (filled_data s))).1 = ACADOS_MINSTEP then
          .error (.runtime_error (msg_minstep s.cached_solver))
        else .error (.runtime_error (msg_failed s.cached_solver
          (backend (with_data s (filled_data s))).1))
       else .ok ⟨(backend (with_data s (filled_data s))).2⟩,
       { with_data s (filled_data s) with backend_calls := s.backend_calls + 1 }) := by
  unfold solve
  have hn : ¬ (s.needs_initializing = true) := by rw [hready]; decide
  rw [if_neg hn, fill_in_bounds_eq s hs hlt]
  simp only []
  by_cases h0 : (backend (with_data s (filled_data s))).1 ≠ ACADOS_SUCCESS
  · rw [if_pos h0, if_pos h0]
    by_cases h1 : (backend (with_data s (filled_data s))).1 = ACADOS_MAXITER
    · rw [if_pos h1, if_pos h1]; rfl
    · rw [if_neg h1, if_neg h1]
      by_cases h2 : (backend (with_data s (filled_data s))).1 = ACADOS_MINSTEP
      · rw [if_pos h2, if_pos h2]; rfl
      · rw [if_neg h2, if_neg h2]; rfl
  · rw [if_neg h0, if_neg h0]; rfl

/-- Claim C13. In a ready object (`needs_initializing` false) satisfying the class
invariants, `fill_in_bounds` succeeds and `solve()` calls the backend once on the
filled-in object. For every return code `c` of the backend: `solve()` returns a
solution iff `c == ACADOS_SUCCESS`; for `ACADOS_MAXITER` it throws the 'reached
maximum number of iterations' error, for `ACADOS_MINSTEP` the 'reached minimum step
size' error, and for every other `c` an error whose message carries the raw code
`c`. The three error messages are pairwise different, and the backend-call count
grows by exactly one. -/
theorem solve_outcome_mapping (backend : ocp_qp → Int × ocp_qp_out) (s : ocp_qp)
    (hs : shape_ok s) (hlt : idx_lt s) (hready : s.needs_initializing = false) :
    ∃ s1, fill_in_bounds s = (.ok (), s1) ∧
      (solve backend s).2 = { s1 with backend_calls := s.backend_calls + 1 } ∧
      ∀ c out, backend s1 = (c, out) →
        (c = ACADOS_SUCCESS → (solve backend s).1 = .ok ⟨out⟩) ∧
        (c = ACADOS_MAXITER →
          (solve backend s).1 = .error (.runtime_error (msg_maxiter s.cached_solver))) ∧
        (c = ACADOS_MINSTEP →
          (solve backend s).1 = .error (.runtime_error (msg_minstep s.cached_solver))) ∧
        (c ≠ ACADOS_SUCCESS → c ≠ ACADOS_MAXITER → c ≠ ACADOS_MINSTEP →
          (solve backend s).1 = .error (.runtime_error (msg_failed s.cached_solver c))) ∧
        ((∃ sol, (solve backend s).1 = .ok sol) ↔ c = ACADOS_SUCCESS) ∧
        msg_maxiter s.cached_solver ≠ msg_minstep s.cached_solver ∧
        (∀ c1, msg_maxiter s.cached_solver ≠ msg_failed s.cached_solver c1) ∧
        (∀ c1, msg_minstep s.cached_solver ≠ msg_failed s.cached_solver c1) := by
  refine ⟨with_data s (filled_data s), fill_in_bounds_eq s hs hlt, ?_, ?_⟩
  · rw [solve_eq backend s hs hlt hready]
  · intro c out hb
    rw [solve_eq backend s hs hlt hready, hb]
    simp only []
    refine ⟨?_, ?_, ?_, ?_, ?_, msg_maxiter_ne_minstep _, msg_maxiter_ne_failed _,
      msg_minstep_ne_failed _⟩
    · intro h; rw [if_neg (not_not.mpr h)]
    · intro h
      have h0 : c ≠ ACADOS_SUCCESS := by rw [h]; decide
      rw [if_pos h0, if_pos h]
    · intro h
      have h0 : c ≠ ACADOS_SUCCESS := by rw [h]; decide
      have h1 : ¬ c = ACADOS_MAXITER := by rw [h]; decide
      rw [if_pos h0, if_neg h1, if_pos h]
    · intro h0 h1 h2
      rw [if_pos h0, if_neg h1, if_neg h2]
    · constructor
      · rintro ⟨sol, hsol⟩
        by_contra h0
        rw [if_pos h0] at hsol
        split at hsol
        · cases hsol
        · split at hsol <;> cases hsol
      · intro h
        rw [if_neg (not_not.mpr h)]
        exact ⟨_, rfl⟩

theorem solve_outcome_mapping_witness :
    shape_ok demo_ready ∧ idx_lt demo_ready ∧ demo_ready.needs_initializing = false ∧
    ∃ s1, fill_in_bounds demo_ready = (.ok (), s1) ∧
      (solve (fun _ => (2, ⟨[]⟩)) demo_ready).2
        = { s1 with backend_calls := demo_ready.backend_calls + 1 } ∧
      ∀ c out, (fun _ => ((2 : Int), (⟨[]⟩ : ocp_qp_out))) s1 = (c, out) →
        (c = ACADOS_SUCCESS → (solve (fun _ => (2, ⟨[]⟩)) demo_ready).1 = .ok ⟨out⟩) ∧
        (c = ACADOS_MAXITER →
          (solve (fun _ => (2, ⟨[]⟩)) demo_ready).1
            = .error (.runtime_error (msg_maxiter demo_ready.cached_solver))) ∧
        (c = ACADOS_MINSTEP →
          (solve (fun _ => (2, ⟨[]⟩)) demo_ready).1
            = .error (.runtime_error (msg_minstep demo_ready.cached_solver))) ∧
        (c ≠ ACADOS_SUCCESS → c ≠ ACADOS_MAXITER → c ≠ ACADOS_MINSTEP →
          (solve (fun _ => (2, ⟨[]⟩)) demo_ready).1
            = .error (.runtime_error (msg_failed demo_ready.cached_solver c))) ∧
        ((∃ sol, (solve (fun _ => (2, ⟨[]⟩)) demo_ready).1 = .ok sol) ↔ c = ACADOS_SUCCESS) ∧
        msg_maxiter demo_ready.cached_solver ≠ msg_minstep demo_ready.cached_solver ∧
        (∀ c1, msg_maxiter demo_ready.cached_solver ≠ msg_failed demo_ready.cached_solver c1) ∧
        (∀ c1, msg_minstep demo_ready.cached_solver ≠ msg_failed demo_ready.cached_solver c1) :=
  ⟨by decide, by decide, by decide,
    solve_outcome_mapping (fun _ => (2, ⟨[]⟩)) demo_ready (by decide) (by decide) (by decide)⟩

/-- Claim C14: the code at the failing input. On the freshly constructed object
`fresh` (`nu = [1,1,0]`), `set_field("lbu", [5])` throws `invalid_argument` at the
terminal stage, after it has already stored `[5]` as the cached lower control bound
of stages 0 and 1: the object is not the one before the call. -/
theorem set_field_all_partial_mutation :
    ocp_qp.create ⟨false, false, false, false, false⟩
      [2, 2, 2] [1, 1, 0] [2, 2, 2] [1, 1, 0] [0, 0, 0] [0, 0, 0] = .ok fresh ∧
    (set_field_all fresh "lbu" [.fin 5]).1
      = .error (.invalid_argument "I need (0, 1) elements but got 1.") ∧
    (set_field_all fresh "lbu" [.fin 5]).2.cached_bounds.lbu = [[.fin 5], [.fin 5], []] ∧
    fresh.cached_bounds.lbu = [[.ninf], [.ninf], []] :=
  ⟨create_eq _ 2 _ _ _ _ _ _ (by decide) (by decide) (by decide) (by decide),
    by decide!, by decide!, by decide!⟩

theorem core_eq_x_indices (s t : ocp_qp) (h : core_eq s t) (i : Nat) :
    x_indices t i = x_indices s i ∧ u_indices t i = u_indices s i := by
  obtain ⟨h1, h2, h3, _⟩ := h
  unfold x_indices u_indices bounds_indices idxb_cells
  rw [h1, h2, h3]
  exact ⟨rfl, rfl⟩

theorem core_eq_shape_ok (s t : ocp_qp) (h : core_eq s t) (hs : shape_ok s) : shape_ok t := by
  obtain ⟨h1, h2, _, h4⟩ := h
  unfold shape_ok
  rw [h1, h2, h4]
  exact hs

theorem core_eq_idx_wf (s t : ocp_qp) (h : core_eq s t) (hs : idx_wf s) : idx_wf t := by
  intro i hi
  obtain ⟨e1, e2⟩ := core_eq_x_indices s t h i
  obtain ⟨h1, h2, _, _⟩ := h
  rw [e1, e2, h2]
  exact hs i (by rw [← h1]; exact hi)

theorem idx_wf_le (s : ocp_qp) (h : idx_wf s) :
    ∀ j, j < s.N + 1 → dim_at s.qp.dim.nbx j ≤ (x_indices s j).length ∧
      dim_at s.qp.dim.nbu j ≤ (u_indices s j).length := by
  intro j hj
  obtain ⟨_, _, h3, _, _, h6⟩ := h j hj
  omega

theorem idx_wf_lt (s : ocp_qp) (h : idx_wf s) : idx_lt s :=
  fun i hi => ⟨(h i hi).2.1, (h i hi).2.2.2.2.1⟩

theorem idx_wf_idx_ok (s : ocp_qp) (h : idx_wf s) : idx_ok s :=
  fun i hi => ⟨(h i hi).2.2.1, (h i hi).2.2.2.2.2⟩

theorem squeezed_idx_wf (s : ocp_qp) (hs : shape_ok s) : idx_wf (squeezed s) := by
  intro i hi
  have hi2 : i < s.N + 1 := hi
  obtain ⟨hx, hu⟩ := squeezed_indices s hs i hi2
  obtain ⟨c1, c2, _, _⟩ := squeezed_canon s i hi2
  rw [hx, hu]
  exact ⟨active_positions_sorted _ _, sq_x_lt s hs i hi2, c1.symm,
    active_positions_sorted _ _, sq_u_lt s hs i hi2, c2.symm⟩

theorem expanded_idx_wf (s : ocp_qp) : idx_wf (expanded s) := by
  intro i hi
  have hi2 : i < s.N + 1 := hi
  obtain ⟨hx, hu⟩ := expanded_indices s i hi2
  obtain ⟨c1, c2, _, _⟩ := expanded_canon s i hi2
  rw [hx, hu]
  exact ⟨List.sorted_lt_range _, fun k hk => List.mem_range.mp hk, c1.symm,
    List.sorted_lt_range _, fun k hk => List.mem_range.mp hk, c2.symm⟩

theorem set_field_unknown (s : ocp_qp) (f : String) (hf : ¬ is_field f) (i : Nat)
    (v : List Double) : (set_field s f i v).2 = s := by
  by_cases hr : in_range s f i = true
  · have hA : ¬ (f = "A" ∨ f = "B" ∨ f = "b") := by
      intro h
      apply hf
      left
      unfold is_data_field
      rcases h with h | h | h <;> simp [h]
    have hi : i ≤ s.N := by
      unfold in_range at hr
      rw [if_neg hA] at hr
      simpa using hr
    unfold set_field
    rw [hr, shape_of_field_unknown s f hf i hi]
    simp
  · have hr2 : in_range s f i = false := by simpa using hr
    rw [set_field_out_of_range s f i v hr2]

theorem set_field_inv (s : ocp_qp) (hs : shape_ok s) (hw : idx_wf s) (f : String) (i : Nat)
    (v : List Double) : shape_ok (set_field s f i v).2 ∧ idx_wf (set_field s f i v).2 := by
  by_cases hf : is_field f
  · by_cases hr : in_range s f i = true
    · obtain ⟨sh, hsh⟩ := shape_of_field_ok s f hf i hr
      by_cases hv : sh.1 * sh.2 = v.length
      · rcases hf with hd | hb
        · rw [set_field_data s f hd i v sh hsh hv]
          have hc : core_eq s ({ s with qp := d_cvt_colmaj_to_ocp_qp f i v s.qp } : ocp_qp) :=
            ⟨rfl, rfl, rfl, rfl⟩
          exact ⟨core_eq_shape_ok _ _ hc hs, core_eq_idx_wf _ _ hc hw⟩
        · have hi := in_range_bound_lt s f hb i hr
          have hv2 : v.length = class_dim s f i := by
            rw [shape_of_field_bound s f i hi hb] at hsh
            cases hsh
            unfold class_dim
            simpa using hv.symm
          rw [set_field_bound s hs f hb i hi v hv2 (idx_wf_le s hw)]
          have hwb := with_bound_shape_ok s hs f hb i hi v hv2
          by_cases hc : class_indices s f i ≠ class_sq (with_bound s f i v) f i
          · rw [if_pos hc]
            exact ⟨expanded_shape_ok _ hwb, expanded_idx_wf _⟩
          · rw [if_neg hc]
            exact ⟨hwb, fun j hj => hw j hj⟩
      · rw [set_field_shape_mismatch s f i v sh hsh hv]
        exact ⟨hs, hw⟩
    · have hr2 : in_range s f i = false := by simpa using hr
      rw [set_field_out_of_range s f i v hr2]
      exact ⟨hs, hw⟩
  · rw [set_field_unknown s f hf i v]
    exact ⟨hs, hw⟩

theorem for_each_preserves {α : Type} (P : ocp_qp → Prop) (l : List α)
    (body : α → ocp_qp → Outcome Unit) (hb : ∀ a t, P t → P (body a t).2) (s : ocp_qp)
    (hs : P s) : P (for_each l body s).2 := by
  induction l generalizing s with
  | nil => exact hs
  | cons a rest ih =>
    unfold for_each
    have h1 := hb a s hs
    cases hr : body a s with
    | mk r t =>
      rw [hr] at h1
      cases r with
      | error e => exact h1
      | ok u => exact ih t h1

theorem set_field_all_inv (s : ocp_qp) (hs : shape_ok s) (hw : idx_wf s) (f : String)
    (v : List Double) : shape_ok (set_field_all s f v).2 ∧ idx_wf (set_field_all s f v).2 := by
  unfold set_field_all
  exact for_each_preserves (fun t => shape_ok t ∧ idx_wf t) _ _
    (fun a t ht => set_field_inv t ht.1 ht.2 f a v) s ⟨hs, hw⟩

theorem initialize_solver_inv (recognised : String → String → Bool) (s : ocp_qp)
    (hs : shape_ok s) (hw : idx_wf s) (solver_name : String) (options : options_t) :
    shape_ok (initialize_solver recognised s solver_name options).2 ∧
    idx_wf (initialize_solver recognised s solver_name options).2 := by
  unfold initialize_solver
  cases hl : s.available_solvers.lookup solver_name with
  | none => exact ⟨hs, hw⟩
  | some plan =>
    simp only []
    rw [squeeze_dimensions_eq s hs]
    simp only []
    have hq := squeezed_shape_ok s hs
    have hqw := squeezed_idx_wf s hs
    cases process_options recognised solver_name options
        { dim := (squeezed s).qp.dim, applied := [] } with
    | error e =>
      exact ⟨core_eq_shape_ok (squeezed s) _ ⟨rfl, rfl, rfl, rfl⟩ hq,
        core_eq_idx_wf (squeezed s) _ ⟨rfl, rfl, rfl, rfl⟩ hqw⟩
    | ok a =>
      exact ⟨core_eq_shape_ok (squeezed s) _ ⟨rfl, rfl, rfl, rfl⟩ hq,
        core_eq_idx_wf (squeezed s) _ ⟨rfl, rfl, rfl, rfl⟩ hqw⟩

theorem solve_inv (backend : ocp_qp → Int × ocp_qp_out) (s : ocp_qp)
    (hs : shape_ok s) (hw : idx_wf s) :
    shape_ok (solve backend s).2 ∧ idx_wf (solve backend s).2 := by
  cases hn : s.needs_initializing with
  | true =>
    unfold solve
    rw [if_pos hn]
    exact ⟨hs, hw⟩
  | false =>
    rw [solve_eq backend s hs (idx_wf_lt s hw) hn]
    exact ⟨core_eq_shape_ok s _ ⟨rfl, rfl, rfl, rfl⟩ hs,
      core_eq_idx_wf s _ ⟨rfl, rfl, rfl, rfl⟩ hw⟩

theorem reachable_inv (s0 s : ocp_qp) (h0 : shape_ok s0 ∧ idx_wf s0) (h : reachable s0 s) :
    shape_ok s ∧ idx_wf s := by
  induction h with
  | init => exact h0
  | set_field s f i v _ ih => exact set_field_inv s ih.1 ih.2 f i v
  | set_field_all s f v _ ih => exact set_field_all_inv s ih.1 ih.2 f v
  | squeeze_dimensions s _ ih =>
    rw [squeeze_dimensions_eq s ih.1]
    exact ⟨squeezed_shape_ok s ih.1, squeezed_idx_wf s ih.1⟩
  | expand_dimensions s _ ih =>
    rw [expand_dimensions_eq s (idx_wf_le s ih.2)]
    exact ⟨expanded_shape_ok s ih.1, expanded_idx_wf s⟩
  | initialize_solver s recognised solver_name options _ ih =>
    exact initialize_solver_inv recognised s ih.1 ih.2 solver_name options
  | solve s backend _ ih => exact solve_inv backend s ih.1 ih.2

theorem dim_at_zero_back (v : List Nat) (N : Nat) (h : v.length = N + 1) (i : Nat) :
    dim_at (zero_back v) i = if i = N then 0 else dim_at v i := by
  rw [zero_back_eq_set v N h]
  unfold dim_at
  by_cases hi : i = N
  · subst hi
    rw [if_pos rfl, List.getD_eq_getElem _ _ (by simp [h])]
    simp
  · rw [if_neg hi]
    simp [List.getD_eq_getElem?_getD, List.getElem?_set, Ne.symm hi]

theorem dim_at_zipWith_add (a b : List Nat) (n i : Nat) (ha : a.length = n) (hb : b.length = n)
    (hi : i < n) : dim_at (List.zipWith (fun x y => x + y) a b) i = dim_at a i + dim_at b i := by
  unfold dim_at
  rw [List.getD_eq_getElem _ _ (by simp [ha, hb, hi]), List.getD_eq_getElem _ _ (by omega),
    List.getD_eq_getElem _ _ (by omega)]
  simp

theorem constructed_canon (b : build_flags) (N : Nat) (nx0 nu0 nbx0 nbu0 ng0 ns0 : List Nat)
    (hnbx : nbx0.length = N + 1) (hnbu : nbu0.length = N + 1) (i : Nat) (hi : i < N + 1) :
    stage_canon (constructed b N nx0 nu0 nbx0 nbu0 ng0 ns0) i
      (List.range (dim_at nbx0 i)) (List.range (dim_at (zero_back nbu0) i)) := by
  have hzb : (zero_back nbu0).length = N + 1 := (zero_back_length nbu0).trans hnbu
  have e3 : dim_at (constructed b N nx0 nu0 nbx0 nbu0 ng0 ns0).qp.dim.nb i
      = dim_at (zero_back nbu0) i + dim_at nbx0 i :=
    dim_at_zipWith_add _ _ (N + 1) i hzb hnbx hi
  refine ⟨by simp [constructed, create_ocp_qp_dimensions_ptr],
    by simp [constructed, create_ocp_qp_dimensions_ptr], by simpa using e3, ?_⟩
  unfold idxb_cells
  rw [e3]
  have e4 : (constructed b N nx0 nu0 nbx0 nbu0 ng0 ns0).qp.idxb i =
      installed (List.range (dim_at (zero_back nbu0) i)).length (dim_at (zero_back nu0) i)
        (List.range (dim_at nbx0 i)) (List.range (dim_at (zero_back nbu0) i)) (fun _ => 0) := by
    show constructed_F N (zero_back nu0) nbx0 (zero_back nbu0) i = _
    unfold constructed_F
    rw [if_pos hi, List.length_range]
  have e5 := range_map_installed (dim_at (zero_back nu0) i) (List.range (dim_at nbx0 i))
    (List.range (dim_at (zero_back nbu0) i)) (fun _ => 0)
  simp only [List.length_range] at e5 e4
  show List.map ((constructed b N nx0 nu0 nbx0 nbu0 ng0 ns0).qp.idxb i) _ = _
  rw [e4]
  exact e5

theorem constructed_idx_wf (b : build_flags) (N : Nat) (nx0 nu0 nbx0 nbu0 ng0 ns0 : List Nat)
    (hnu : nu0.length = N + 1) (hnbx : nbx0.length = N + 1) (hnbu : nbu0.length = N + 1)
    (hle : ∀ i, i < N + 1 → dim_at nbx0 i ≤ dim_at nx0 i ∧ dim_at nbu0 i ≤ dim_at nu0 i) :
    idx_wf (constructed b N nx0 nu0 nbx0 nbu0 ng0 ns0) := by
  intro i hi
  have hi2 : i < N + 1 := hi
  have hc := constructed_canon b N nx0 nu0 nbx0 nbu0 ng0 ns0 hnbx hnbu i hi2
  have hnu_le : dim_at (zero_back nbu0) i ≤ dim_at (zero_back nu0) i := by
    rw [dim_at_zero_back nbu0 N hnbu, dim_at_zero_back nu0 N hnu]
    by_cases hN : i = N
    · rw [if_pos hN, if_pos hN]
    · rw [if_neg hN, if_neg hN]
      exact (hle i hi2).2
  have hU : ∀ u ∈ List.range (dim_at (zero_back nbu0) i),
      u < dim_at (constructed b N nx0 nu0 nbx0 nbu0 ng0 ns0).qp.dim.nu i := by
    intro u hu
    have : u < dim_at (zero_back nbu0) i := List.mem_range.mp hu
    show u < dim_at (zero_back nu0) i
    omega
  obtain ⟨hx, hu⟩ := stage_canon_indices _ i _ _ hi hc hU
  obtain ⟨c1, c2, _, _⟩ := hc
  rw [hx, hu]
  refine ⟨List.sorted_lt_range _, ?_, c1.symm, List.sorted_lt_range _, ?_, c2.symm⟩
  · intro k hk
    have : k < dim_at nbx0 i := List.mem_range.mp hk
    have := (hle i hi2).1
    show k < dim_at nx0 i
    omega
  · intro k hk
    have : k < dim_at (zero_back nbu0) i := List.mem_range.mp hk
    show k < dim_at (zero_back nu0) i
    omega

/-- Claim C16. For an object constructed with `nbx[i] <= nx[i]` and
`nbu[i] <= nu[i]` at every stage, in every object reachable from it through
`set_field` (both overloads), `squeeze_dimensions`, `expand_dimensions`,
`initialize_solver` and `solve`, with any arguments and whether or not a call
throws, each stage's state index set is strictly increasing, has all entries
`< nx[i]` and has exactly `nbx[i]` entries, and each stage's control index set is
strictly increasing, has all entries `< nu[i]` and has exactly `nbu[i]` entries. -/
theorem index_sets_well_formed (b : build_flags) (N : Nat)
    (nx0 nu0 nbx0 nbu0 ng0 ns0 : List Nat) (hN : N + 1 < UINT_MOD)
    (hnx : nx0.length = N + 1) (hnu : nu0.length = N + 1) (hnbx : nbx0.length = N + 1)
    (hnbu : nbu0.length = N + 1) (hng : ng0.length = N + 1)
    (hle : ∀ i, i < N + 1 → dim_at nbx0 i ≤ dim_at nx0 i ∧ dim_at nbu0 i ≤ dim_at nu0 i) :
    ∃ s0, ocp_qp.create b nx0 nu0 nbx0 nbu0 ng0 ns0 = .ok s0 ∧
      ∀ s, reachable s0 s →
        ∀ i, i < s.N + 1 →
          (x_indices s i).Sorted (· < ·) ∧ (∀ k ∈ x_indices s i, k < (nx s).getD i 0) ∧
          (x_indices s i).length = (nbx s).getD i 0 ∧
          (u_indices s i).Sorted (· < ·) ∧ (∀ k ∈ u_indices s i, k < (nu s).getD i 0) ∧
          (u_indices s i).length = (nbu s).getD i 0 := by
  refine ⟨constructed b N nx0 nu0 nbx0 nbu0 ng0 ns0,
    create_eq b N nx0 nu0 nbx0 nbu0 ng0 ns0 hN hnx hnbx hnbu, ?_⟩
  intro s hr i hi
  have h0 : shape_ok (constructed b N nx0 nu0 nbx0 nbu0 ng0 ns0) ∧
      idx_wf (constructed b N nx0 nu0 nbx0 nbu0 ng0 ns0) :=
    ⟨constructed_shape_ok b N nx0 nu0 nbx0 nbu0 ng0 ns0 hN hnx hnu hnbx hnbu hng,
      constructed_idx_wf b N nx0 nu0 nbx0 nbu0 ng0 ns0 hnu hnbx hnbu hle⟩
  obtain ⟨_, hw⟩ := reachable_inv _ s h0 hr
  have e1 : (nx s).getD i 0 = dim_at s.qp.dim.nx i := by
    unfold nx; rw [getD_map_range _ _ _ _ hi]
  have e2 : (nu s).getD i 0 = dim_at s.qp.dim.nu i := by
    unfold nu; rw [getD_map_range _ _ _ _ hi]
  have e3 : (nbx s).getD i 0 = dim_at s.qp.dim.nbx i := by
    unfold nbx; rw [getD_map_range _ _ _ _ hi]
  have e4 : (nbu s).getD i 0 = dim_at s.qp.dim.nbu i := by
    unfold nbu; rw [getD_map_range _ _ _ _ hi]
  rw [e1, e2, e3, e4]
  exact hw i hi

theorem index_sets_well_formed_witness :
    2 + 1 < UINT_MOD ∧ [2, 2, 2].length = 2 + 1 ∧ [1, 1, 0].length = 2 + 1 ∧
    [1, 2, 0].length = 2 + 1 ∧ [1, 0, 0].length = 2 + 1 ∧ [0, 0, 0].length = 2 + 1 ∧
    (∀ i, i < 2 + 1 → dim_at [1, 2, 0] i ≤ dim_at [2, 2, 2] i ∧
      dim_at [1, 0, 0] i ≤ dim_at [1, 1, 0] i) ∧
    ∃ s0, ocp_qp.create ⟨false, false, false, false, false⟩
        [2, 2, 2] [1, 1, 0] [1, 2, 0] [1, 0, 0] [0, 0, 0] [] = .ok s0 ∧
      ∀ s, reachable s0 s →
        ∀ i, i < s.N + 1 →
          (x_indices s i).Sorted (· < ·) ∧ (∀ k ∈ x_indices s i, k < (nx s).getD i 0) ∧
          (x_indices s i).length = (nbx s).getD i 0 ∧
          (u_indices s i).Sorted (· < ·) ∧ (∀ k ∈ u_indices s i, k < (nu s).getD i 0) ∧
          (u_indices s i).length = (nbu s).getD i 0 :=
  ⟨by decide, by decide, by decide, by decide, by decide, by decide, by decide,
    index_sets_well_formed ⟨false, false, false, false, false⟩ 2
      [2, 2, 2] [1, 1, 0] [1, 2, 0] [1, 0, 0] [0, 0, 0] [] (by decide) (by decide) (by decide)
      (by decide) (by decide) (by decide) (by decide)⟩

theorem squeezed_excludes_infinite (s : ocp_qp) (hs : shape_ok s) :
    excludes_infinite (squeezed s) := by
  intro i hi k
  have hi2 : i < s.N + 1 := hi
  obtain ⟨hx, hu⟩ := squeezed_indices s hs i hi2
  rw [hx, hu]
  constructor
  · intro h1 h2 hmem
    have := (mem_active_positions _ _ k).mp hmem
    rcases this.2 with h | h
    · exact h h1
    · exact h h2
  · intro h1 h2 hmem
    have := (mem_active_positions _ _ k).mp hmem
    rcases this.2 with h | h
    · exact h h1
    · exact h h2

theorem core_eq_excludes_infinite (s t : ocp_qp) (h : core_eq s t) (hs : excludes_infinite s) :
    excludes_infinite t := by
  intro i hi k
  obtain ⟨e1, e2⟩ := core_eq_x_indices s t h i
  obtain ⟨h1, _, _, h4⟩ := h
  rw [e1, e2, h4]
  exact hs i (by rw [← h1]; exact hi) k

theorem initialize_solver_ok_core (recognised : String → String → Bool) (s : ocp_qp)
    (hs : shape_ok s) (solver_name : String) (options : options_t) (s1 : ocp_qp)
    (h : initialize_solver recognised s solver_name options = (.ok (), s1)) :
    core_eq (squeezed s) s1 ∧ s1.needs_initializing = false ∧ s1.cached_solver = solver_name := by
  unfold initialize_solver at h
  cases hl : s.available_solvers.lookup solver_name with
  | none =>
    rw [hl] at h
    simp only [] at h
    cases h
  | some plan =>
    rw [hl] at h
    simp only [] at h
    rw [squeeze_dimensions_eq s hs] at h
    simp only [] at h
    cases hp : process_options recognised solver_name options
        { dim := (squeezed s).qp.dim, applied := [] } with
    | error e =>
      rw [hp] at h
      simp only [] at h
      cases h
    | ok a =>
      rw [hp] at h
      simp only [] at h
      have := congrArg Prod.snd h
      simp only [] at this
      subst this
      exact ⟨⟨rfl, rfl, rfl, rfl⟩, rfl, rfl⟩

/-- Claim C15, as stated, fails: the freshly constructed object `fresh` (reachable
through the constructor alone) has all cached bounds infinite, yet position 0 is a
member of the state index set of stage 0; the same holds after `expand_dimensions`. -/
theorem infinite_bound_in_index_set :
    ocp_qp.create ⟨false, false, false, false, false⟩
      [2, 2, 2] [1, 1, 0] [2, 2, 2] [1, 1, 0] [0, 0, 0] [0, 0, 0] = .ok fresh ∧
    reachable fresh fresh ∧ reachable fresh (expand_dimensions fresh).2 ∧
    (fresh.cached_bounds.lbx.getD 0 []).getD 0 Double.nan = Double.ninf ∧
    (fresh.cached_bounds.ubx.getD 0 []).getD 0 Double.nan = Double.pinf ∧
    0 ∈ x_indices fresh 0 ∧
    ((expand_dimensions fresh).2.cached_bounds.lbx.getD 0 []).getD 0 Double.nan
      = Double.ninf ∧
    ((expand_dimensions fresh).2.cached_bounds.ubx.getD 0 []).getD 0 Double.nan
      = Double.pinf ∧
    0 ∈ x_indices (expand_dimensions fresh).2 0 :=
  ⟨create_eq _ 2 _ _ _ _ _ _ (by decide) (by decide) (by decide) (by decide),
    reachable.init, reachable.expand_dimensions fresh reachable.init,
    by decide, by decide, by decide!, by decide!, by decide!, by decide!⟩

/-- Claim C15, amended. After `squeeze_dimensions`, and after a successful
`initialize_solver` (which squeezes), for every stage and variable class a position
whose cached lower bound is `-INFINITY` and whose cached upper bound is `+INFINITY`
is not a member of that stage's index set. -/
theorem squeeze_excludes_infinite_bounds (s : ocp_qp) (hs : shape_ok s) :
    (∃ s1, squeeze_dimensions s = (.ok (), s1) ∧ excludes_infinite s1) ∧
    (∀ (recognised : String → String → Bool) (solver_name : String) (options : options_t)
      (s1 : ocp_qp), initialize_solver recognised s solver_name options = (.ok (), s1) →
      excludes_infinite s1) := by
  constructor
  · exact ⟨squeezed s, squeeze_dimensions_eq s hs, squeezed_excludes_infinite s hs⟩
  · intro recognised solver_name options s1 h
    exact core_eq_excludes_infinite _ _
      (initialize_solver_ok_core recognised s hs solver_name options s1 h).1
      (squeezed_excludes_infinite s hs)

theorem squeeze_excludes_infinite_bounds_witness :
    shape_ok fresh ∧
    (∃ s1, squeeze_dimensions fresh = (.ok (), s1) ∧ excludes_infinite s1) ∧
    initialize_solver (fun _ _ => true) fresh "condensing_hpipm" []
      = (.ok (), (initialize_solver (fun _ _ => true) fresh "condensing_hpipm" []).2) ∧
    excludes_infinite (initialize_solver (fun _ _ => true) fresh "condensing_hpipm" []).2 := by
  have hs : shape_ok fresh := constructed_shape_ok _ 2 _ _ _ _ _ _ (by decide) (by decide)
    (by decide) (by decide) (by decide) (by decide)
  have hi : initialize_solver (fun _ _ => true) fresh "condensing_hpipm" []
      = (.ok (), (initialize_solver (fun _ _ => true) fresh "condensing_hpipm" []).2) := by
    rw [initialize_solver_eq (fun _ _ => true) fresh hs "condensing_hpipm" []
      ⟨.FULL_CONDENSING_HPIPM⟩ (by decide) (by decide)]
  exact ⟨hs, (squeeze_excludes_infinite_bounds fresh hs).1, hi,
    (squeeze_excludes_infinite_bounds fresh hs).2 _ _ _ _ hi⟩

theorem expand_dimensions_of_collect (s : ocp_qp) (rx ru : List (List Double × List Double))
    (hrx : expand_collect s "x" = .ok rx) (hru : expand_collect s "u" = .ok ru) :
    expand_dimensions s = (.ok (), expanded s) := by
  unfold expand_dimensions
  rw [hrx, hru]
  simp only []
  rw [for_each_idxb _ _ (fun i c => installed (dim_at s.qp.dim.nu i) (dim_at s.qp.dim.nu i)
    (List.range (dim_at s.qp.dim.nx i)) (List.range (dim_at s.qp.dim.nu i)) c)]
  · simp only [with_idxb, expanded, rebound]
    congr 3
    funext i
    rw [install_all_apply _ _ (List.nodup_range _)]
    unfold expanded_F
    by_cases hi : i < s.N + 1
    · have hm : i ∈ List.range (s.N + 1) := List.mem_range.mpr hi
      rw [if_pos hm, if_pos hi]
      rfl
    · have hm : i ∉ List.range (s.N + 1) := fun hm => hi (List.mem_range.mp hm)
      rw [if_neg hm, if_neg hi]
      rfl
  · intro i hi F
    rw [List.mem_range] at hi
    have hi2 : i < s.N + 1 := hi
    rw [set_iota_indices_eq _ _ i _ (dim_at s.qp.dim.nx i) (dim_at s.qp.dim.nu i)]
    · simp only [with_idxb]
      rw [d_change_nbu _ _ _ _ i hi2]
      rfl
    · exact vec_at_dimensions_nx _ i hi2
    · intro G
      exact vec_at_dimensions_nu _ i hi2
    · show dim_at (d_change_bounds_dimensions_ocp_qp s.N _ _ s.qp).dim.nbx i = _
      rw [d_change_nbx _ _ _ _ i hi2]
    · show dim_at (d_change_bounds_dimensions_ocp_qp s.N _ _ s.qp).dim.nbu i = _
      rw [d_change_nbu _ _ _ _ i hi2]

/-- Whatever the object, `expand_dimensions` either succeeds and leaves the expanded
object, or throws (while rebuilding its local dense vectors) and leaves the object
as it was. -/
theorem expand_dimensions_cases (s : ocp_qp) :
    expand_dimensions s = (.ok (), expanded s) ∨
    ∃ e, expand_dimensions s = (.error e, s) := by
  cases hrx : expand_collect s "x" with
  | error e =>
    right
    exact ⟨e, by unfold expand_dimensions; rw [hrx]⟩
  | ok rx =>
    cases hru : expand_collect s "u" with
    | error e =>
      right
      exact ⟨e, by unfold expand_dimensions; rw [hrx, hru]⟩
    | ok ru => exact Or.inl (expand_dimensions_of_collect s rx ru hrx hru)

/-- Whatever the object and the arguments, the bound branch of `set_field` leaves
the object as it was, or with only the cached bound replaced, or expanded after
that replacement. -/
theorem set_bound_cases (s : ocp_qp) (f : String) (i : Nat) (v : List Double) :
    (set_bound s f i v).2 = s ∨ (set_bound s f i v).2 = with_bound s f i v ∨
    (set_bound s f i v).2 = expanded (with_bound s f i v) := by
  cases hat : s.cached_bounds.at f with
  | error e =>
    left
    unfold set_bound
    rw [hat]
  | ok w =>
    have hw : cached s f = w := by unfold cached; rw [hat]
    by_cases hlt : i < w.length
    · right
      have e1 : ({ s with cached_bounds := s.cached_bounds.put f (w.set i v) } : ocp_qp)
          = with_bound s f i v := by unfold with_bound; rw [hw]
      unfold set_bound
      rw [hat]
      simp only []
      rw [if_pos hlt, e1]
      have key : ∀ (r : Except Err Unit) (t : ocp_qp),
          expand_dimensions (with_bound s f i v) = (r, t) →
          (t = with_bound s f i v ∧ (∃ e, r = .error e)) ∨
          (t = expanded (with_bound s f i v) ∧ r = .ok ()) := by
        intro r t h
        rcases expand_dimensions_cases (with_bound s f i v) with he | ⟨e, he⟩
        · rw [he] at h
          cases h
          exact Or.inr ⟨rfl, rfl⟩
        · rw [he] at h
          cases h
          exact Or.inl ⟨rfl, e, rfl⟩
      repeat' split
      all_goals first
        | exact Or.inl rfl
        | (rename_i hx
           rcases key _ _ hx with ⟨h1, h2⟩ | ⟨h1, h2⟩
           · first
               | exact Or.inl h1
               | (obtain ⟨e, h2⟩ := h2; cases h2)
           · subst h1
             exact Or.inr rfl)
    · left
      unfold set_bound
      rw [hat]
      simp only []
      rw [if_neg hlt]

/-- Whatever the object and the arguments, `set_field(field, stage, v)` leaves the
object as it was, or (data field) with only the QP data replaced, or (bound field,
valid stage, right length) with the cached bound replaced and possibly expanded. -/
theorem set_field_cases (s : ocp_qp) (f : String) (i : Nat) (v : List Double) :
    (set_field s f i v).2 = s ∨
    (set_field s f i v).2 = { s with qp := d_cvt_colmaj_to_ocp_qp f i v s.qp } ∨
    (is_bound_field f ∧ i < s.N + 1 ∧ v.length = class_dim s f i ∧
      ((set_field s f i v).2 = with_bound s f i v ∨
        (set_field s f i v).2 = expanded (with_bound s f i v))) := by
  by_cases hf : is_field f
  · by_cases hr : in_range s f i = true
    · obtain ⟨sh, hsh⟩ := shape_of_field_ok s f hf i hr
      by_cases hv : sh.1 * sh.2 = v.length
      · rcases hf with hd | hb
        · rw [set_field_data s f hd i v sh hsh hv]
          exact Or.inr (Or.inl rfl)
        · have hi := in_range_bound_lt s f hb i hr
          have hv2 : v.length = class_dim s f i := by
            rw [shape_of_field_bound s f i hi hb] at hsh
            cases hsh
            unfold class_dim
            simpa using hv.symm
          have e : set_field s f i v = set_bound s f i v := by
            unfold set_field
            rw [hr, hsh]
            have hm : match_shape sh v.length = true := by simp [match_shape, hv]
            unfold is_bound_field at hb
            simp only [hm, Bool.not_eq_true, Bool.true_eq_false, not_false_eq_true, if_false,
              if_pos hb, not_true_eq_false]
          rw [e]
          rcases set_bound_cases s f i v with h | h | h
          · exact Or.inl h
          · exact Or.inr (Or.inr ⟨hb, hi, hv2, Or.inl h⟩)
          · exact Or.inr (Or.inr ⟨hb, hi, hv2, Or.inr h⟩)
      · rw [set_field_shape_mismatch s f i v sh hsh hv]
        exact Or.inl rfl
    · have hr2 : in_range s f i = false := by simpa using hr
      rw [set_field_out_of_range s f i v hr2]
      exact Or.inl rfl
  · exact Or.inl (set_field_unknown s f hf i v)

theorem core_eq_squeezed_form (s t : ocp_qp) (h : core_eq s t) (hs : squeezed_form s) :
    squeezed_form t := by
  intro i hi
  obtain ⟨e1, e2⟩ := core_eq_x_indices s t h i
  obtain ⟨h1, h2, _, h4⟩ := h
  have e3 : nbx t = nbx s := by unfold nbx; rw [h1, h2]
  have e4 : nbu t = nbu s := by unfold nbu; rw [h1, h2]
  rw [e1, e2, h4, e3, e4]
  exact hs i (by rw [← h1]; exact hi)

theorem squeezed_form_indices (s : ocp_qp) (hs : shape_ok s) (h : squeezed_form s) (i : Nat)
    (hi : i < s.N + 1) : x_indices s i = sq_x s i ∧ u_indices s i = sq_u s i := by
  obtain ⟨h1, h2, _, _⟩ := h i hi
  rw [idxb_cached_x s hs i hi] at h1
  rw [idxb_cached_u s hs i hi] at h2
  exact ⟨(Except.ok.inj h1).symm, (Except.ok.inj h2).symm⟩

theorem squeezed_form_idx_ok (s : ocp_qp) (h : squeezed_form s) : idx_ok s := by
  intro i hi
  obtain ⟨_, _, h3, h4⟩ := h i hi
  unfold nbx at h3
  unfold nbu at h4
  rw [getD_map_range _ _ _ _ hi] at h3 h4
  exact ⟨h3.symm, h4.symm⟩

theorem squeezed_form_idx_lt (s : ocp_qp) (hs : shape_ok s) (h : squeezed_form s) :
    idx_lt s := by
  intro i hi
  obtain ⟨e1, e2⟩ := squeezed_form_indices s hs h i hi
  rw [e1, e2]
  exact ⟨sq_x_lt s hs i hi, sq_u_lt s hs i hi⟩

theorem sq_x_with_bound (s : ocp_qp) (hs : shape_ok s) (f : String) (hf : is_bound_field f)
    (i : Nat) (hi : i < s.N + 1) (v : List Double) (j : Nat)
    (h : (f = "lbx" ∨ f = "ubx") → j ≠ i) : sq_x (with_bound s f i v) j = sq_x s j := by
  obtain ⟨_, _, _, _, _, _, _, h7, h8, _, _, _⟩ := hs
  unfold is_bound_field at hf
  rcases hf with rfl | rfl | rfl | rfl
  · show active_positions ((s.cached_bounds.lbx.set i v).getD j []) _ = _
    rw [getD_set_list _ _ _ _ (by omega), if_neg (h (Or.inl rfl))]
    rfl
  · show active_positions _ ((s.cached_bounds.ubx.set i v).getD j []) = _
    rw [getD_set_list _ _ _ _ (by omega), if_neg (h (Or.inr rfl))]
    rfl
  · rfl
  · rfl

theorem sq_u_with_bound (s : ocp_qp) (hs : shape_ok s) (f : String) (hf : is_bound_field f)
    (i : Nat) (hi : i < s.N + 1) (v : List Double) (j : Nat)
    (h : (f = "lbu" ∨ f = "ubu") → j ≠ i) : sq_u (with_bound s f i v) j = sq_u s j := by
  obtain ⟨_, _, _, _, _, _, _, _, _, h9, h10, _⟩ := hs
  unfold is_bound_field at hf
  rcases hf with rfl | rfl | rfl | rfl
  · rfl
  · rfl
  · show active_positions ((s.cached_bounds.lbu.set i v).getD j []) _ = _
    rw [getD_set_list _ _ _ _ (by omega), if_neg (h (Or.inl rfl))]
    rfl
  · show active_positions _ ((s.cached_bounds.ubu.set i v).getD j []) = _
    rw [getD_set_list _ _ _ _ (by omega), if_neg (h (Or.inr rfl))]
    rfl

/-- The branch of a bound `set_field` that does not expand keeps the squeezed form:
the touched stage and class has, by the branch condition, the index set of the new
cached pair, and every other stage and class keeps both its cache and its index
set. -/
theorem with_bound_squeezed_form (s : ocp_qp) (hs : shape_ok s) (hsq : squeezed_form s)
    (f : String) (hf : is_bound_field f) (i : Nat) (hi : i < s.N + 1) (v : List Double)
    (hv : v.length = class_dim s f i)
    (hc : class_indices s f i = class_sq (with_bound s f i v) f i) :
    squeezed_form (with_bound s f i v) := by
  have hwb := with_bound_shape_ok s hs f hf i hi v hv
  intro j hj
  have hj2 : j < s.N + 1 := hj
  obtain ⟨e1, e2⟩ := squeezed_form_indices s hs hsq j hj2
  obtain ⟨_, _, h3, h4⟩ := hsq j hj2
  rw [idxb_cached_x _ hwb j hj, idxb_cached_u _ hwb j hj]
  refine ⟨?_, ?_, h3, h4⟩
  · show Except.ok (sq_x (with_bound s f i v) j) = Except.ok (x_indices s j)
    congr 1
    by_cases hx : (f = "lbx" ∨ f = "ubx") ∧ j = i
    · obtain ⟨hx1, rfl⟩ := hx
      unfold class_indices class_sq at hc
      rw [if_pos hx1, if_pos hx1] at hc
      exact hc.symm
    · rw [sq_x_with_bound s hs f hf i hi v j (fun h1 h2 => hx ⟨h1, h2⟩)]
      exact e1.symm
  · show Except.ok (sq_u (with_bound s f i v) j) = Except.ok (u_indices s j)
    congr 1
    by_cases hx : (f = "lbu" ∨ f = "ubu") ∧ j = i
    · obtain ⟨hx1, rfl⟩ := hx
      have hnx : ¬ (f = "lbx" ∨ f = "ubx") := by
        rcases hx1 with rfl | rfl <;> decide
      unfold class_indices class_sq at hc
      rw [if_neg hnx, if_neg hnx] at hc
      exact hc.symm
    · rw [sq_u_with_bound s hs f hf i hi v j (fun h1 h2 => hx ⟨h1, h2⟩)]
      exact e2.symm

theorem set_field_ready_inv (s : ocp_qp) (h : ready_inv s) (f : String) (i : Nat)
    (v : List Double) : ready_inv (set_field s f i v).2 := by
  obtain ⟨hs, hr⟩ := h
  rcases set_field_cases s f i v with h | h | ⟨hb, hi, hv, h⟩
  · rw [h]
    exact ⟨hs, hr⟩
  · rw [h]
    have hc : core_eq s ({ s with qp := d_cvt_colmaj_to_ocp_qp f i v s.qp } : ocp_qp) :=
      ⟨rfl, rfl, rfl, rfl⟩
    exact ⟨core_eq_shape_ok _ _ hc hs, fun hn => core_eq_squeezed_form _ _ hc (hr hn)⟩
  · have hwb := with_bound_shape_ok s hs f hb i hi v hv
    cases hn : s.needs_initializing with
    | true =>
      rcases h with h | h
      · rw [h]
        refine ⟨hwb, fun hn2 => ?_⟩
        have : s.needs_initializing = false := hn2
        rw [hn] at this
        cases this
      · rw [h]
        refine ⟨expanded_shape_ok _ hwb, fun hn2 => ?_⟩
        have : true = false := hn2
        cases this
    | false =>
      have hsq := hr hn
      rw [set_field_bound s hs f hb i hi v hv (idx_ok_le s (squeezed_form_idx_ok s hsq))]
      by_cases hc : class_indices s f i ≠ class_sq (with_bound s f i v) f i
      · rw [if_pos hc]
        refine ⟨expanded_shape_ok _ hwb, fun hn2 => ?_⟩
        have : true = false := hn2
        cases this
      · rw [if_neg hc]
        exact ⟨hwb, fun _ =>
          with_bound_squeezed_form s hs hsq f hb i hi v hv (not_not.mp hc)⟩

theorem set_field_all_ready_inv (s : ocp_qp) (h : ready_inv s) (f : String)
    (v : List Double) : ready_inv (set_field_all s f v).2 := by
  unfold set_field_all
  exact for_each_preserves ready_inv _ _ (fun a t ht => set_field_ready_inv t ht f a v) s h

theorem squeeze_dimensions_ready_inv (s : ocp_qp) (h : ready_inv s) :
    ready_inv (squeeze_dimensions s).2 := by
  rw [squeeze_dimensions_eq s h.1]
  refine ⟨squeezed_shape_ok s h.1, fun hn2 => ?_⟩
  have : true = false := hn2
  cases this

theorem expand_dimensions_ready_inv (s : ocp_qp) (h : ready_inv s) :
    ready_inv (expand_dimensions s).2 := by
  rcases expand_dimensions_cases s with he | ⟨e, he⟩
  · rw [he]
    refine ⟨expanded_shape_ok s h.1, fun hn2 => ?_⟩
    have : true = false := hn2
    cases this
  · rw [he]
    exact h

theorem initialize_solver_ready_inv (recognised : String → String → Bool) (s : ocp_qp)
    (h : ready_inv s) (solver_name : String) (options : options_t) :
    ready_inv (initialize_solver recognised s solver_name options).2 := by
  have hs := h.1
  unfold initialize_solver
  cases hl : s.available_solvers.lookup solver_name with
  | none => exact h
  | some plan =>
    simp only []
    rw [squeeze_dimensions_eq s hs]
    simp only []
    have hq := squeezed_shape_ok s hs
    have hqf := squeezed_is_squeezed_form s hs
    cases process_options recognised solver_name options
        { dim := (squeezed s).qp.dim, applied := [] } with
    | error e =>
      refine ⟨core_eq_shape_ok (squeezed s) _ ⟨rfl, rfl, rfl, rfl⟩ hq, fun hn2 => ?_⟩
      have : true = false := hn2
      cases this
    | ok a =>
      exact ⟨core_eq_shape_ok (squeezed s) _ ⟨rfl, rfl, rfl, rfl⟩ hq,
        fun _ => core_eq_squeezed_form (squeezed s) _ ⟨rfl, rfl, rfl, rfl⟩ hqf⟩

theorem solve_ready_inv (backend : ocp_qp → Int × ocp_qp_out) (s : ocp_qp)
    (h : ready_inv s) : ready_inv (solve backend s).2 := by
  cases hn : s.needs_initializing with
  | true =>
    unfold solve
    rw [if_pos hn]
    exact h
  | false =>
    have hsq := h.2 hn
    rw [solve_eq backend s h.1 (squeezed_form_idx_lt s h.1 hsq) hn]
    exact ⟨core_eq_shape_ok s _ ⟨rfl, rfl, rfl, rfl⟩ h.1,
      fun _ => core_eq_squeezed_form s _ ⟨rfl, rfl, rfl, rfl⟩ hsq⟩

/-- The readiness invariant holds in every object reachable from one that
satisfies it. -/
theorem reachable_ready_inv (s0 s : ocp_qp) (h0 : ready_inv s0) (h : reachable s0 s) :
    ready_inv s := by
  induction h with
  | init => exact h0
  | set_field s f i v _ ih => exact set_field_ready_inv s ih f i v
  | set_field_all s f v _ ih => exact set_field_all_ready_inv s ih f v
  | squeeze_dimensions s _ ih => exact squeeze_dimensions_ready_inv s ih
  | expand_dimensions s _ ih => exact expand_dimensions_ready_inv s ih
  | initialize_solver s recognised solver_name options _ ih =>
    exact initialize_solver_ready_inv recognised s ih solver_name options
  | solve s backend _ ih => exact solve_ready_inv backend s ih

theorem constructed_ready_inv (b : build_flags) (N : Nat)
    (nx0 nu0 nbx0 nbu0 ng0 ns0 : List Nat) (hN : N + 1 < UINT_MOD)
    (hnx : nx0.length = N + 1) (hnu : nu0.length = N + 1) (hnbx : nbx0.length = N + 1)
    (hnbu : nbu0.length = N + 1) (hng : ng0.length = N + 1) :
    ready_inv (constructed b N nx0 nu0 nbx0 nbu0 ng0 ns0) := by
  refine ⟨constructed_shape_ok b N nx0 nu0 nbx0 nbu0 ng0 ns0 hN hnx hnu hnbx hnbu hng,
    fun hn2 => ?_⟩
  have : true = false := hn2
  cases this

/-- Claim C21. Ready implies squeezed: for an object constructed with one count per
stage, in every object reachable from it through `set_field` (both overloads),
`initialize_solver` (and also `squeeze_dimensions`, `expand_dimensions`, `solve`),
with any arguments and whether or not a call throws, whenever
`needs_initializing` is false, at every stage the state index set is
`idxb(cached lbx, cached ubx)`, the control index set is
`idxb(cached lbu, cached ubu)`, and `nbx`, `nbu` are their lengths. Hence in such
an object `fill_in_bounds` succeeds and keeps the cache, every `solve()` calls the
backend on the filled-in object, and in that object the index set of each stage and
class consists exactly of the positions that carry a non-infinite cached bound
(lower bound not `-INFINITY` or upper bound not `+INFINITY`), the bound vectors
sent being the cached values at these positions (infinite ones replaced by the
sentinel). -/
theorem ready_implies_squeezed (b : build_flags) (N : Nat)
    (nx0 nu0 nbx0 nbu0 ng0 ns0 : List Nat) (hN : N + 1 < UINT_MOD)
    (hnx : nx0.length = N + 1) (hnu : nu0.length = N + 1) (hnbx : nbx0.length = N + 1)
    (hnbu : nbu0.length = N + 1) (hng : ng0.length = N + 1) :
    ∃ s0, ocp_qp.create b nx0 nu0 nbx0 nbu0 ng0 ns0 = .ok s0 ∧
      ∀ s, reachable s0 s → s.needs_initializing = false →
        (∀ i, i < s.N + 1 →
          idxb (s.cached_bounds.lbx.getD i []) (s.cached_bounds.ubx.getD i [])
            = .ok (x_indices s i) ∧
          idxb (s.cached_bounds.lbu.getD i []) (s.cached_bounds.ubu.getD i [])
            = .ok (u_indices s i) ∧
          (nbx s).getD i 0 = (x_indices s i).length ∧
          (nbu s).getD i 0 = (u_indices s i).length) ∧
        ∃ s1, fill_in_bounds s = (.ok (), s1) ∧ s1.cached_bounds = s.cached_bounds ∧
          (∀ backend : ocp_qp → Int × ocp_qp_out,
            (solve backend s).2 = { s1 with backend_calls := s.backend_calls + 1 } ∧
            ((backend s1).1 = ACADOS_SUCCESS →
              (solve backend s).1 = .ok ⟨(backend s1).2⟩)) ∧
          ∀ i, i < s.N + 1 →
            (∀ k, k ∈ x_indices s1 i ↔ k < (nx s).getD i 0 ∧
              ((s.cached_bounds.lbx.getD i []).getD k Double.nan ≠ Double.ninf ∨
                (s.cached_bounds.ubx.getD i []).getD k Double.nan ≠ Double.pinf)) ∧
            (∀ k, k ∈ u_indices s1 i ↔ k < (nu s).getD i 0 ∧
              ((s.cached_bounds.lbu.getD i []).getD k Double.nan ≠ Double.ninf ∨
                (s.cached_bounds.ubu.getD i []).getD k Double.nan ≠ Double.pinf)) ∧
            ∀ f, is_bound_field f →
              s1.qp.data f i = (class_indices s1 f i).map
                (fun j => fill_value f (((cached s f).getD i []).getD j Double.nan)) := by
  refine ⟨constructed b N nx0 nu0 nbx0 nbu0 ng0 ns0,
    create_eq b N nx0 nu0 nbx0 nbu0 ng0 ns0 hN hnx hnbx hnbu, ?_⟩
  intro s hr hn
  obtain ⟨hs, hrd⟩ := reachable_ready_inv _ s
    (constructed_ready_inv b N nx0 nu0 nbx0 nbu0 ng0 ns0 hN hnx hnu hnbx hnbu hng) hr
  have hsq := hrd hn
  have hlt := squeezed_form_idx_lt s hs hsq
  refine ⟨hsq, with_data s (filled_data s), fill_in_bounds_eq s hs hlt, rfl, ?_, ?_⟩
  · intro backend
    rw [solve_eq backend s hs hlt hn]
    refine ⟨rfl, fun hc => ?_⟩
    have hc2 : ¬ ((backend (with_data s (filled_data s))).1 ≠ ACADOS_SUCCESS) :=
      not_not.mpr hc
    show (if (backend (with_data s (filled_data s))).1 ≠ ACADOS_SUCCESS then _ else _) = _
    rw [if_neg hc2]
  · intro i hi
    obtain ⟨e1, e2⟩ := squeezed_form_indices s hs hsq i hi
    obtain ⟨a1, _, a3, _⟩ := hs.2.2.2.2.2.2.2.2.2.2.2 i hi
    have n1 : (nx s).getD i 0 = dim_at s.qp.dim.nx i := by
      unfold nx; rw [getD_map_range _ _ _ _ hi]
    have n2 : (nu s).getD i 0 = dim_at s.qp.dim.nu i := by
      unfold nu; rw [getD_map_range _ _ _ _ hi]
    refine ⟨?_, ?_, ?_⟩
    · intro k
      show k ∈ x_indices s i ↔ _
      rw [e1, n1, ← a1]
      exact mem_active_positions _ _ k
    · intro k
      show k ∈ u_indices s i ↔ _
      rw [e2, n2, ← a3]
      exact mem_active_positions _ _ k
    · intro f hf
      show filled_data s f i = _
      unfold filled_data
      rw [if_pos ⟨hf, hi⟩]
      rfl

theorem ready_implies_squeezed_witness :
    (2 + 1 < UINT_MOD ∧ [2, 2, 2].length = 2 + 1 ∧ [1, 1, 0].length = 2 + 1 ∧
      [2, 2, 2].length = 2 + 1 ∧ [1, 1, 0].length = 2 + 1 ∧ [0, 0, 0].length = 2 + 1) ∧
    ocp_qp.create ⟨false, false, false, false, false⟩
      [2, 2, 2] [1, 1, 0] [2, 2, 2] [1, 1, 0] [0, 0, 0] [0, 0, 0] = .ok fresh ∧
    reachable fresh tightened ∧ tightened.needs_initializing = false ∧
    tightened.cached_bounds.lbx.getD 0 [] = [.fin (-2), .ninf] ∧
    x_indices tightened 0 = [0] ∧
    ∃ s0, ocp_qp.create ⟨false, false, false, false, false⟩
        [2, 2, 2] [1, 1, 0] [2, 2, 2] [1, 1, 0] [0, 0, 0] [0, 0, 0] = .ok s0 ∧
      ∀ s, reachable s0 s → s.needs_initializing = false →
        (∀ i, i < s.N + 1 →
          idxb (s.cached_bounds.lbx.getD i []) (s.cached_bounds.ubx.getD i [])
            = .ok (x_indices s i) ∧
          idxb (s.cached_bounds.lbu.getD i []) (s.cached_bounds.ubu.getD i [])
            = .ok (u_indices s i) ∧
          (nbx s).getD i 0 = (x_indices s i).length ∧
          (nbu s).getD i 0 = (u_indices s i).length) ∧
        ∃ s1, fill_in_bounds s = (.ok (), s1) ∧ s1.cached_bounds = s.cached_bounds ∧
          (∀ backend : ocp_qp → Int × ocp_qp_out,
            (solve backend s).2 = { s1 with backend_calls := s.backend_calls + 1 } ∧
            ((backend s1).1 = ACADOS_SUCCESS →
              (solve backend s).1 = .ok ⟨(backend s1).2⟩)) ∧
          ∀ i, i < s.N + 1 →
            (∀ k, k ∈ x_indices s1 i ↔ k < (nx s).getD i 0 ∧
              ((s.cached_bounds.lbx.getD i []).getD k Double.nan ≠ Double.ninf ∨
                (s.cached_bounds.ubx.getD i []).getD k Double.nan ≠ Double.pinf)) ∧
            (∀ k, k ∈ u_indices s1 i ↔ k < (nu s).getD i 0 ∧
              ((s.cached_bounds.lbu.getD i []).getD k Double.nan ≠ Double.ninf ∨
                (s.cached_bounds.ubu.getD i []).getD k Double.nan ≠ Double.pinf)) ∧
            ∀ f, is_bound_field f →
              s1.qp.data f i = (class_indices s1 f i).map
                (fun j => fill_value f (((cached s f).getD i []).getD j Double.nan)) :=
  ⟨⟨by decide, by decide, by decide, by decide, by decide, by decide⟩,
    create_eq _ 2 _ _ _ _ _ _ (by decide) (by decide) (by decide) (by decide),
    reachable.set_field _ "lbx" 0 [.fin (-2), .ninf]
      (reachable.initialize_solver _ (fun _ _ => true) "sparse_hpipm" []
        (reachable.set_field fresh "lbx" 0 [.fin (-1), .ninf] reachable.init)),
    by decide!, by decide!, by decide!,
    ready_implies_squeezed ⟨false, false, false, false, false⟩ 2
      [2, 2, 2] [1, 1, 0] [2, 2, 2] [1, 1, 0] [0, 0, 0] [0, 0, 0]
      (by decide) (by decide) (by decide) (by decide) (by decide) (by decide)⟩

end acados
